import Mathlib

/-!
# xlnt: package codec and worksheet model

A shallow embedding of `source/s11n/workbook_serializer.cpp` and of the cell store, the
dimension queries, `append`, `unique_sheet_name` and `merge_cells` of
`source/worksheet/worksheet.cpp`.

Conventions of the embedding:

* `std::string` is a list of characters (`string`); string literals are written
  `"...".toList`.
* `std::size_t` values are natural numbers; where the source relies on unsigned
  wrap-around (`npos + 1`) the arithmetic is taken modulo `2 ^ 64`.
* A C++ call either returns, throws, or has no defined behaviour; the three cases are
  the constructors of `Outcome`.
* A `std::unordered_map` is the list of its entries (`umap`); lookups see the first entry
  of a key, and statements that need keys to be unique assume `map_wf`.
-/

namespace xlnt

/-! ## Outcomes of C++ calls -/

/-- The exception classes thrown by the embedded code. -/
inductive cpp_exception where
  | invalid_argument
  | out_of_range
  | value_error
  | runtime_error
  | named_range_exception
  deriving DecidableEq, Repr

/-- Result of running a piece of C++: a returned value, a thrown exception, or behaviour
the language leaves undefined (for instance dereferencing a past-the-end iterator). -/
inductive Outcome (α : Type) where
  | returned (a : α)
  | raised (e : cpp_exception)
  | undefined
  deriving DecidableEq, Repr

namespace Outcome

/-- Sequencing: a throw or an undefined step ends the computation. -/
def bind {α β : Type} (x : Outcome α) (f : α → Outcome β) : Outcome β :=
  match x with
  | returned a => f a
  | raised e => raised e
  | undefined => undefined

/-- Whether the call threw. -/
def fails {α : Type} : Outcome α → Bool
  | raised _ => true
  | _ => false

end Outcome

/-! ## `std::string` and `std::size_t` primitives -/

/-- The type `std::string`. -/
abbrev string := List Char

/-- The constant `std::string::npos`, the largest `std::size_t`. -/
def npos : Nat := 2 ^ 64 - 1

/-- Addition of `std::size_t` values (wraps at `2 ^ 64`). -/
def size_add (a b : Nat) : Nat := (a + b) % 2 ^ 64

/-- Index of the first character satisfying `p` in `s`, counted from `i`. -/
def find_from (p : Char → Bool) : List Char → Nat → Option Nat
  | [], _ => none
  | c :: cs, i => if p c then some i else find_from p cs (i + 1)

/-- The call `s.find(ch, pos)`: position of the first `ch` at or after `pos`, else `npos`. -/
def find (s : string) (ch : Char) (pos : Nat) : Nat :=
  match find_from (fun c => c == ch) (s.drop pos) pos with
  | some i => i
  | none => npos

/-- The call `s.find_last_of(ch)`: position of the last `ch`, else `npos`. -/
def find_last_of (s : string) (ch : Char) : Nat :=
  match find_from (fun c => c == ch) s.reverse 0 with
  | some i => s.length - 1 - i
  | none => npos

/-- The call `s.substr(pos, count)`: throws `std::out_of_range` when `pos > size()`. -/
def substr (s : string) (pos : Nat) (count : Nat) : Outcome string :=
  if pos > s.length then Outcome.raised cpp_exception.out_of_range
  else Outcome.returned ((s.drop pos).take count)

/-- The predicate `isdigit` of the C locale. -/
def isdigit (c : Char) : Bool := decide ('0'.toNat ≤ c.toNat) && decide (c.toNat ≤ '9'.toNat)

/-- The predicate `isspace` of the C locale. -/
def isspace (c : Char) : Bool :=
  c == ' ' || c == '\t' || c == '\n' || c == Char.ofNat 11 || c == Char.ofNat 12 || c == '\r'

/-- Value of a run of decimal digits, most significant first. -/
def digits_value (ds : List Char) : Nat :=
  ds.foldl (fun acc c => acc * 10 + (c.toNat - '0'.toNat)) 0

/-- The common part of `std::stoi` / `std::stoll` (base 10): skip white space, read an
optional sign and the longest run of digits.  No digit: `std::invalid_argument`; value
outside `[lo, hi]`: `std::out_of_range`. -/
def sto_signed (lo hi : Int) (s : string) : Outcome Int :=
  let body : Bool × List Char :=
    match s.dropWhile isspace with
    | [] => (false, [])
    | c :: t => if c = '-' then (true, t) else if c = '+' then (false, t) else (false, c :: t)
  let ds := body.2.takeWhile isdigit
  if ds = [] then Outcome.raised cpp_exception.invalid_argument
  else
    let v : Int := if body.1 then -(digits_value ds : Int) else (digits_value ds : Int)
    if v < lo ∨ hi < v then Outcome.raised cpp_exception.out_of_range
    else Outcome.returned v

/-- Largest `int`. -/
def INT_MAX : Int := 2147483647

/-- Smallest `int`. -/
def INT_MIN : Int := -2147483648

/-- Largest `long long`. -/
def LLONG_MAX : Int := 9223372036854775807

/-- Smallest `long long`. -/
def LLONG_MIN : Int := -9223372036854775808

/-- The call `std::stoi(s)`. -/
def stoi (s : string) : Outcome Int := sto_signed INT_MIN INT_MAX s

/-- The call `std::stoll(s)`. -/
def stoll (s : string) : Outcome Int := sto_signed LLONG_MIN LLONG_MAX s

/-- The call `std::to_string(n)` for an unsigned value. -/
def to_string_nat (n : Nat) : string := Nat.toDigits 10 n

/-- The call `std::to_string(i)` for a signed value. -/
def to_string (i : Int) : string :=
  if i < 0 then '-' :: Nat.toDigits 10 i.natAbs else Nat.toDigits 10 i.toNat

/-! ## Date/time codec (`workbook_serializer.cpp`, anonymous namespace) -/

/-- The struct `xlnt::datetime`; all fields are `int`. -/
structure datetime where
  year : Int
  month : Int
  day : Int
  hour : Int
  minute : Int
  second : Int
  microsecond : Int
  deriving DecidableEq, Repr

/-- One field read of `w3cdtf_to_datetime`:
`std::stoi(string.substr(separator_index + 1, string.find(ch, separator_index + 1)))`. -/
def read_field (s : string) (separator_index : Nat) (ch : Char) : Outcome Int :=
  (substr s (size_add separator_index 1) (find s ch (size_add separator_index 1))).bind stoi

/-- The function `w3cdtf_to_datetime`.  The result starts as `datetime(1900, 1, 1)` and the
six fields are overwritten in turn; the second argument of each `substr` is the position
returned by `find`, exactly as in the source. -/
def w3cdtf_to_datetime (s : string) : Outcome datetime :=
  let sep0 := find s '-' 0
  ((substr s 0 sep0).bind stoi).bind fun year =>
  (read_field s sep0 '-').bind fun month =>
  let sep1 := find s '-' (size_add sep0 1)
  (read_field s sep1 'T').bind fun day =>
  let sep2 := find s 'T' (size_add sep1 1)
  (read_field s sep2 ':').bind fun hour =>
  let sep3 := find s ':' (size_add sep2 1)
  (read_field s sep3 ':').bind fun minute =>
  let sep4 := find s ':' (size_add sep3 1)
  (read_field s sep4 'Z').bind fun second =>
  Outcome.returned
    { year := year, month := month, day := day, hour := hour, minute := minute,
      second := second, microsecond := 0 }

/-- The function `fill(string, length)`: left-pad with `'0'` up to `length` characters. -/
def fill (s : string) (length : Nat) : string :=
  if s.length ≥ length then s else List.replicate (length - s.length) '0' ++ s

/-- The function `datetime_to_w3cdtf`. -/
def datetime_to_w3cdtf (dt : datetime) : string :=
  to_string dt.year ++ "-".toList ++ fill (to_string dt.month) 2 ++ "-".toList ++
    fill (to_string dt.day) 2 ++ "T".toList ++ fill (to_string dt.hour) 2 ++ ":".toList ++
    fill (to_string dt.minute) 2 ++ ":".toList ++ fill (to_string dt.second) 2 ++ "Z".toList

/-! ## Package model: manifest and relationships -/

/-- An override entry of the manifest: a part name and its content type. -/
structure override_type where
  part_name : string
  content_type : string
  deriving DecidableEq, Repr

/-- The manifest; `get_override_types()` returns the override entries in order. -/
structure manifest where
  override_types : List override_type
  deriving DecidableEq, Repr

/-- Modelled from the spec: the enumeration `relationship::type` (declared in
`relationship.hpp`, which is not among the sources); the kinds the specification lists,
and one constructor for every other kind. -/
inductive relationship_type where
  | worksheet
  | stylesheet
  | shared_strings
  | theme
  | core_properties
  | app_properties
  | other
  deriving DecidableEq, Repr

/-- A relationship, built as `relationship(type, r_id, target_uri)`. -/
structure relationship where
  type : relationship_type
  id : string
  target_uri : string
  deriving DecidableEq, Repr

/-! ## Worksheet inventory (`workbook_serializer::detect_worksheets`) -/

/-- The constant `ValidWorksheet`. -/
def ValidWorksheet : string :=
  "application/vnd.openxmlformats-officedocument.spreadsheetml.worksheet+xml".toList

/-- First loop of `detect_worksheets`: the part names of the overrides whose content type
is `ValidWorksheet`, pushed in manifest order. -/
def valid_sheets (m : manifest) : List string :=
  m.override_types.foldl
    (fun acc content_type =>
      if content_type.content_type = ValidWorksheet then acc ++ [content_type.part_name]
      else acc) []

/-- The expression `*std::find_if(begin, end, pred)`: the first element satisfying `pred`;
when there is none the past-the-end iterator is dereferenced, which is undefined. -/
def deref_find_if {α : Type} (pred : α → Bool) (l : List α) : Outcome α :=
  match l.find? pred with
  | some a => Outcome.returned a
  | none => Outcome.undefined

/-- Second loop of `detect_worksheets`, over the pairs `(relationship id, title)` returned
by `read_sheets()`, with `result` the vector built so far. -/
def detect_worksheets_loop (valid : List string) (workbook_relationships : List relationship) :
    List (string × string) → List (string × string) → Outcome (List (string × string))
  | [], result => Outcome.returned result
  | ws :: rest, result =>
    (deref_find_if (fun r => r.id == ws.1) workbook_relationships).bind fun rel =>
      let target := rel.target_uri
      if ("/".toList ++ target) ∈ valid then
        detect_worksheets_loop valid workbook_relationships rest (result ++ [(target, ws.2)])
      else
        detect_worksheets_loop valid workbook_relationships rest result

/-- The function `workbook_serializer::detect_worksheets`; its inputs are the workbook's
manifest, the workbook's relationships and the sheet list returned by `read_sheets()`. -/
def detect_worksheets (m : manifest) (workbook_relationships : List relationship)
    (read_sheets : List (string × string)) : Outcome (List (string × string)) :=
  detect_worksheets_loop (valid_sheets m) workbook_relationships read_sheets []

/-! ## Worksheets and workbooks -/

/-- Modelled from the spec: the enumeration `page_setup::sheet_state` (declared in
`page_setup.hpp`, not among the sources), a visibility tri-state. -/
inductive sheet_state where
  | visible
  | hidden
  | very_hidden
  deriving DecidableEq, Repr

/-- The part of `page_setup` read by the serializer. -/
structure page_setup where
  sheet_state_ : sheet_state
  deriving DecidableEq, Repr

/-- A cell reference: column index and row. -/
structure cell_reference where
  column_index : Nat
  row : Nat
  deriving DecidableEq, Repr

/-- A range reference, built as
`range_reference(column_start, row_start, column_end, row_end)`. -/
structure range_reference where
  top_left : cell_reference
  bottom_right : cell_reference
  deriving DecidableEq, Repr

/-- Modelled from the spec: `range_reference::get_width` (`range_reference.cpp` is not among
the sources), the derived width of a range: the column distance between its corners, so
that the range `(1, 1, 1, 1)` stored by `unset_auto_filter` has width zero. -/
def range_reference.get_width (r : range_reference) : Nat :=
  r.bottom_right.column_index - r.top_left.column_index

/-- Modelled from the spec: the two operations of `range_reference.cpp` (not among the
sources) that `write_workbook` calls, absolute anchoring and the string form. -/
structure range_ops where
  make_absolute : range_reference → range_reference
  to_string : range_reference → string

/-- The worksheet state (`detail::worksheet_impl`) read by the serializer. -/
structure worksheet where
  title_ : string
  page_setup_ : page_setup
  auto_filter_ : range_reference
  deriving DecidableEq, Repr

/-- The function `worksheet::get_title`; a worksheet value here always has its state, so the
null-handle check of the source never throws. -/
def worksheet.get_title (ws : worksheet) : string := ws.title_

/-- The function `worksheet::get_auto_filter`. -/
def worksheet.get_auto_filter (ws : worksheet) : range_reference := ws.auto_filter_

/-- The function `worksheet::has_auto_filter`. -/
def worksheet.has_auto_filter (ws : worksheet) : Bool := decide (ws.auto_filter_.get_width > 0)

/-- The function `worksheet::unset_auto_filter`. -/
def worksheet.unset_auto_filter (ws : worksheet) : worksheet :=
  { ws with auto_filter_ := ⟨⟨1, 1⟩, ⟨1, 1⟩⟩ }

/-- The date base of a workbook. -/
inductive calendar where
  | windows_1900
  | mac_1904
  deriving DecidableEq, Repr

/-- The struct `document_properties`. -/
structure document_properties where
  creator : string
  last_modified_by : string
  created : datetime
  modified : datetime
  title : string
  excel_base_date : calendar
  deriving DecidableEq, Repr

/-- The workbook state read by the serializer: worksheets in order, relationships,
manifest and document properties. -/
structure workbook where
  worksheets_ : List worksheet
  relationships_ : List relationship
  manifest_ : manifest
  properties_ : document_properties
  deriving DecidableEq, Repr

/-- Modelled from the spec: `workbook::get_sheet_by_index` (`workbook.cpp` is not among the
sources) fetches the worksheet at a zero-based position of the workbook's ordered sequence;
the specification gives no result for a position outside the sequence, which is left
undefined here. -/
def workbook.get_sheet_by_index (wb : workbook) (index : Nat) : Outcome worksheet :=
  match wb.worksheets_[index]? with
  | some ws => Outcome.returned ws
  | none => Outcome.undefined

/-! ## XML trees -/

/-- An XML element: name, attributes in the order they were added, optional text and
children in order. -/
inductive xml_node where
  | mk (name : string) (attributes : List (string × string)) (text : Option string)
      (children : List xml_node)
  deriving Repr

/-- Name of an element. -/
def xml_node.get_name : xml_node → string
  | mk n _ _ _ => n

/-- Attributes of an element. -/
def xml_node.get_attributes : xml_node → List (string × string)
  | mk _ a _ _ => a

/-- Value of the attribute `key` of an element, if it has one. -/
def xml_node.get_attribute (n : xml_node) (key : string) : Option string :=
  (n.get_attributes.find? (fun kv => kv.1 == key)).map Prod.snd

/-- Text of an element. -/
def xml_node.get_text : xml_node → Option string
  | mk _ _ t _ => t

/-- Children of an element. -/
def xml_node.get_children : xml_node → List xml_node
  | mk _ _ _ c => c

/-- An XML document: namespace table and root element. -/
structure xml_document where
  namespaces : List (string × string)
  root : xml_node

/-! ## Workbook part (`workbook_serializer::write_workbook`) -/

/-- First loop of `write_workbook`: the number of worksheets whose sheet state is
`visible` (a `std::size_t` counter, which a workbook cannot make wrap). -/
def num_visible (wb : workbook) : Nat :=
  wb.worksheets_.foldl
    (fun n ws => if ws.page_setup_.sheet_state_ = sheet_state.visible then n + 1 else n) 0

/-- The backward scan `iter = end(); iter--; while (isdigit(*iter)) iter--;` followed by
`first_digit = iter - begin()`.  The argument counts the characters not yet passed, so the
iterator stands at index `k` in the case `k + 1`; stepping before `begin()` is undefined. -/
def scan_digits_back (s : string) : Nat → Outcome Nat
  | 0 => Outcome.undefined
  | k + 1 =>
    match s[k]? with
    | some c => if isdigit c then scan_digits_back s k else Outcome.returned k
    | none => Outcome.undefined

/-- Lines 305 to 313 of `write_workbook`: the zero-based sheet index derived from a
relationship target. -/
def sheet_index_of (target_uri : string) : Outcome Nat :=
  (substr target_uri 0 (find target_uri '.' 0)).bind fun s1 =>
  (substr s1 (find_last_of s1 '/') npos).bind fun s2 =>
  (scan_digits_back s2 s2.length).bind fun first_digit =>
  (substr s2 (first_digit + 1) npos).bind fun s3 =>
  (stoll s3).bind fun v =>
  if v - 1 < LLONG_MIN then Outcome.undefined
  else Outcome.returned ((v - 1) % 2 ^ 64).toNat

/-- Modelled from the spec: `xml_node::add_attribute` (`xml_node.hpp` is not among the
sources): the attribute is added after those the element has. -/
def xml_node.add_attribute : xml_node → string → string → xml_node
  | mk n a t c, key, value => mk n (a ++ [(key, value)]) t c

/-- Modelled from the spec: what `n.add_child(child_name)` does to `n` (`xml_node.hpp` is
not among the sources): an element with that name, without attributes, text or children,
is added after the children `n` has.  An element owns its children by value and the call
returns a reference to the new child (lines 275, 281 and 324 bind it with `auto &`); so
after `auto c = n.add_child(child_name)` the variable `c` is a copy of the child, and what
is then written to `c` does not reach `n`. -/
def xml_node.add_child : xml_node → string → xml_node
  | mk n a t c, child_name => mk n a t (c ++ [mk child_name [] none []])

/-- What the statements `auto &c = n.add_child(child_name);` and the writes to `c` that
follow do to `n`: `c` is a reference to the new child, which becomes `f` of the empty
element. -/
def xml_node.add_child_ref : xml_node → string → (xml_node → xml_node) → xml_node
  | mk n a t c, child_name, f => mk n a t (c ++ [f (mk child_name [] none [])])

/-- The local `sheet_node` at the end of lines 317 to 320.  It is declared with `auto`, so
it is a copy of the `sheet` child just added to `sheets_node`; the three attributes are
added to the copy. -/
def sheet_node (ws : worksheet) (rel : relationship) (sheet_index : Nat) : xml_node :=
  (((xml_node.mk "sheet".toList [] none []).add_attribute "name".toList
    ws.get_title).add_attribute "r:id".toList rel.id).add_attribute "sheetId".toList
    (to_string_nat (size_add sheet_index 1))

/-- The `definedName` element added to `defined_names_node` for a worksheet with an auto
filter; `defined_name_node` is a reference (`auto &`), so the attributes and the text are
those of the child. -/
def defined_name_node (ops : range_ops) (ws : worksheet) : xml_node :=
  xml_node.mk "definedName".toList
    [("name".toList, "_xlnm._FilterDatabase".toList), ("hidden".toList, "1".toList),
      ("localSheetId".toList, "0".toList)]
    (some ("'".toList ++ ws.get_title ++ "'!".toList ++
      ops.to_string (ops.make_absolute ws.get_auto_filter))) []

/-- Body of the loop over `wb_.get_relationships()` in `write_workbook`; the state is the
pair of child lists of the locals `sheets_node` and `defined_names_node`.  The child added
to `sheets_node` stays without attributes, because they are added to the copy
`sheet_node`. -/
def write_relationship (ops : range_ops) (wb : workbook)
    (nodes : List xml_node × List xml_node) (rel : relationship) :
    Outcome (List xml_node × List xml_node) :=
  if rel.type = relationship_type.worksheet then
    (sheet_index_of rel.target_uri).bind fun sheet_index =>
    (wb.get_sheet_by_index sheet_index).bind fun ws =>
      if ws.has_auto_filter then
        Outcome.returned
          (nodes.1 ++ [xml_node.mk "sheet".toList [] none []],
            nodes.2 ++ [defined_name_node ops ws])
      else
        Outcome.returned (nodes.1 ++ [xml_node.mk "sheet".toList [] none []], nodes.2)
  else Outcome.returned nodes

/-- The loop over `wb_.get_relationships()`. -/
def write_relationships (ops : range_ops) (wb : workbook) :
    List relationship → List xml_node × List xml_node → Outcome (List xml_node × List xml_node)
  | [], nodes => Outcome.returned nodes
  | rel :: rest, nodes =>
    (write_relationship ops wb nodes rel).bind (write_relationships ops wb rest)

/-- The document `write_workbook` returns when its loop has ended; the argument is the
final state of the loop, the child lists of the locals `sheets_node` and
`defined_names_node`.  The locals `file_version_node` and `workbook_pr_node` are references
(`auto &`), so their attributes are in the document.  The locals `book_views_node`,
`sheets_node`, `defined_names_node` and `calc_pr_node` are declared with `auto`: each is a
copy of the child just added to the root, and what is added to the copy (the `workbookView`
element, the children built by the loop, the attributes of `calcPr`) is not in the
document. -/
def workbook_document (wb : workbook) (_nodes : List xml_node × List xml_node) :
    xml_document :=
  { namespaces :=
      [("xmlns".toList, "http://schemas.openxmlformats.org/spreadsheetml/2006/main".toList),
        ("xmlns:r".toList,
          "http://schemas.openxmlformats.org/officeDocument/2006/relationships".toList)]
    root :=
      ((((((xml_node.mk "workbook".toList [] none []).add_child_ref "fileVersion".toList
        (fun file_version_node =>
          (((file_version_node.add_attribute "appName".toList "xl".toList).add_attribute
            "lastEdited".toList "4".toList).add_attribute
            "lowestEdited".toList "4".toList).add_attribute
            "rupBuild".toList "4505".toList)).add_child_ref "workbookPr".toList
        (fun workbook_pr_node =>
          ((workbook_pr_node.add_attribute "codeName".toList
            "ThisWorkbook".toList).add_attribute
            "defaultThemeVersion".toList "124226".toList).add_attribute "date1904".toList
            (if wb.properties_.excel_base_date = calendar.mac_1904 then "1".toList
              else "0".toList))).add_child
        "bookViews".toList).add_child "sheets".toList).add_child
        "definedNames".toList).add_child "calcPr".toList }

/-- The function `workbook_serializer::write_workbook`. -/
def write_workbook (ops : range_ops) (wb : workbook) : Outcome xml_document :=
  if num_visible wb = 0 then Outcome.raised cpp_exception.value_error
  else
    (write_relationships ops wb wb.relationships_ ([], [])).bind fun nodes =>
      Outcome.returned (workbook_document wb nodes)

/-- The children of the element named `name` directly under the root of a document. -/
def xml_document.children_of (doc : xml_document) (name : string) : List xml_node :=
  match doc.root.get_children.find? (fun n => n.get_name == name) with
  | some n => n.get_children
  | none => []

/-! ## Document type (`workbook_serializer::determine_document_type`) -/

/-- Modelled from the spec: `manifest::has_override_type` (`manifest.cpp` is not among the
sources): whether the manifest holds an explicit override for the part. -/
def manifest.has_override_type (m : manifest) (part_name : string) : Bool :=
  m.override_types.any (fun o => o.part_name == part_name)

/-- Modelled from the spec: `manifest::get_override_type` (`manifest.cpp` is not among the
sources): the content type of the override declared for the part; a lookup of a part
without override throws. -/
def manifest.get_override_type (m : manifest) (part_name : string) : Outcome string :=
  match m.override_types.find? (fun o => o.part_name == part_name) with
  | some o => Outcome.returned o.content_type
  | none => Outcome.raised cpp_exception.runtime_error

/-- The function `workbook_serializer::determine_document_type`; `ArcWorkbook` is the
constant `constants::ArcWorkbook` (declared in `detail/constants.hpp`, not among the
sources), the name of the main document part. -/
def determine_document_type (ArcWorkbook : string) (m : manifest) : Outcome string :=
  if !m.has_override_type ArcWorkbook then Outcome.returned "unsupported".toList
  else
    (m.get_override_type ArcWorkbook).bind fun type =>
      if type =
          "application/vnd.openxmlformats-officedocument.spreadsheetml.sheet.main+xml".toList
      then Outcome.returned "excel".toList
      else if type =
          "application/vnd.openxmlformats-officedocument.presentationml.presentation.main+xml".toList
      then Outcome.returned "powerpoint".toList
      else if type =
          "application/vnd.openxmlformats-officedocument.wordprocessingml.document.main+xml".toList
      then Outcome.returned "word".toList
      else Outcome.returned "unsupported".toList

/-! ## Core properties (`workbook_serializer::read_properties_core`) -/

/-- Modelled from the spec: `xml_node::has_child` (`xml_node.cpp` is not among the sources):
whether the element has a child of the given name. -/
def xml_node.has_child (n : xml_node) (name : string) : Bool :=
  n.get_children.any (fun c => c.get_name == name)

/-- Modelled from the spec: `xml_node::get_child` (`xml_node.cpp` is not among the sources):
the first child of the given name; an element without text or children when there is
none. -/
def xml_node.get_child (n : xml_node) (name : string) : xml_node :=
  (n.get_children.find? (fun c => c.get_name == name)).getD (xml_node.mk name [] none [])

/-- The `std::string` returned by `xml_node::get_text`: the text of the element, empty when
it has none. -/
def xml_node.get_text_string (n : xml_node) : string := n.get_text.getD []

/-- The two timestamp blocks of `read_properties_core`: when the element is present its text
is decoded and stored by `set`; a failing decode leaves the properties as they are and ends
the call. -/
def read_timestamp (root_node : xml_node) (name : string)
    (set : document_properties → datetime → document_properties)
    (props : document_properties) : document_properties × Outcome Unit :=
  if root_node.has_child name then
    match w3cdtf_to_datetime (root_node.get_child name).get_text_string with
    | Outcome.returned dt => (set props dt, Outcome.returned ())
    | Outcome.raised e => (props, Outcome.raised e)
    | Outcome.undefined => (props, Outcome.undefined)
  else (props, Outcome.returned ())

/-- The function `workbook_serializer::read_properties_core`.  The properties are written
through a reference, so the result is the pair of the properties at the end of the call and
the way the call ended. -/
def read_properties_core (xml : xml_document) (props : document_properties) :
    document_properties × Outcome Unit :=
  let root_node := xml.root
  let p0 := { props with excel_base_date := calendar.windows_1900 }
  let p1 :=
    if root_node.has_child "dc:creator".toList then
      { p0 with creator := (root_node.get_child "dc:creator".toList).get_text_string }
    else p0
  let p2 :=
    if root_node.has_child "cp:lastModifiedBy".toList then
      { p1 with
        last_modified_by := (root_node.get_child "cp:lastModifiedBy".toList).get_text_string }
    else p1
  match read_timestamp root_node "dcterms:created".toList
      (fun p dt => { p with created := dt }) p2 with
  | (p3, Outcome.returned _) =>
    read_timestamp root_node "dcterms:modified".toList (fun p dt => { p with modified := dt }) p3
  | (p3, out) => (p3, out)

/-! ## Cells and the cell store (`worksheet.cpp`) -/

/-- The type `row_t`. -/
abbrev row_t := Nat

/-- The type `column_t`. -/
abbrev column_t := Nat

/-- Modelled from the spec: the value of a cell (`cell.hpp` is not among the sources), a
tagged union: empty, string, number, boolean, formula text, error, date/time. -/
inductive cell_value where
  | empty
  | string (s : string)
  | number (q : Rat)
  | boolean (b : Bool)
  | formula (text : string)
  | error (text : string)
  | date_time (dt : datetime)
  deriving DecidableEq, Repr

/-- Modelled from the spec: the cell state `detail::cell_impl` (`cell_impl.hpp` is not among
the sources): position, value, merge flag and style reference (`none` is the default
style). -/
structure cell_impl where
  column : column_t
  row : row_t
  value : cell_value
  is_merged : Bool
  style : Option Nat
  deriving DecidableEq, Repr

/-- Modelled from the spec: the constructor `cell_impl(parent, column, row)` used by
`get_cell`: a cell with an empty value, unmerged, with the default style. -/
def cell_impl.create (column : column_t) (row : row_t) : cell_impl :=
  ⟨column, row, cell_value.empty, false, none⟩

/-- Modelled from the spec: `cell::garbage_collectible` (`cell.cpp` is not among the
sources): the value is empty, the cell is not merged and has no non-default style. -/
def cell_impl.garbage_collectible (c : cell_impl) : Bool :=
  decide (c.value = cell_value.empty) && !c.is_merged && c.style.isNone

/-- Modelled from the spec: the test `get_data_type() == cell::type::string`. -/
def cell_impl.is_string (c : cell_impl) : Bool :=
  match c.value with
  | cell_value.string _ => true
  | _ => false

/-- Modelled from the spec: `cell::set_value(std::string)`: the cell holds the string. -/
def cell_impl.set_value (c : cell_impl) (s : string) : cell_impl :=
  { c with value := cell_value.string s }

/-- Modelled from the spec: `cell::clear_value`: the cell becomes fully empty. -/
def cell_impl.clear_value (c : cell_impl) : cell_impl :=
  { c with value := cell_value.empty }

/-- Modelled from the spec: `cell::set_merged`. -/
def cell_impl.set_merged (c : cell_impl) (merged : Bool) : cell_impl :=
  { c with is_merged := merged }

/-- A `std::unordered_map` keyed by row or column numbers, as the list of its entries in
iteration order; the first entry of a key is the one the map operations see. -/
abbrev umap (β : Type) := List (Nat × β)

/-- The lookup `m.find(key)`: the value stored under `key`, if any. -/
def map_find {β : Type} : umap β → Nat → Option β
  | [], _ => none
  | (k, v) :: rest, key => if k = key then some v else map_find rest key

/-- The assignment `m[key] = v`: overwrites the value of an existing key, inserts a new
entry otherwise (placed last in the iteration order). -/
def map_set {β : Type} : umap β → Nat → β → umap β
  | [], key, v => [(key, v)]
  | (k, x) :: rest, key, v => if k = key then (k, v) :: rest else (k, x) :: map_set rest key v

/-- The columns of one row: `std::unordered_map<column_t, cell_impl>`. -/
abbrev column_map := umap cell_impl

/-- The cell store `cell_map_`: row, then column, then cell. -/
abbrev cell_map := umap column_map

/-- Modelled from the spec: the class `named_range` (`named_range.hpp` is not among the
sources): a name and its targets, each a worksheet handle paired with a range. -/
structure named_range where
  name : string
  targets : List (Nat × range_reference)
  deriving DecidableEq, Repr

/-- The worksheet state `detail::worksheet_impl` with its cell store, merged ranges and
named ranges (a map from names, as the list of its entries). -/
structure worksheet_impl extends worksheet where
  cell_map_ : cell_map
  merged_cells_ : List range_reference
  named_ranges_ : List (string × named_range) := []
  deriving DecidableEq, Repr

/-- The cell stored at a row and column, if any. -/
def worksheet_impl.cell_at (ws : worksheet_impl) (row : row_t) (column : column_t) :
    Option cell_impl :=
  (map_find ws.cell_map_ row).bind fun r => map_find r column

/-- The mutable `worksheet::get_cell`: creates the row, then the cell, when absent; the
result is the worksheet afterwards and the cell the returned handle points to. -/
def worksheet_impl.get_cell (ws : worksheet_impl) (reference : cell_reference) :
    worksheet_impl × cell_impl :=
  let cell_map1 :=
    if (map_find ws.cell_map_ reference.row).isNone then map_set ws.cell_map_ reference.row []
    else ws.cell_map_
  let row := (map_find cell_map1 reference.row).getD []
  let row1 :=
    if (map_find row reference.column_index).isNone then
      map_set row reference.column_index
        (cell_impl.create reference.column_index reference.row)
    else row
  ({ ws with cell_map_ := map_set cell_map1 reference.row row1 },
    (map_find row1 reference.column_index).getD
      (cell_impl.create reference.column_index reference.row))

/-- The `const` overload of `worksheet::get_cell`: `at` throws `std::out_of_range` when the
row or the column is absent. -/
def worksheet_impl.get_cell_const (ws : worksheet_impl) (reference : cell_reference) :
    Outcome cell_impl :=
  match ws.cell_at reference.row reference.column_index with
  | some c => Outcome.returned c
  | none => Outcome.raised cpp_exception.out_of_range

/-- A write through the handle returned by the mutable `get_cell`: the cell at the
reference, created when absent, is replaced by `f` of itself. -/
def worksheet_impl.update_cell (ws : worksheet_impl) (reference : cell_reference)
    (f : cell_impl → cell_impl) : worksheet_impl :=
  let r := ws.get_cell reference
  { r.1 with
    cell_map_ :=
      map_set r.1.cell_map_ reference.row
        (map_set ((map_find r.1.cell_map_ reference.row).getD []) reference.column_index
          (f r.2)) }

/-- Inner loop of `garbage_collect`: erases the collectible cells of one row. -/
def gc_row : column_map → column_map
  | [] => []
  | (c, cell) :: rest =>
    if cell.garbage_collectible then gc_row rest else (c, cell) :: gc_row rest

/-- Outer loop of `garbage_collect`: cleans each row and erases the rows left empty. -/
def gc_rows : cell_map → cell_map
  | [] => []
  | (r, row) :: rest =>
    if (gc_row row).isEmpty then gc_rows rest else (r, gc_row row) :: gc_rows rest

/-- The function `worksheet::garbage_collect`. -/
def worksheet_impl.garbage_collect (ws : worksheet_impl) : worksheet_impl :=
  { ws with cell_map_ := gc_rows ws.cell_map_ }

/-- The number of cells in the store. -/
def cell_count (m : cell_map) : Nat := (m.map (fun r => r.2.length)).sum

/-- A worksheet right after creation: no cell, no merged range, no auto filter. -/
def new_worksheet (title : string) : worksheet_impl :=
  { title_ := title
    page_setup_ := ⟨sheet_state.visible⟩
    auto_filter_ := ⟨⟨1, 1⟩, ⟨1, 1⟩⟩
    cell_map_ := []
    merged_cells_ := [] }

/-! ## Dimensions (`worksheet.cpp`) -/

/-- The function `worksheet::get_lowest_column`; `column_max` is
`std::numeric_limits<column_t>::max()`. -/
def worksheet_impl.get_lowest_column (column_max : Nat) (ws : worksheet_impl) : column_t :=
  if ws.cell_map_.isEmpty then 1
  else
    ws.cell_map_.foldl
      (fun lowest row => row.2.foldl (fun lowest c => min lowest c.1) lowest) column_max

/-- The function `worksheet::get_lowest_row`; `row_max` is
`std::numeric_limits<row_t>::max()`. -/
def worksheet_impl.get_lowest_row (row_max : Nat) (ws : worksheet_impl) : row_t :=
  if ws.cell_map_.isEmpty then 1
  else ws.cell_map_.foldl (fun lowest row => min lowest row.1) row_max

/-- The function `worksheet::get_highest_row`. -/
def worksheet_impl.get_highest_row (ws : worksheet_impl) : row_t :=
  ws.cell_map_.foldl (fun highest row => max highest row.1) 1

/-- The function `worksheet::get_highest_column`. -/
def worksheet_impl.get_highest_column (ws : worksheet_impl) : column_t :=
  ws.cell_map_.foldl
    (fun highest row => row.2.foldl (fun highest c => max highest c.1) highest) 1

/-- The function `worksheet::calculate_dimension`: the range
`(lowest_column, lowest_row, highest_column, highest_row)`. -/
def worksheet_impl.calculate_dimension (column_max row_max : Nat) (ws : worksheet_impl) :
    range_reference :=
  ⟨⟨ws.get_lowest_column column_max, ws.get_lowest_row row_max⟩,
    ⟨ws.get_highest_column, ws.get_highest_row⟩⟩

/-! ## Appending a row (`worksheet.cpp`) -/

/-- The function `worksheet::get_next_row`; the sum is computed in `row_t`, so it wraps
after `row_max`. -/
def worksheet_impl.get_next_row (row_max : Nat) (ws : worksheet_impl) : row_t :=
  let row := (ws.get_highest_row + 1) % (row_max + 1)
  if row = 2 ∧ ws.cell_map_.length = 0 then 1 else row

/-- The loop of `worksheet::append(const std::vector<std::string> &)`: writes the value at
`next` and moves `next` one column to the right (a `column_t` sum, wrapping after
`column_max`). -/
def append_loop (column_max : Nat) :
    List string → worksheet_impl → cell_reference → worksheet_impl
  | [], ws, _ => ws
  | cell :: rest, ws, next =>
    append_loop column_max rest (ws.update_cell next (fun c => c.set_value cell))
      { next with column_index := (next.column_index + 1) % (column_max + 1) }

/-- The function `worksheet::append(const std::vector<std::string> &)`. -/
def worksheet_impl.append (column_max row_max : Nat) (ws : worksheet_impl)
    (cells : List string) : worksheet_impl :=
  append_loop column_max cells ws ⟨1, ws.get_next_row row_max⟩

/-! ## Sheet names (`worksheet::unique_sheet_name`) -/

/-- The `while` loop of `unique_sheet_name`, run for at most `fuel` tests of its condition:
`found` is `match != names.end()`, `append` the counter; the result is the counter when the
loop ends. -/
def unique_sheet_name_loop (names : List string) (value : string) :
    Nat → Nat → Bool → Option Nat
  | 0, _, _ => none
  | fuel + 1, append, found =>
    if found then
      unique_sheet_name_loop names value fuel (append + 1)
        (decide (value ++ to_string_nat (append + 1) ∈ names))
    else some append

/-- The function `worksheet::unique_sheet_name`, with `names` the list returned by
`get_parent().get_sheet_names()`; `none` when `fuel` tests do not end the loop. -/
def unique_sheet_name (fuel : Nat) (names : List string) (value : string) : Option string :=
  (unique_sheet_name_loop names value fuel 0 (decide (value ∈ names))).map fun append =>
    if append = 0 then value else value ++ to_string_nat append

/-! ## Merged cells (`worksheet::merge_cells`) -/

/-- Modelled from the spec: the iteration `for (auto row : get_range(reference)) for (auto
cell : row)` (`range.cpp` is not among the sources): the references of the range in
row-major order, corners included. -/
def range_reference.cells (r : range_reference) : List cell_reference :=
  (List.range' r.top_left.row (r.bottom_right.row + 1 - r.top_left.row)).flatMap fun row =>
    (List.range' r.top_left.column_index
      (r.bottom_right.column_index + 1 - r.top_left.column_index)).map fun column =>
        ⟨column, row⟩

/-- What the body of the loop of `merge_cells` does to one cell: set the merge flag and,
unless it is the first cell, empty the value (a string cell gets the empty string). -/
def merge_cell (first : Bool) (cell : cell_impl) : cell_impl :=
  let merged := cell.set_merged true
  if !first then
    if merged.is_string then merged.set_value [] else merged.clear_value
  else merged

/-- The loop of `merge_cells` over the cells of the range, each reached through the mutable
`get_cell`; `first` is the flag of the source. -/
def merge_cells_loop : List cell_reference → worksheet_impl → Bool → worksheet_impl
  | [], ws, _ => ws
  | reference :: rest, ws, first =>
    merge_cells_loop rest (ws.update_cell reference (merge_cell first)) false

/-- The function `worksheet::merge_cells(const range_reference &)`. -/
def worksheet_impl.merge_cells (ws : worksheet_impl) (reference : range_reference) :
    worksheet_impl :=
  merge_cells_loop reference.cells
    { ws with merged_cells_ := ws.merged_cells_ ++ [reference] } true

/-! ## Unmerging (`worksheet::unmerge_cells`) -/

/-- The loop of `unmerge_cells` over the cells of the range, each reached through the
mutable `get_cell`. -/
def unmerge_cells_loop : List cell_reference → worksheet_impl → worksheet_impl
  | [], ws => ws
  | reference :: rest, ws =>
    unmerge_cells_loop rest (ws.update_cell reference (fun cell => cell.set_merged false))

/-- The function `worksheet::unmerge_cells(const range_reference &)`: the worksheet at the
end of the call and the way the call ended.  Ranges are compared corner by corner; a range
that is not found throws `std::runtime_error` before anything is changed, otherwise the
first occurrence is erased. -/
def worksheet_impl.unmerge_cells (ws : worksheet_impl) (reference : range_reference) :
    worksheet_impl × Outcome Unit :=
  if reference ∈ ws.merged_cells_ then
    (unmerge_cells_loop reference.cells
      { ws with merged_cells_ := ws.merged_cells_.erase reference }, Outcome.returned ())
  else (ws, Outcome.raised cpp_exception.runtime_error)

/-! ## Named ranges (`worksheet.cpp`) -/

/-- The lookup `named_ranges_.find(name)`. -/
def named_find {β : Type} : List (string × β) → string → Option β
  | [], _ => none
  | (k, v) :: rest, key => if k = key then some v else named_find rest key

/-- The assignment `named_ranges_[name] = v`. -/
def named_set {β : Type} : List (string × β) → string → β → List (string × β)
  | [], key, v => [(key, v)]
  | (k, x) :: rest, key, v =>
    if k = key then (k, v) :: rest else (k, x) :: named_set rest key v

/-- The function `worksheet::create_named_range`; `self` is the handle of this worksheet,
the first component of the single target. -/
def worksheet_impl.create_named_range (self : Nat) (ws : worksheet_impl) (name : string)
    (reference : range_reference) : worksheet_impl :=
  { ws with named_ranges_ := named_set ws.named_ranges_ name ⟨name, [(self, reference)]⟩ }

/-- The function `worksheet::has_named_range`. -/
def worksheet_impl.has_named_range (ws : worksheet_impl) (name : string) : Bool :=
  (named_find ws.named_ranges_ name).isSome

/-- The function `worksheet::get_named_range`: the worksheet at the end of the call and the
range of the first target.  A name without entry throws `named_range_exception`; indexing
an empty target vector is undefined. -/
def worksheet_impl.get_named_range (ws : worksheet_impl) (name : string) :
    worksheet_impl × Outcome range_reference :=
  if !ws.has_named_range name then (ws, Outcome.raised cpp_exception.named_range_exception)
  else
    match named_find ws.named_ranges_ name with
    | some nr =>
      match nr.targets with
      | target :: _ => (ws, Outcome.returned target.2)
      | [] => (ws, Outcome.undefined)
    | none => (ws, Outcome.undefined)

/-! ## Core properties, written (`workbook_serializer::write_properties_core`) -/

/-- The function `workbook_serializer::write_properties_core`. -/
def write_properties_core (props : document_properties) : xml_document :=
  { namespaces :=
      [("cp".toList,
          "http://schemas.openxmlformats.org/package/2006/metadata/core-properties".toList),
        ("dc".toList, "http://purl.org/dc/elements/1.1/".toList),
        ("dcmitype".toList, "http://purl.org/dc/dcmitype/".toList),
        ("dcterms".toList, "http://purl.org/dc/terms/".toList),
        ("xsi".toList, "http://www.w3.org/2001/XMLSchema-instance".toList)]
    root :=
      xml_node.mk "cp:coreProperties".toList [] none
        [xml_node.mk "dc:creator".toList [] (some props.creator) [],
          xml_node.mk "cp:lastModifiedBy".toList [] (some props.last_modified_by) [],
          xml_node.mk "dcterms:created".toList [("xsi:type".toList, "dcterms:W3CDTF".toList)]
            (some (datetime_to_w3cdtf props.created)) [],
          xml_node.mk "dcterms:modified".toList [("xsi:type".toList, "dcterms:W3CDTF".toList)]
            (some (datetime_to_w3cdtf props.modified)) [],
          xml_node.mk "dc:title".toList [] (some props.title) [],
          xml_node.mk "dc:description".toList [] none [],
          xml_node.mk "dc:subject".toList [] none [],
          xml_node.mk "cp:keywords".toList [] none [],
          xml_node.mk "cp:category".toList [] none []] }

/-! ## Specification-side definitions -/

/-- The two-character field of the timestamp format as the specification words it: the
decimal value left-padded with `'0'`, that is the tens digit followed by the units digit. -/
def spec_two_digits (n : Int) : string :=
  [Nat.digitChar (n.toNat / 10), Nat.digitChar (n.toNat % 10)]

/-- The timestamp text as the specification words it:
`decimal(year) - MM - DD T hh : mm : ss Z`. -/
def spec_w3cdtf (dt : datetime) : string :=
  to_string dt.year ++ '-' :: (spec_two_digits dt.month ++ '-' :: (spec_two_digits dt.day ++
    'T' :: (spec_two_digits dt.hour ++ ':' :: (spec_two_digits dt.minute ++ ':' ::
    (spec_two_digits dt.second ++ ['Z'])))))

/-- A non-empty run of decimal digits whose value fits an `int`. -/
def int_field (F : List Char) : Prop :=
  F ≠ [] ∧ (∀ c ∈ F, isdigit c = true) ∧ (digits_value F : Int) ≤ INT_MAX

/-- The manifest's candidate worksheet parts as the specification words them: every part
path whose content type equals the worksheet content type. -/
def spec_candidates (m : manifest) : List string :=
  (m.override_types.filter (fun o => decide (o.content_type = ValidWorksheet))).map
    (fun o => o.part_name)

/-- The target URI of the first relationship with the given id (empty when there is none). -/
def target_of (workbook_relationships : List relationship) (id : string) : string :=
  match workbook_relationships.find? (fun r => r.id == id) with
  | some r => r.target_uri
  | none => []

/-- The inventory of the example in the specification: manifest, relationships, sheet
list. -/
def example_manifest : manifest :=
  ⟨[⟨"/xl/worksheets/sheet1.xml".toList, ValidWorksheet⟩]⟩

/-- Relationships of the example inventory. -/
def example_relationships : List relationship :=
  [⟨relationship_type.worksheet, "rId1".toList, "worksheets/sheet1.xml".toList⟩]

/-- Sheet list of the example inventory. -/
def example_sheets : List (string × string) := [("rId1".toList, "Data".toList)]

/-- Whether a character can start the number read by `std::stoi`: white space, a sign or
a digit. -/
def numeric_start (c : Char) : Bool :=
  isspace c || decide (c = '-') || decide (c = '+') || isdigit c

/-- The five values taken by `separator_index` in `w3cdtf_to_datetime`, in order. -/
def separator_indices (s : string) : List Nat :=
  let sep0 := find s '-' 0
  let sep1 := find s '-' (size_add sep0 1)
  let sep2 := find s 'T' (size_add sep1 1)
  let sep3 := find s ':' (size_add sep2 1)
  let sep4 := find s ':' (size_add sep3 1)
  [sep0, sep1, sep2, sep3, sep4]

/-- The letters of a column number, for `example_ops`: 1 is `A`, 26 is `Z`, 27 is `AA`; the
first argument bounds the number of letters. -/
def example_column_letters : Nat → Nat → List Char
  | 0, _ => []
  | fuel + 1, n =>
    if n = 0 then []
    else example_column_letters fuel ((n - 1) / 26) ++ [Char.ofNat (65 + (n - 1) % 26)]

/-- A stand-in for the operations of `range_reference.cpp`, used to evaluate the
serializer on concrete workbooks: every range is rendered in its `$`-anchored form, such as
`$A$1:$B$2`. -/
def example_ops : range_ops :=
  ⟨fun r => r, fun r =>
    '$' :: example_column_letters r.top_left.column_index r.top_left.column_index ++
      '$' :: to_string_nat r.top_left.row ++
      ':' :: '$' ::
        example_column_letters r.bottom_right.column_index r.bottom_right.column_index ++
      '$' :: to_string_nat r.bottom_right.row⟩

/-- The worksheet a worksheet-typed relationship resolves to, with its zero-based index:
the index derived from the target and the worksheet fetched at that index. -/
def resolved_sheet (wb : workbook) (rel : relationship) : Option (Nat × worksheet) :=
  if rel.type = relationship_type.worksheet then
    match sheet_index_of rel.target_uri with
    | Outcome.returned i => (wb.worksheets_[i]?).map (fun ws => (i, ws))
    | _ => none
  else none

/-- A two-sheet workbook whose second worksheet carries an auto filter; each worksheet has
its relationship, with targets `worksheets/sheet1.xml` and `worksheets/sheet2.xml`. -/
def example_workbook : workbook :=
  { worksheets_ :=
      [⟨"First".toList, ⟨sheet_state.visible⟩, ⟨⟨1, 1⟩, ⟨1, 1⟩⟩⟩,
        ⟨"Second".toList, ⟨sheet_state.visible⟩, ⟨⟨1, 1⟩, ⟨2, 2⟩⟩⟩]
    relationships_ :=
      [⟨relationship_type.worksheet, "rId1".toList, "worksheets/sheet1.xml".toList⟩,
        ⟨relationship_type.worksheet, "rId2".toList, "worksheets/sheet2.xml".toList⟩]
    manifest_ := ⟨[]⟩
    properties_ :=
      ⟨[], [], ⟨1900, 1, 1, 0, 0, 0, 0⟩, ⟨1900, 1, 1, 0, 0, 0, 0⟩, [],
        calendar.windows_1900⟩ }

/-- The workbook `example_workbook` with the given relationships instead of its own. -/
def example_workbook_with (rels : List relationship) : workbook :=
  { example_workbook with relationships_ := rels }

/-- The content type the manifest declares for a part through an override, if any. -/
def override_of (m : manifest) (part_name : string) : Option string :=
  (m.override_types.find? (fun o => o.part_name == part_name)).map (fun o => o.content_type)

/-- The main-document content type of spreadsheets. -/
def sheet_main : string :=
  "application/vnd.openxmlformats-officedocument.spreadsheetml.sheet.main+xml".toList

/-- The main-document content type of presentations. -/
def presentation_main : string :=
  "application/vnd.openxmlformats-officedocument.presentationml.presentation.main+xml".toList

/-- The main-document content type of word-processing documents. -/
def document_main : string :=
  "application/vnd.openxmlformats-officedocument.wordprocessingml.document.main+xml".toList

/-- The text of the first child of the given name, if the element has such a child. -/
def child_text (n : xml_node) (name : string) : Option string :=
  (n.get_children.find? (fun c => c.get_name == name)).map (fun c => c.get_text_string)

/-- Properties used to evaluate the decoder: every field set to a recognisable value and
the 1904 date base. -/
def example_properties : document_properties :=
  ⟨"old".toList, "older".toList, ⟨2000, 1, 1, 0, 0, 0, 0⟩, ⟨2001, 1, 1, 0, 0, 0, 0⟩,
    "Title".toList, calendar.mac_1904⟩

/-- A core-properties document with a creator and a creation time only. -/
def example_core_xml : xml_document :=
  { namespaces := []
    root :=
      xml_node.mk "cp:coreProperties".toList [] none
        [xml_node.mk "dc:creator".toList [] (some "Ada".toList) [],
          xml_node.mk "dcterms:created".toList [] (some "2024-01-02T03:04:05Z".toList) []] }

/-- Well-formedness of a `std::unordered_map`: no key occurs twice among its entries. -/
def map_wf {β : Type} (m : umap β) : Prop := (m.map Prod.fst).Nodup

/-- Well-formedness of the cell store: unique row keys and, in every row, unique column
keys. -/
def cell_map_wf (m : cell_map) : Prop := map_wf m ∧ ∀ e ∈ m, map_wf e.2

/-- The collectible predicate as the specification words it: the value is empty, and the
cell is not merged, and it has no non-default style. -/
def spec_collectible (c : cell_impl) : Prop :=
  c.value = cell_value.empty ∧ c.is_merged = false ∧ c.style = none

/-- The number of cells of the store that are not collectible. -/
def live_count (m : cell_map) : Nat := (m.map (fun e => (gc_row e.2).length)).sum

/-- A store with a string cell at `A1` and a touched, still empty cell at `B1`. -/
def example_store : worksheet_impl :=
  { new_worksheet "Sheet".toList with
    cell_map_ :=
      [(1, [(1, ⟨1, 1, cell_value.string "x".toList, false, none⟩),
        (2, ⟨2, 1, cell_value.empty, false, none⟩)])] }

/-- The row keys of a store, in iteration order. -/
def row_keys (m : cell_map) : List Nat := m.map Prod.fst

/-- The column keys of all cells of a store, in iteration order. -/
def column_keys (m : cell_map) : List Nat := m.flatMap fun e => e.2.map Prod.fst

/-- The cell-store invariant: no row entry has an empty column map. -/
def no_empty_row (m : cell_map) : Prop := ∀ e ∈ m, e.2 ≠ []

/-- The name tried by `unique_sheet_name` when its counter is `k`: the value itself for 0,
the value followed by the decimal text of `k` otherwise. -/
def candidate (value : string) (k : Nat) : string :=
  if k = 0 then value else value ++ to_string_nat k

/-- A worksheet with the strings `x` at `B2` and `y` at `C3`, and no other cell. -/
def example_merge_sheet : worksheet_impl :=
  ((new_worksheet "Sheet".toList).update_cell ⟨2, 2⟩
    (fun c => c.set_value "x".toList)).update_cell ⟨3, 3⟩ (fun c => c.set_value "y".toList)

/-- The range `B2:C3`. -/
def example_range : range_reference := ⟨⟨2, 2⟩, ⟨3, 3⟩⟩

/-- Properties with every text empty, both timestamps 1900-01-01 and the 1904 date base. -/
def blank_properties : document_properties :=
  ⟨[], [], ⟨1900, 1, 1, 0, 0, 0, 0⟩, ⟨1900, 1, 1, 0, 0, 0, 0⟩, [], calendar.mac_1904⟩

/-- A worksheet with two named ranges: `data`, with two targets on worksheet 3, and
`total`, with one. -/
def example_named_sheet : worksheet_impl :=
  { new_worksheet "Sheet".toList with
    named_ranges_ :=
      [("data".toList, ⟨"data".toList, [(3, ⟨⟨1, 1⟩, ⟨1, 1⟩⟩), (3, ⟨⟨2, 2⟩, ⟨4, 4⟩⟩)]⟩),
        ("total".toList, ⟨"total".toList, [(3, ⟨⟨5, 5⟩, ⟨5, 5⟩⟩)]⟩)] }

/-- A worksheet after `merge_cells(B2:C3)` and writing the string `v` to `B2`. -/
def example_unmerge_sheet : worksheet_impl :=
  ((new_worksheet "Sheet".toList).merge_cells example_range).update_cell ⟨2, 2⟩
    (fun cell => cell.set_value "v".toList)

/-- The worksheets reachable from a new worksheet by the mutable `get_cell`, writes through
a cell handle, `garbage_collect`, `merge_cells`, `unmerge_cells` and `append`. -/
inductive store_reachable (column_max row_max : Nat) : worksheet_impl → Prop where
  | create (title : string) : store_reachable column_max row_max (new_worksheet title)
  | get_cell (ws : worksheet_impl) (reference : cell_reference) :
    store_reachable column_max row_max ws →
      store_reachable column_max row_max (ws.get_cell reference).1
  | write (ws : worksheet_impl) (reference : cell_reference) (f : cell_impl → cell_impl) :
    store_reachable column_max row_max ws →
      store_reachable column_max row_max (ws.update_cell reference f)
  | garbage_collect (ws : worksheet_impl) :
    store_reachable column_max row_max ws →
      store_reachable column_max row_max ws.garbage_collect
  | merge_cells (ws : worksheet_impl) (reference : range_reference) :
    store_reachable column_max row_max ws →
      store_reachable column_max row_max (ws.merge_cells reference)
  | unmerge_cells (ws : worksheet_impl) (reference : range_reference) :
    store_reachable column_max row_max ws →
      store_reachable column_max row_max (ws.unmerge_cells reference).1
  | append (ws : worksheet_impl) (cells : List string) :
    store_reachable column_max row_max ws →
      store_reachable column_max row_max (ws.append column_max row_max cells)

/-- A store with a row entry whose column map is empty, which no operation produces. -/
def example_hollow_store : worksheet_impl :=
  { new_worksheet "Sheet".toList with cell_map_ := [(1, [])] }

/-- A worksheet reached by `append` of `a`, `b`, a `get_cell` of `C5`, `merge_cells` of
`B2:C3` and `garbage_collect`. -/
def example_reached_store : worksheet_impl :=
  ((((new_worksheet "Sheet".toList).append 16384 1048576
    ["a".toList, "b".toList]).get_cell ⟨3, 5⟩).1.merge_cells example_range).garbage_collect

/-- A reference lies inside a range: between its corners, both included. -/
def range_reference.contains (R : range_reference) (row column : Nat) : Bool :=
  decide (R.top_left.row ≤ row) && decide (row ≤ R.bottom_right.row) &&
    decide (R.top_left.column_index ≤ column) &&
    decide (column ≤ R.bottom_right.column_index)

/-- Two ranges overlap: some reference lies inside both. -/
def range_reference.overlaps (R Q : range_reference) : Bool :=
  R.cells.any fun reference => Q.contains reference.row reference.column_index

/-- The worksheets reached from a worksheet with no merges (no recorded range, no stored
cell flagged) by `merge_cells` of a range overlapping no recorded range, by successful
`unmerge_cells` and by `garbage_collect`. -/
inductive merge_reachable : worksheet_impl → Prop where
  | start (ws : worksheet_impl) : cell_map_wf ws.cell_map_ → ws.merged_cells_ = [] →
    (∀ (r c : Nat) (cell : cell_impl), ws.cell_at r c = some cell → cell.is_merged = false) →
      merge_reachable ws
  | merge_cells (ws : worksheet_impl) (reference : range_reference) :
    merge_reachable ws → (∀ Q ∈ ws.merged_cells_, reference.overlaps Q = false) →
      merge_reachable (ws.merge_cells reference)
  | unmerge_cells (ws : worksheet_impl) (reference : range_reference) :
    merge_reachable ws → (ws.unmerge_cells reference).2 = Outcome.returned () →
      merge_reachable (ws.unmerge_cells reference).1
  | garbage_collect (ws : worksheet_impl) :
    merge_reachable ws → merge_reachable ws.garbage_collect

/-- The merge-flag invariant: the store is well formed, the recorded ranges are pairwise
disjoint, and a stored cell is flagged exactly when a recorded range contains it. -/
def merge_flags_consistent (ws : worksheet_impl) : Prop :=
  cell_map_wf ws.cell_map_ ∧
    ws.merged_cells_.Pairwise
      (fun A B => ∀ r c : Nat, ¬ (A.contains r c = true ∧ B.contains r c = true)) ∧
    ∀ (r c : Nat) (cell : cell_impl), ws.cell_at r c = some cell →
      (cell.is_merged = true ↔ ∃ R ∈ ws.merged_cells_, R.contains r c = true)

/-- The ranges `A1:B2` and `B2:C3` merged in turn on a new worksheet: they overlap at
`B2`. -/
def example_overlap_sheet : worksheet_impl :=
  ((new_worksheet "Sheet".toList).merge_cells ⟨⟨1, 1⟩, ⟨2, 2⟩⟩).merge_cells example_range

/-- The ranges `B2:C3` and `D5:E6` merged in turn on a new worksheet, `B2:C3` unmerged and
the store collected. -/
def example_disjoint_sheet : worksheet_impl :=
  ((((new_worksheet "Sheet".toList).merge_cells example_range).merge_cells
    ⟨⟨4, 5⟩, ⟨5, 6⟩⟩).unmerge_cells example_range).1.garbage_collect

/-! ## Auxiliary facts: decimal digits -/

theorem digitChar_isdigit (d : Nat) (h : d < 10) : isdigit (Nat.digitChar d) = true := by
  interval_cases d <;> decide

theorem digitChar_value (d : Nat) (h : d < 10) : (Nat.digitChar d).toNat - '0'.toNat = d := by
  interval_cases d <;> decide

theorem toDigitsCore_isdigit (fuel : Nat) : ∀ (n : Nat) (ds : List Char),
    (∀ c ∈ ds, isdigit c = true) → ∀ c ∈ Nat.toDigitsCore 10 fuel n ds, isdigit c = true := by
  induction fuel with
  | zero => intro n ds h; simpa [Nat.toDigitsCore] using h
  | succ f ih =>
    intro n ds h
    have hd : ∀ c ∈ Nat.digitChar (n % 10) :: ds, isdigit c = true := by
      intro c hc
      rcases List.mem_cons.mp hc with rfl | hc
      · exact digitChar_isdigit _ (Nat.mod_lt _ (by decide))
      · exact h c hc
    simp only [Nat.toDigitsCore]
    split
    · exact hd
    · exact ih _ _ hd

theorem toDigitsCore_ne_nil (fuel n : Nat) (ds : List Char) :
    Nat.toDigitsCore 10 (fuel + 1) n ds ≠ [] := by
  induction fuel generalizing n ds with
  | zero => simp [Nat.toDigitsCore]
  | succ f ih =>
    rw [Nat.toDigitsCore]
    split
    · simp
    · exact ih _ _

theorem foldl_toDigitsCore (fuel : Nat) : ∀ (n : Nat) (ds : List Char) (a : Nat), n < fuel →
    ∃ k, List.foldl (fun acc c => acc * 10 + (c.toNat - '0'.toNat)) a
        (Nat.toDigitsCore 10 fuel n ds) =
      List.foldl (fun acc c => acc * 10 + (c.toNat - '0'.toNat)) (a * 10 ^ k + n) ds := by
  induction fuel with
  | zero => intro n ds a h; omega
  | succ f ih =>
    intro n ds a h
    simp only [Nat.toDigitsCore]
    split
    · rename_i h0
      refine ⟨1, ?_⟩
      have hn : n % 10 = n := by omega
      rw [List.foldl_cons, digitChar_value (n % 10) (Nat.mod_lt _ (by decide)), hn, pow_one]
    · rename_i h0
      obtain ⟨k, hk⟩ := ih (n / 10) (Nat.digitChar (n % 10) :: ds) a (by omega)
      refine ⟨k + 1, ?_⟩
      rw [hk, List.foldl_cons, digitChar_value (n % 10) (Nat.mod_lt _ (by decide))]
      congr 1
      rw [pow_succ]
      have := Nat.div_add_mod n 10
      nlinarith

theorem toDigits_isdigit (n : Nat) : ∀ c ∈ Nat.toDigits 10 n, isdigit c = true :=
  toDigitsCore_isdigit (n + 1) n [] (by simp)

theorem toDigits_ne_nil (n : Nat) : Nat.toDigits 10 n ≠ [] :=
  toDigitsCore_ne_nil n n []

theorem digits_value_toDigits (n : Nat) : digits_value (Nat.toDigits 10 n) = n := by
  obtain ⟨k, hk⟩ := foldl_toDigitsCore (n + 1) n [] 0 (by omega)
  simpa [digits_value, Nat.toDigits] using hk

theorem toDigits_length (n e : Nat) (he : 0 < e) (h : n < 10 ^ e) :
    (Nat.toDigits 10 n).length ≤ e := by
  have := Nat.repr_length n e he h
  simpa [Nat.repr] using this

/-! ## Auxiliary facts: searching and slicing strings -/

theorem find_from_append (p : Char → Bool) (a : List Char) (c : Char) (b : List Char)
    (ha : ∀ x ∈ a, p x = false) (hc : p c = true) :
    ∀ i, find_from p (a ++ c :: b) i = some (i + a.length) := by
  induction a with
  | nil => intro i; simp [find_from, hc]
  | cons x xs ih =>
    intro i
    have hx : p x = false := ha x (List.mem_cons_self _ _)
    have hxs : ∀ y ∈ xs, p y = false := fun y hy => ha y (List.mem_cons_of_mem _ hy)
    have e : i + 1 + xs.length = i + (xs.length + 1) := by omega
    show (if p x = true then some i else find_from p (xs ++ c :: b) (i + 1)) = _
    rw [hx, ih hxs, List.length_cons, e]
    simp

theorem find_from_none (p : Char → Bool) (l : List Char) (h : ∀ x ∈ l, p x = false) :
    ∀ i, find_from p l i = none := by
  induction l with
  | nil => intro i; rfl
  | cons x xs ih =>
    intro i
    have hx : p x = false := h x (List.mem_cons_self _ _)
    simp only [find_from, hx, Bool.false_eq_true, if_false]
    exact ih (fun y hy => h y (List.mem_cons_of_mem _ hy)) _

/-- Position found by `find` when the text after `pos` is `F ++ ch :: rest` with `ch ∉ F`. -/
theorem find_at (s pre F rest : List Char) (ch : Char) (pos : Nat)
    (hs : s = pre ++ (F ++ ch :: rest)) (hpos : pos = pre.length) (hF : ∀ x ∈ F, x ≠ ch) :
    find s ch pos = pos + F.length := by
  subst hs hpos
  have h := find_from_append (fun c => c == ch) F ch rest
    (fun x hx => by simpa using hF x hx) (by simp) pre.length
  simp only [find, List.drop_left, h]

theorem isdigit_not_space {c : Char} (h : isdigit c = true) : isspace c = false := by
  by_contra hs
  simp only [isspace, Bool.not_eq_false, Bool.or_eq_true, beq_iff_eq] at hs
  rcases hs with ((((rfl | rfl) | rfl) | rfl) | rfl) | rfl <;> exact absurd h (by decide)

theorem isdigit_ne {c d : Char} (h : isdigit c = true) (hd : isdigit d = false) : c ≠ d := by
  rintro rfl
  simp [h] at hd

/-- `sto_signed` on a non-empty run of digits followed by nothing or by a non-digit. -/
theorem sto_signed_digits (lo hi : Int) (F Y : List Char) (hne : F ≠ [])
    (hF : ∀ c ∈ F, isdigit c = true) (hY : ∀ c ∈ Y.head?, isdigit c = false)
    (hlo : lo ≤ (digits_value F : Int)) (hhi : (digits_value F : Int) ≤ hi) :
    sto_signed lo hi (F ++ Y) = Outcome.returned (digits_value F : Int) := by
  obtain ⟨c, t, rfl⟩ := List.exists_cons_of_ne_nil hne
  have hc : isdigit c = true := hF c (List.mem_cons_self _ _)
  have hsp : isspace c = false := isdigit_not_space hc
  have hm : c ≠ '-' := isdigit_ne hc (by decide)
  have hp : c ≠ '+' := isdigit_ne hc (by decide)
  have htw : List.takeWhile isdigit (c :: t ++ Y) = c :: t := by
    rw [List.takeWhile_append_of_pos hF]
    cases Y with
    | nil => simp
    | cons y ys =>
      have : isdigit y = false := hY y (by simp)
      simp [List.takeWhile_cons, this]
  have hdw : List.dropWhile isspace (c :: t ++ Y) = c :: (t ++ Y) := by
    simp [List.dropWhile_cons, hsp]
  simp only [sto_signed, hdw, hm, hp, if_false]
  rw [show c :: (t ++ Y) = c :: t ++ Y from rfl, htw]
  have h1 : ¬ ((digits_value (c :: t) : Int) < lo ∨ hi < (digits_value (c :: t) : Int)) := by
    omega
  simp [h1]

theorem size_add_one {i : Nat} (h : i + 1 < 2 ^ 64) : size_add i 1 = i + 1 := by
  unfold size_add
  exact Nat.mod_eq_of_lt h

/-- One field read on `pre ++ sepc :: F ++ ch :: rest`, with `F` a run of digits and `ch`
not a digit: the slice taken by `substr` starts with `F` and the value read is that of `F`. -/
theorem read_field_digits (s pre F rest : List Char) (sepc ch : Char) (i : Nat)
    (hs : s = pre ++ sepc :: (F ++ ch :: rest)) (hi : i = pre.length)
    (hb : i + 1 < 2 ^ 64) (hne : F ≠ []) (hF : ∀ c ∈ F, isdigit c = true)
    (hch : isdigit ch = false) (hhi : (digits_value F : Int) ≤ INT_MAX) :
    read_field s i ch = Outcome.returned (digits_value F : Int) ∧
      find s ch (size_add i 1) = i + 1 + F.length := by
  have hs2 : s = (pre ++ [sepc]) ++ (F ++ ch :: rest) := by simp [hs]
  have hfind : find s ch (i + 1) = i + 1 + F.length :=
    find_at s (pre ++ [sepc]) F rest ch (i + 1) hs2 (by simp [hi])
      (fun x hx => isdigit_ne (hF x hx) hch)
  have hdrop : List.drop (i + 1) s = F ++ ch :: rest := by
    rw [hs2]; exact List.drop_left' (by simp [hi])
  have hlen : ¬ (i + 1 > s.length) := by
    rw [hs]; simp [hi]
  refine ⟨?_, by rw [size_add_one hb, hfind]⟩
  simp only [read_field, size_add_one hb, hfind, substr, hlen, if_false, Outcome.bind, hdrop]
  rw [List.take_append_eq_append_take, List.take_of_length_le (by omega)]
  apply sto_signed_digits _ _ _ _ hne hF
  · intro c hc
    have : i + 1 + F.length - F.length = i + 1 := by omega
    rw [this] at hc
    simp at hc
    rw [← hc]; exact hch
  · have : (0 : Int) ≤ (digits_value F : Int) := Int.ofNat_nonneg _
    simp only [INT_MIN]; omega
  · exact hhi

/-! ## Auxiliary facts: decoding a well-formed timestamp -/

theorem stoi_digits {F : List Char} (h : int_field F) :
    stoi F = Outcome.returned (digits_value F : Int) := by
  have := sto_signed_digits INT_MIN INT_MAX F [] h.1 h.2.1 (by simp)
    (by have : (0 : Int) ≤ (digits_value F : Int) := Int.ofNat_nonneg _
        simp only [INT_MIN]; omega) h.2.2
  simpa [stoi] using this

/-- Decoding `Y-M-DTH:Mi:SZ` where every segment is a run of digits. -/
theorem w3cdtf_to_datetime_fields (Y M D H Mi S : List Char)
    (hY : int_field Y) (hM : int_field M) (hD : int_field D) (hH : int_field H)
    (hMi : int_field Mi) (hS : int_field S)
    (hlen : Y.length + M.length + D.length + H.length + Mi.length + S.length + 6 < 2 ^ 64) :
    w3cdtf_to_datetime
        (Y ++ '-' :: (M ++ '-' :: (D ++ 'T' :: (H ++ ':' :: (Mi ++ ':' :: (S ++ ['Z']))))))
      = Outcome.returned
          { year := digits_value Y, month := digits_value M, day := digits_value D,
            hour := digits_value H, minute := digits_value Mi, second := digits_value S,
            microsecond := 0 } := by
  generalize hs : Y ++ '-' :: (M ++ '-' :: (D ++ 'T' :: (H ++ ':' :: (Mi ++ ':' ::
    (S ++ ['Z']))))) = s
  have h0 : find s '-' 0 = Y.length := by
    have := find_at s [] Y (M ++ '-' :: (D ++ 'T' :: (H ++ ':' :: (Mi ++ ':' :: (S ++ ['Z'])))))
      '-' 0 (by simp [← hs]) rfl (fun x hx => isdigit_ne (hY.2.1 x hx) (by decide))
    simpa using this
  have hy : (substr s 0 Y.length).bind stoi = Outcome.returned (digits_value Y : Int) := by
    have ht : List.take Y.length s = Y := by
      rw [← hs]; simp
    simp only [substr, List.drop_zero, Outcome.bind, ht]
    simpa using stoi_digits hY
  obtain ⟨r1, f1⟩ := read_field_digits s Y M
    (D ++ 'T' :: (H ++ ':' :: (Mi ++ ':' :: (S ++ ['Z'])))) '-' '-' Y.length
    hs.symm rfl (by omega) hM.1 hM.2.1 (by decide) hM.2.2
  obtain ⟨r2, f2⟩ := read_field_digits s (Y ++ '-' :: M) D
    (H ++ ':' :: (Mi ++ ':' :: (S ++ ['Z']))) '-' 'T' (Y.length + 1 + M.length)
    (by simp [← hs]) (by simp; omega) (by omega) hD.1 hD.2.1 (by decide) hD.2.2
  obtain ⟨r3, f3⟩ := read_field_digits s (Y ++ '-' :: (M ++ '-' :: D)) H
    (Mi ++ ':' :: (S ++ ['Z'])) 'T' ':' (Y.length + 1 + M.length + 1 + D.length)
    (by simp [← hs]) (by simp; omega) (by omega) hH.1 hH.2.1 (by decide) hH.2.2
  obtain ⟨r4, f4⟩ := read_field_digits s (Y ++ '-' :: (M ++ '-' :: (D ++ 'T' :: H))) Mi
    (S ++ ['Z']) ':' ':' (Y.length + 1 + M.length + 1 + D.length + 1 + H.length)
    (by simp [← hs]) (by simp; omega) (by omega) hMi.1 hMi.2.1 (by decide) hMi.2.2
  obtain ⟨r5, -⟩ := read_field_digits s
    (Y ++ '-' :: (M ++ '-' :: (D ++ 'T' :: (H ++ ':' :: Mi)))) S [] ':' 'Z'
    (Y.length + 1 + M.length + 1 + D.length + 1 + H.length + 1 + Mi.length)
    (by simp [← hs]) (by simp; omega) (by omega) hS.1 hS.2.1 (by decide) hS.2.2
  simp only [w3cdtf_to_datetime, h0, hy, r1, f1, r2, f2, r3, f3, r4, f4, r5]
  rfl

/-! ## Auxiliary facts: encoding -/

theorem to_string_of_nonneg {i : Int} (h : 0 ≤ i) : to_string i = Nat.toDigits 10 i.toNat := by
  simp [to_string, not_lt.mpr h]

theorem digits_value_zeros (k : Nat) (F : List Char) :
    digits_value (List.replicate k '0' ++ F) = digits_value F := by
  induction k with
  | zero => simp
  | succ k ih =>
    simp only [digits_value, List.replicate_succ, List.cons_append, List.foldl_cons] at ih ⊢
    simpa using ih

theorem fill_isdigit {F : List Char} (hF : ∀ c ∈ F, isdigit c = true) (n : Nat) :
    ∀ c ∈ fill F n, isdigit c = true := by
  intro c hc
  unfold fill at hc
  split at hc
  · exact hF c hc
  · rcases List.mem_append.mp hc with h | h
    · rw [(List.mem_replicate.mp h).2]; decide
    · exact hF c h

theorem fill_ne_nil {F : List Char} (hF : F ≠ []) (n : Nat) : fill F n ≠ [] := by
  unfold fill
  split
  · exact hF
  · simp [hF]

theorem digits_value_fill (F : List Char) (n : Nat) : digits_value (fill F n) = digits_value F := by
  unfold fill
  split
  · rfl
  · exact digits_value_zeros _ _

theorem fill_length_le (F : List Char) : (fill F 2).length ≤ F.length + 2 := by
  unfold fill
  split
  · omega
  · simp only [List.length_append, List.length_replicate]; omega

/-- The padded decimal text of a non-negative `int` is a digit run with the same value. -/
theorem int_field_fill_to_string {i : Int} (h0 : 0 ≤ i) (h1 : i ≤ INT_MAX) :
    int_field (fill (to_string i) 2) ∧ (digits_value (fill (to_string i) 2) : Int) = i ∧
      (fill (to_string i) 2).length ≤ 12 := by
  rw [to_string_of_nonneg h0]
  have hv : (digits_value (fill (Nat.toDigits 10 i.toNat) 2) : Int) = i := by
    rw [digits_value_fill, digits_value_toDigits]; omega
  refine ⟨⟨fill_ne_nil (toDigits_ne_nil _) _, fill_isdigit (toDigits_isdigit _) _, ?_⟩, hv, ?_⟩
  · rw [hv]; exact h1
  · have hlt : i.toNat < 10 ^ 10 := by
      simp only [INT_MAX] at h1
      have : (i.toNat : Int) = i := Int.toNat_of_nonneg h0
      have h2 : (i.toNat : Int) < 10 ^ 10 := by rw [this]; omega
      exact_mod_cast h2
    have := toDigits_length i.toNat 10 (by decide) hlt
    have := fill_length_le (Nat.toDigits 10 i.toNat)
    omega

/-- The decimal text of a non-negative `int` is a digit run with the same value. -/
theorem int_field_to_string {i : Int} (h0 : 0 ≤ i) (h1 : i ≤ INT_MAX) :
    int_field (to_string i) ∧ (digits_value (to_string i) : Int) = i ∧
      (to_string i).length ≤ 10 := by
  rw [to_string_of_nonneg h0]
  have hv : (digits_value (Nat.toDigits 10 i.toNat) : Int) = i := by
    rw [digits_value_toDigits]; omega
  refine ⟨⟨toDigits_ne_nil _, toDigits_isdigit _, ?_⟩, hv, ?_⟩
  · rw [hv]; exact h1
  · have hlt : i.toNat < 10 ^ 10 := by
      simp only [INT_MAX] at h1
      have : (i.toNat : Int) = i := Int.toNat_of_nonneg h0
      have h2 : (i.toNat : Int) < 10 ^ 10 := by rw [this]; omega
      exact_mod_cast h2
    exact toDigits_length i.toNat 10 (by decide) hlt

theorem datetime_to_w3cdtf_eq (dt : datetime) :
    datetime_to_w3cdtf dt =
      to_string dt.year ++ '-' :: (fill (to_string dt.month) 2 ++ '-' ::
        (fill (to_string dt.day) 2 ++ 'T' :: (fill (to_string dt.hour) 2 ++ ':' ::
        (fill (to_string dt.minute) 2 ++ ':' :: (fill (to_string dt.second) 2 ++ ['Z']))))) := by
  simp [datetime_to_w3cdtf]

theorem fill_two_digits_nat : ∀ k : Nat, k < 100 →
    fill (Nat.toDigits 10 k) 2 = [Nat.digitChar (k / 10), Nat.digitChar (k % 10)] := by
  decide

theorem fill_to_string_two {i : Int} (h0 : 0 ≤ i) (h1 : i ≤ 99) :
    fill (to_string i) 2 = spec_two_digits i := by
  rw [to_string_of_nonneg h0]
  exact fill_two_digits_nat i.toNat (by omega)

/-! ## Worksheet inventory -/

theorem valid_sheets_foldl (l : List override_type) : ∀ acc : List string,
    l.foldl (fun acc content_type =>
        if content_type.content_type = ValidWorksheet then acc ++ [content_type.part_name]
        else acc) acc =
      acc ++ (l.filter (fun o => decide (o.content_type = ValidWorksheet))).map
        (fun o => o.part_name) := by
  induction l with
  | nil => intro acc; simp
  | cons o os ih =>
    intro acc
    rw [List.foldl_cons, ih]
    by_cases h : o.content_type = ValidWorksheet <;> simp [List.filter_cons, h]

/-- The first loop collects exactly the worksheet-typed part names, in manifest order. -/
theorem valid_sheets_eq (m : manifest) : valid_sheets m = spec_candidates m := by
  simpa [valid_sheets, spec_candidates] using valid_sheets_foldl m.override_types []

theorem deref_find_if_of_mem (rels : List relationship) (id : string)
    (h : ∃ r ∈ rels, r.id = id) :
    ∃ rel, deref_find_if (fun r => r.id == id) rels = Outcome.returned rel ∧
      rel.target_uri = target_of rels id := by
  obtain ⟨r, hr, hid⟩ := h
  cases hf : rels.find? (fun r => r.id == id) with
  | none =>
    have := List.find?_eq_none.mp hf r hr
    simp [hid] at this
  | some rel => exact ⟨rel, by simp [deref_find_if, hf], by simp [target_of, hf]⟩

/-- When every sheet id resolves, the second loop keeps, in order, the sheets whose
`"/" + target` is in `valid`. -/
theorem detect_worksheets_loop_eq (valid : List string) (rels : List relationship) :
    ∀ (sheets result : List (string × string)),
      (∀ ws ∈ sheets, ∃ r ∈ rels, r.id = ws.1) →
      detect_worksheets_loop valid rels sheets result =
        Outcome.returned (result ++
          (sheets.filter (fun ws => decide ("/".toList ++ target_of rels ws.1 ∈ valid))).map
            (fun ws => (target_of rels ws.1, ws.2))) := by
  intro sheets
  induction sheets with
  | nil => intro result _; simp [detect_worksheets_loop]
  | cons ws rest ih =>
    intro result h
    obtain ⟨rel, hrel, htarget⟩ := deref_find_if_of_mem rels ws.1 (h ws (List.mem_cons_self _ _))
    have hrest : ∀ w ∈ rest, ∃ r ∈ rels, r.id = w.1 :=
      fun w hw => h w (List.mem_cons_of_mem _ hw)
    simp only [detect_worksheets_loop, hrel, Outcome.bind, htarget]
    by_cases hv : "/".toList ++ target_of rels ws.1 ∈ valid
    · simp only [hv, if_true, ih _ hrest, List.filter_cons, decide_True, List.map_cons,
        List.append_assoc, List.singleton_append]
    · simp only [hv, if_false, ih _ hrest, List.filter_cons, decide_False]
      simp

theorem detect_worksheets_eq (m : manifest) (rels : List relationship)
    (sheets : List (string × string)) (h : ∀ ws ∈ sheets, ∃ r ∈ rels, r.id = ws.1) :
    detect_worksheets m rels sheets =
      Outcome.returned
        ((sheets.filter
            (fun ws => decide ("/".toList ++ target_of rels ws.1 ∈ spec_candidates m))).map
          (fun ws => (target_of rels ws.1, ws.2))) := by
  rw [detect_worksheets, detect_worksheets_loop_eq _ _ _ _ h, valid_sheets_eq]
  simp

theorem detect_worksheets_loop_undefined (valid : List string) (rels : List relationship) :
    ∀ (sheets result : List (string × string)),
      (∃ ws ∈ sheets, ∀ r ∈ rels, r.id ≠ ws.1) →
      detect_worksheets_loop valid rels sheets result = Outcome.undefined := by
  intro sheets
  induction sheets with
  | nil => intro result h; simp at h
  | cons ws rest ih =>
    intro result h
    cases hf : rels.find? (fun r => r.id == ws.1) with
    | none => simp [detect_worksheets_loop, deref_find_if, hf, Outcome.bind]
    | some rel =>
      have hrest : ∃ w ∈ rest, ∀ r ∈ rels, r.id ≠ w.1 := by
        obtain ⟨w, hw, hno⟩ := h
        rcases List.mem_cons.mp hw with rfl | hw
        · have hmem := List.mem_of_find?_eq_some hf
          have hp := List.find?_some hf
          simp only [beq_iff_eq] at hp
          exact absurd hp (hno rel hmem)
        · exact ⟨w, hw, hno⟩
      simp only [detect_worksheets_loop, deref_find_if, hf, Outcome.bind]
      split <;> exact ih _ hrest

/-! ## Claims on the worksheet inventory -/

/-- C1, as stated, fails on the example of the specification: the manifest declares
`/xl/worksheets/sheet1.xml`, the code looks for `"/" + target`, which is
`/worksheets/sheet1.xml`, so the example inventory resolves to the empty list and not to
the pair `("worksheets/sheet1.xml", "Data")`. -/
theorem detect_worksheets_spec_example_is_empty :
    detect_worksheets example_manifest example_relationships example_sheets =
        Outcome.returned [] ∧
      detect_worksheets example_manifest example_relationships example_sheets ≠
        Outcome.returned [("worksheets/sheet1.xml".toList, "Data".toList)] := by
  decide

/-- C1 (amended): `detect_worksheets` compares `"/" + target` with the worksheet-typed part
names of the manifest.  When every sheet id has a relationship, a sheet-list entry is
emitted exactly when `"/"` followed by its resolved target is one of the candidate part
names.  So the example of the specification resolves to the empty list; with the override
declared for `/worksheets/sheet1.xml` it resolves to `[("worksheets/sheet1.xml", "Data")]`,
and with no override to the empty list. -/
theorem detect_worksheets_emits_slash_target (m : manifest) (rels : List relationship)
    (sheets : List (string × string)) (h : ∀ ws ∈ sheets, ∃ r ∈ rels, r.id = ws.1) :
    detect_worksheets example_manifest example_relationships example_sheets =
        Outcome.returned [] ∧
      detect_worksheets ⟨[⟨"/worksheets/sheet1.xml".toList, ValidWorksheet⟩]⟩
          example_relationships example_sheets =
        Outcome.returned [("worksheets/sheet1.xml".toList, "Data".toList)] ∧
      detect_worksheets ⟨[]⟩ example_relationships example_sheets = Outcome.returned [] ∧
      detect_worksheets m rels sheets =
        Outcome.returned
          ((sheets.filter
              (fun ws => decide ("/".toList ++ target_of rels ws.1 ∈ spec_candidates m))).map
            (fun ws => (target_of rels ws.1, ws.2))) :=
  ⟨by decide, by decide, by decide, detect_worksheets_eq m rels sheets h⟩

/-- Witness of C1 (amended) on a two-sheet inventory whose second sheet is not a
candidate. -/
theorem detect_worksheets_emits_slash_target_witness :
    (∀ ws ∈ [("rId1".toList, "Data".toList), ("rId2".toList, "Chart".toList)],
        ∃ r ∈ [(⟨relationship_type.worksheet, "rId1".toList, "xl/sheet1.xml".toList⟩ :
            relationship), ⟨relationship_type.other, "rId2".toList, "xl/chart1.xml".toList⟩],
          r.id = ws.1) ∧
      detect_worksheets ⟨[⟨"/xl/sheet1.xml".toList, ValidWorksheet⟩]⟩
          [⟨relationship_type.worksheet, "rId1".toList, "xl/sheet1.xml".toList⟩,
            ⟨relationship_type.other, "rId2".toList, "xl/chart1.xml".toList⟩]
          [("rId1".toList, "Data".toList), ("rId2".toList, "Chart".toList)] =
        Outcome.returned [("xl/sheet1.xml".toList, "Data".toList)] :=
  ⟨by decide,
    ((detect_worksheets_emits_slash_target ⟨[⟨"/xl/sheet1.xml".toList, ValidWorksheet⟩]⟩
      [⟨relationship_type.worksheet, "rId1".toList, "xl/sheet1.xml".toList⟩,
        ⟨relationship_type.other, "rId2".toList, "xl/chart1.xml".toList⟩]
      [("rId1".toList, "Data".toList), ("rId2".toList, "Chart".toList)]
      (by decide)).2.2.2).trans (by decide)⟩

/-- C3 (code): when some sheet's relationship id has no relationship, `detect_worksheets`
dereferences the past-the-end iterator returned by `std::find_if`; no exception is thrown,
the behaviour is undefined. -/
theorem detect_worksheets_dangling_undefined (m : manifest) (rels : List relationship)
    (sheets : List (string × string)) (h : ∃ ws ∈ sheets, ∀ r ∈ rels, r.id ≠ ws.1) :
    detect_worksheets m rels sheets = Outcome.undefined ∧
      (detect_worksheets m rels sheets).fails = false := by
  have e := detect_worksheets_loop_undefined (valid_sheets m) rels sheets [] h
  rw [detect_worksheets, e]
  exact ⟨rfl, rfl⟩

/-- Witness of C3: the example inventory with the sheet list referring to `rId2`. -/
theorem detect_worksheets_dangling_undefined_witness :
    (∃ ws ∈ [("rId2".toList, "Data".toList)], ∀ r ∈ example_relationships, r.id ≠ ws.1) ∧
      detect_worksheets example_manifest example_relationships
          [("rId2".toList, "Data".toList)] = Outcome.undefined ∧
      (detect_worksheets example_manifest example_relationships
          [("rId2".toList, "Data".toList)]).fails = false :=
  ⟨by decide, detect_worksheets_dangling_undefined example_manifest example_relationships
    [("rId2".toList, "Data".toList)] (by decide)⟩

/-! ## Claims on the date/time codec -/

/-- C4: for every datetime whose year is in `0..9999` and whose month, day, hour, minute
and second are non-negative `int` values, decoding the encoded text returns a datetime with
the same year, month, day, hour, minute and second (and microsecond zero). -/
theorem w3cdtf_roundtrip (dt : datetime)
    (hy0 : 0 ≤ dt.year) (hy1 : dt.year ≤ 9999)
    (hmo : 0 ≤ dt.month ∧ dt.month ≤ INT_MAX) (hd : 0 ≤ dt.day ∧ dt.day ≤ INT_MAX)
    (hh : 0 ≤ dt.hour ∧ dt.hour ≤ INT_MAX) (hmi : 0 ≤ dt.minute ∧ dt.minute ≤ INT_MAX)
    (hs : 0 ≤ dt.second ∧ dt.second ≤ INT_MAX) :
    w3cdtf_to_datetime (datetime_to_w3cdtf dt) =
      Outcome.returned
        { year := dt.year, month := dt.month, day := dt.day, hour := dt.hour,
          minute := dt.minute, second := dt.second, microsecond := 0 } := by
  obtain ⟨fY, vY, lY⟩ := int_field_to_string hy0 (by simp only [INT_MAX]; omega)
  obtain ⟨fM, vM, lM⟩ := int_field_fill_to_string hmo.1 hmo.2
  obtain ⟨fD, vD, lD⟩ := int_field_fill_to_string hd.1 hd.2
  obtain ⟨fH, vH, lH⟩ := int_field_fill_to_string hh.1 hh.2
  obtain ⟨fMi, vMi, lMi⟩ := int_field_fill_to_string hmi.1 hmi.2
  obtain ⟨fS, vS, lS⟩ := int_field_fill_to_string hs.1 hs.2
  rw [datetime_to_w3cdtf_eq, w3cdtf_to_datetime_fields _ _ _ _ _ _ fY fM fD fH fMi fS
    (by have : (100 : Nat) < 2 ^ 64 := by norm_num
        omega), vY, vM, vD, vH, vMi, vS]

/-- Witness of C4: the timestamp 2024-01-02T03:04:05 of the specification. -/
theorem w3cdtf_roundtrip_witness :
    w3cdtf_to_datetime (datetime_to_w3cdtf ⟨2024, 1, 2, 3, 4, 5, 0⟩) =
      Outcome.returned ⟨2024, 1, 2, 3, 4, 5, 0⟩ :=
  w3cdtf_roundtrip ⟨2024, 1, 2, 3, 4, 5, 0⟩ (by decide) (by decide) (by decide) (by decide)
    (by decide) (by decide) (by decide)

/-- C6: for every datetime with a non-negative year and month, day, hour, minute, second in
`0..99`, the encoded text is the decimal year followed by `-MM-DDThh:mm:ssZ`, each of the
five fields being its tens digit and its units digit; the year text consists of decimal
digits of value `year`, the text after it is 16 characters long and the last character is
`Z`. -/
theorem datetime_to_w3cdtf_format (dt : datetime) (hy : 0 ≤ dt.year)
    (hmo : 0 ≤ dt.month ∧ dt.month ≤ 99) (hd : 0 ≤ dt.day ∧ dt.day ≤ 99)
    (hh : 0 ≤ dt.hour ∧ dt.hour ≤ 99) (hmi : 0 ≤ dt.minute ∧ dt.minute ≤ 99)
    (hs : 0 ≤ dt.second ∧ dt.second ≤ 99) :
    datetime_to_w3cdtf dt = spec_w3cdtf dt ∧
      (∀ c ∈ to_string dt.year, isdigit c = true) ∧
      (digits_value (to_string dt.year) : Int) = dt.year ∧
      ((datetime_to_w3cdtf dt).drop (to_string dt.year).length).length = 16 ∧
      (datetime_to_w3cdtf dt).getLast? = some 'Z' := by
  have e : datetime_to_w3cdtf dt = spec_w3cdtf dt := by
    rw [datetime_to_w3cdtf_eq, spec_w3cdtf, fill_to_string_two hmo.1 hmo.2,
      fill_to_string_two hd.1 hd.2, fill_to_string_two hh.1 hh.2,
      fill_to_string_two hmi.1 hmi.2, fill_to_string_two hs.1 hs.2]
  refine ⟨e, ?_, ?_, ?_, ?_⟩
  · rw [to_string_of_nonneg hy]; exact toDigits_isdigit _
  · rw [to_string_of_nonneg hy, digits_value_toDigits]; omega
  · rw [e, spec_w3cdtf, List.drop_left]; rfl
  · rw [e, spec_w3cdtf]
    simp [spec_two_digits, List.getLast?_append, List.getLast?_cons_cons]

/-- Witness of C6: 2024-01-02T03:04:05 is encoded as `2024-01-02T03:04:05Z`. -/
theorem datetime_to_w3cdtf_format_witness :
    datetime_to_w3cdtf ⟨2024, 1, 2, 3, 4, 5, 0⟩ = "2024-01-02T03:04:05Z".toList :=
  (datetime_to_w3cdtf_format ⟨2024, 1, 2, 3, 4, 5, 0⟩ (by decide) (by decide) (by decide)
    (by decide) (by decide) (by decide)).1.trans (by decide)

theorem sto_signed_no_number (lo hi : Int) (l : List Char)
    (h : ∀ c ∈ l.head?, numeric_start c = false) :
    sto_signed lo hi l = Outcome.raised cpp_exception.invalid_argument := by
  cases l with
  | nil => simp [sto_signed]
  | cons c t =>
    have hc : numeric_start c = false := h c (by simp)
    simp only [numeric_start, Bool.or_eq_false_iff, decide_eq_false_iff_not] at hc
    obtain ⟨⟨⟨hsp, hm⟩, hp⟩, hd⟩ := hc
    simp [sto_signed, List.dropWhile_cons, hsp, hm, hp, List.takeWhile_cons, hd]

theorem sto_signed_defined (lo hi : Int) (l : List Char) :
    sto_signed lo hi l ≠ Outcome.undefined := by
  intro h
  unfold sto_signed at h
  simp only [] at h
  split_ifs at h

theorem substr_stoi_defined (s : string) (pos count : Nat) :
    (substr s pos count).bind stoi ≠ Outcome.undefined := by
  unfold substr
  split
  · simp [Outcome.bind]
  · simpa [Outcome.bind, stoi] using sto_signed_defined _ _ _

theorem read_field_defined (s : string) (i : Nat) (ch : Char) :
    read_field s i ch ≠ Outcome.undefined :=
  substr_stoi_defined _ _ _

/-- A field read that starts at a character which cannot begin a number throws
`std::invalid_argument`. -/
theorem read_field_no_number (s : string) (i : Nat) (ch c : Char)
    (h : (s.drop (size_add i 1)).head? = some c) (hc : numeric_start c = false) :
    read_field s i ch = Outcome.raised cpp_exception.invalid_argument := by
  have hlen : ¬ (size_add i 1 > s.length) := by
    intro hgt
    rw [List.drop_of_length_le (by omega)] at h
    simp at h
  obtain ⟨t, ht⟩ : ∃ t, List.drop (size_add i 1) s = c :: t := by
    cases hd : List.drop (size_add i 1) s with
    | nil => rw [hd] at h; simp at h
    | cons x t => rw [hd] at h; simp at h; exact ⟨t, by rw [h]⟩
  simp only [read_field, substr, hlen, if_false, Outcome.bind, ht, stoi]
  apply sto_signed_no_number
  intro x hx
  cases hcnt : find s ch (size_add i 1) with
  | zero => rw [hcnt] at hx; simp at hx
  | succ n =>
    rw [hcnt] at hx
    simp at hx
    rw [← hx]; exact hc

theorem fails_bind {α β : Type} (x : Outcome α) (f : α → Outcome β)
    (hx : x ≠ Outcome.undefined) (hf : ∀ a, (f a).fails = true) : (x.bind f).fails = true := by
  cases x with
  | returned a => exact hf a
  | raised e => rfl
  | undefined => exact absurd rfl hx

theorem fails_bind_raised {α β : Type} (x : Outcome α) (f : α → Outcome β) (e : cpp_exception)
    (hx : x = Outcome.raised e) : (x.bind f).fails = true := by
  subst hx; rfl

/-- C5, as stated, fails: the text `2024-01-02T03:04:05`, well-formed except for the
missing trailing `Z`, is not rejected but decoded to 2024-01-02 03:04:05. -/
theorem w3cdtf_to_datetime_accepts_missing_Z :
    w3cdtf_to_datetime "2024-01-02T03:04:05".toList =
        Outcome.returned ⟨2024, 1, 2, 3, 4, 5, 0⟩ ∧
      (w3cdtf_to_datetime "2024-01-02T03:04:05".toList).fails = false := by
  decide

/-- C5 (amended): `w3cdtf_to_datetime` validates nothing itself and fails where `std::stoi`
fails.  For every string, if the text right after one of the five located separators
starts with a character that cannot begin a number (neither white space, a sign nor a
digit), the call throws; the trailing `Z` is not required: `2024-01-02T03:04:05` is
decoded to 2024-01-02 03:04:05. -/
theorem w3cdtf_to_datetime_rejects_non_numeric_start (s : string) (sep : Nat) (c : Char)
    (hsep : sep ∈ separator_indices s)
    (h : (s.drop (size_add sep 1)).head? = some c) (hc : numeric_start c = false) :
    (w3cdtf_to_datetime s).fails = true ∧
      w3cdtf_to_datetime "2024-01-02T03:04:05".toList =
        Outcome.returned ⟨2024, 1, 2, 3, 4, 5, 0⟩ := by
  refine ⟨?_, by decide⟩
  have hbad := fun ch => read_field_no_number s sep ch c h hc
  simp only [separator_indices, List.mem_cons, List.mem_singleton, List.not_mem_nil,
    or_false] at hsep
  simp only [w3cdtf_to_datetime]
  apply fails_bind _ _ (substr_stoi_defined _ _ _); intro _
  rcases hsep with rfl | hsep
  · exact fails_bind_raised _ _ _ (hbad _)
  apply fails_bind _ _ (read_field_defined _ _ _); intro _
  rcases hsep with rfl | hsep
  · exact fails_bind_raised _ _ _ (hbad _)
  apply fails_bind _ _ (read_field_defined _ _ _); intro _
  rcases hsep with rfl | hsep
  · exact fails_bind_raised _ _ _ (hbad _)
  apply fails_bind _ _ (read_field_defined _ _ _); intro _
  rcases hsep with rfl | rfl
  · exact fails_bind_raised _ _ _ (hbad _)
  apply fails_bind _ _ (read_field_defined _ _ _); intro _
  exact fails_bind_raised _ _ _ (hbad _)

/-- Witness of C5 (amended): in `2024-xx-02T03:04:05Z` the month segment starts with `x`. -/
theorem w3cdtf_to_datetime_rejects_non_numeric_start_witness :
    (4 ∈ separator_indices "2024-xx-02T03:04:05Z".toList ∧
        ("2024-xx-02T03:04:05Z".toList.drop (size_add 4 1)).head? = some 'x' ∧
        numeric_start 'x' = false) ∧
      (w3cdtf_to_datetime "2024-xx-02T03:04:05Z".toList).fails = true :=
  ⟨by decide,
    (w3cdtf_to_datetime_rejects_non_numeric_start "2024-xx-02T03:04:05Z".toList 4 'x'
      (by decide) (by decide) (by decide)).1⟩

/-! ## Workbook part: the visibility check -/

theorem num_visible_foldl (l : List worksheet) : ∀ n : Nat,
    l.foldl (fun n ws => if ws.page_setup_.sheet_state_ = sheet_state.visible then n + 1 else n)
        n =
      n + (l.filter
        (fun ws => decide (ws.page_setup_.sheet_state_ = sheet_state.visible))).length := by
  induction l with
  | nil => intro n; simp
  | cons ws rest ih =>
    intro n
    rw [List.foldl_cons, ih]
    by_cases h : ws.page_setup_.sheet_state_ = sheet_state.visible
    · simp [List.filter_cons, h]; omega
    · simp [List.filter_cons, h]

theorem num_visible_eq_zero_iff (wb : workbook) :
    num_visible wb = 0 ↔
      ∀ ws ∈ wb.worksheets_, ws.page_setup_.sheet_state_ ≠ sheet_state.visible := by
  rw [num_visible, num_visible_foldl]
  simp [List.filter_eq_nil_iff]

/-- C7: `write_workbook` throws `value_error` for every workbook none of whose worksheets
is visible (all hidden or very hidden, or no worksheet at all); when some worksheet is
visible the count is not zero, the check does not throw, and the result is that of the
rest of the function. -/
theorem write_workbook_visibility (ops : range_ops) (wb : workbook) :
    ((∀ ws ∈ wb.worksheets_, ws.page_setup_.sheet_state_ ≠ sheet_state.visible) →
        write_workbook ops wb = Outcome.raised cpp_exception.value_error) ∧
      ((∃ ws ∈ wb.worksheets_, ws.page_setup_.sheet_state_ = sheet_state.visible) →
        num_visible wb ≠ 0 ∧
        write_workbook ops wb =
          (write_relationships ops wb wb.relationships_ ([], [])).bind fun nodes =>
            Outcome.returned (workbook_document wb nodes)) := by
  constructor
  · intro h
    simp [write_workbook, (num_visible_eq_zero_iff wb).mpr h]
  · rintro ⟨ws, hws, hvis⟩
    have hne : num_visible wb ≠ 0 := fun h0 => (num_visible_eq_zero_iff wb).mp h0 ws hws hvis
    exact ⟨hne, by simp [write_workbook, hne]⟩

/-- Witness of C7: a workbook with one hidden and one very hidden worksheet. -/
theorem write_workbook_visibility_witness :
    (∀ ws ∈ [(⟨"a".toList, ⟨sheet_state.hidden⟩, ⟨⟨1, 1⟩, ⟨1, 1⟩⟩⟩ : worksheet),
        ⟨"b".toList, ⟨sheet_state.very_hidden⟩, ⟨⟨1, 1⟩, ⟨1, 1⟩⟩⟩],
        ws.page_setup_.sheet_state_ ≠ sheet_state.visible) ∧
      write_workbook example_ops
          ⟨[⟨"a".toList, ⟨sheet_state.hidden⟩, ⟨⟨1, 1⟩, ⟨1, 1⟩⟩⟩,
              ⟨"b".toList, ⟨sheet_state.very_hidden⟩, ⟨⟨1, 1⟩, ⟨1, 1⟩⟩⟩],
            [], ⟨[]⟩, ⟨[], [], ⟨1900, 1, 1, 0, 0, 0, 0⟩, ⟨1900, 1, 1, 0, 0, 0, 0⟩, [],
              calendar.windows_1900⟩⟩ =
        Outcome.raised cpp_exception.value_error :=
  ⟨by decide, (write_workbook_visibility example_ops _).1 (by decide)⟩

/-! ## Workbook part: the sheet index derived from a target -/

theorem find_none {s : List Char} {ch : Char} {pos : Nat}
    (h : ∀ x ∈ s.drop pos, x ≠ ch) : find s ch pos = npos := by
  have := find_from_none (fun c => c == ch) (s.drop pos) (fun x hx => by simpa using h x hx) pos
  simp [find, this]

theorem find_last_of_eq {s pre post : List Char} {ch : Char}
    (hs : s = pre ++ ch :: post) (hpost : ∀ x ∈ post, x ≠ ch) :
    find_last_of s ch = pre.length := by
  have hr : s.reverse = post.reverse ++ ch :: pre.reverse := by simp [hs]
  have h := find_from_append (fun c => c == ch) post.reverse ch pre.reverse
    (fun x hx => by simpa using hpost x (List.mem_reverse.mp hx)) (by simp) 0
  simp only [find_last_of, hr, h]
  simp [hs]

theorem scan_digits_back_digits (A ds : List Char) (hds : ∀ c ∈ ds, isdigit c = true) :
    ∀ n, n ≤ ds.length →
      scan_digits_back (A ++ ds) (A.length + n) = scan_digits_back (A ++ ds) A.length := by
  intro n
  induction n with
  | zero => intro _; rfl
  | succ n ih =>
    intro hn
    have hlt : n < ds.length := by omega
    have hget : (A ++ ds)[A.length + n]? = some ds[n] := by
      rw [List.getElem?_append_right (by omega)]
      simp [hlt]
    have hd : isdigit ds[n] = true := hds _ (List.getElem_mem _)
    rw [show A.length + (n + 1) = (A.length + n) + 1 from rfl, scan_digits_back, hget]
    simp only [hd, if_true]
    exact ih (by omega)

theorem scan_digits_back_stop (A ds : List Char) (c : Char) (hc : isdigit c = false)
    (hds : ∀ x ∈ ds, isdigit x = true) :
    scan_digits_back (A ++ c :: ds) (A ++ c :: ds).length = Outcome.returned A.length := by
  have h1 := scan_digits_back_digits (A ++ [c]) ds hds ds.length (le_refl _)
  have e : A ++ c :: ds = (A ++ [c]) ++ ds := by simp
  have hl : (A ++ c :: ds).length = (A ++ [c]).length + ds.length := by simp; omega
  rw [hl, e, h1]
  have hget : ((A ++ [c]) ++ ds)[A.length]? = some c := by
    rw [List.append_assoc, List.getElem?_append_right (le_refl _)]
    simp
  rw [show (A ++ [c]).length = A.length + 1 by simp, scan_digits_back, hget]
  simp [hc]

theorem take_npos {l : List Char} (h : l.length < 2 ^ 64) : l.take npos = l := by
  apply List.take_of_length_le
  have : npos = 2 ^ 64 - 1 := rfl
  omega

theorem stoll_digits {ds : List Char} (hne : ds ≠ []) (hds : ∀ c ∈ ds, isdigit c = true)
    (hN : (digits_value ds : Int) ≤ LLONG_MAX) :
    stoll ds = Outcome.returned (digits_value ds : Int) := by
  have := sto_signed_digits LLONG_MIN LLONG_MAX ds [] hne hds (by simp)
    (by have : (0 : Int) ≤ (digits_value ds : Int) := Int.ofNat_nonneg _
        simp only [LLONG_MIN]; omega) hN
  simpa [stoll] using this

/-- The scan, the final `substr` and `std::stoll` on a text ending in a non-digit followed
by a run of digits. -/
theorem sheet_index_tail (A ds : List Char) (c : Char) (hc : isdigit c = false)
    (hne : ds ≠ []) (hds : ∀ x ∈ ds, isdigit x = true)
    (hN1 : 1 ≤ digits_value ds) (hN2 : (digits_value ds : Int) ≤ LLONG_MAX)
    (hlen : (A ++ c :: ds).length < 2 ^ 64) :
    ((scan_digits_back (A ++ c :: ds) (A ++ c :: ds).length).bind fun first_digit =>
      (substr (A ++ c :: ds) (first_digit + 1) npos).bind fun s3 =>
      (stoll s3).bind fun v =>
      if v - 1 < LLONG_MIN then Outcome.undefined
      else Outcome.returned ((v - 1) % 2 ^ 64).toNat) =
      Outcome.returned (digits_value ds - 1) := by
  have hdrop : List.drop (A.length + 1) (A ++ c :: ds) = ds := by
    have e : A ++ c :: ds = (A ++ [c]) ++ ds := by simp
    rw [e]; exact List.drop_left' (by simp)
  have hpos : ¬ (A.length + 1 > (A ++ c :: ds).length) := by simp
  have hdl : ds.length < 2 ^ 64 := by
    simp only [List.length_append, List.length_cons] at hlen; omega
  have hlow : ¬ ((digits_value ds : Int) - 1 < LLONG_MIN) := by
    simp only [LLONG_MIN]; omega
  have hval : (((digits_value ds : Int) - 1) % 2 ^ 64).toNat = digits_value ds - 1 := by
    simp only [LLONG_MAX] at hN2
    have h0 : (0 : Int) ≤ (digits_value ds : Int) - 1 := by omega
    rw [Int.emod_eq_of_lt h0 (by omega)]
    omega
  simp only [scan_digits_back_stop A ds c hc hds, Outcome.bind, substr, hpos, if_false, hdrop,
    take_npos hdl, stoll_digits hne hds hN2, hlow, hval]

/-- The sheet index derived from a target `pre/name<digits>suffix`, where `pre` and `name`
contain no `.`, `name` contains no `/` and does not end in a digit, and `suffix` is empty
or starts with `.`: the value of the digits minus one. -/
theorem sheet_index_of_trailing_digits (pre name ds suffix : List Char)
    (hpre : ∀ x ∈ pre, x ≠ '.') (hname : ∀ x ∈ name, x ≠ '.' ∧ x ≠ '/')
    (hlast : ∀ x ∈ name.getLast?, isdigit x = false)
    (hne : ds ≠ []) (hds : ∀ x ∈ ds, isdigit x = true)
    (hsuf : ∀ x ∈ suffix.head?, x = '.')
    (hN1 : 1 ≤ digits_value ds) (hN2 : (digits_value ds : Int) ≤ LLONG_MAX)
    (hlen : (pre ++ '/' :: (name ++ ds) ++ suffix).length < 2 ^ 64) :
    sheet_index_of (pre ++ '/' :: (name ++ ds) ++ suffix) =
      Outcome.returned (digits_value ds - 1) := by
  have hdot : ∀ x ∈ pre ++ '/' :: (name ++ ds), x ≠ '.' := by
    intro x hx
    simp only [List.mem_append, List.mem_cons] at hx
    rcases hx with h | rfl | h | h
    · exact hpre x h
    · decide
    · exact (hname x h).1
    · exact isdigit_ne (hds x h) (by decide)
  have hslash : ∀ x ∈ name ++ ds, x ≠ '/' := by
    intro x hx
    rcases List.mem_append.mp hx with h | h
    · exact (hname x h).2
    · exact isdigit_ne (hds x h) (by decide)
  have hlen' : (pre ++ '/' :: (name ++ ds)).length < 2 ^ 64 := by
    simp only [List.length_append, List.length_cons] at hlen ⊢; omega
  have hlen2 : ('/' :: (name ++ ds)).length < 2 ^ 64 := by
    simp only [List.length_append, List.length_cons] at hlen ⊢; omega
  -- the text before the first '.'
  have h1 : List.take (find (pre ++ '/' :: (name ++ ds) ++ suffix) '.' 0)
      (pre ++ '/' :: (name ++ ds) ++ suffix) = pre ++ '/' :: (name ++ ds) := by
    cases suffix with
    | nil =>
      have hf : find (pre ++ '/' :: (name ++ ds) ++ []) '.' 0 = npos :=
        find_none (by simpa using hdot)
      rw [hf, List.append_nil]; exact take_npos hlen'
    | cons d ext =>
      have hd : d = '.' := hsuf d (by simp)
      subst hd
      have hf := find_at (pre ++ '/' :: (name ++ ds) ++ '.' :: ext) []
        (pre ++ '/' :: (name ++ ds)) ext '.' 0 (by simp) rfl hdot
      rw [hf, Nat.zero_add, List.take_left]
  -- the text from the last '/'
  have h2 : find_last_of (pre ++ '/' :: (name ++ ds)) '/' = pre.length :=
    find_last_of_eq rfl hslash
  have hpos : ¬ (pre.length > (pre ++ '/' :: (name ++ ds)).length) := by simp
  have h3 : (List.drop pre.length (pre ++ '/' :: (name ++ ds))).take npos =
      '/' :: (name ++ ds) := by
    rw [List.drop_left]; exact take_npos hlen2
  -- the trailing digits
  obtain ⟨A, c, hA, hc⟩ : ∃ A c, '/' :: (name ++ ds) = A ++ c :: ds ∧ isdigit c = false := by
    rcases List.eq_nil_or_concat name with rfl | ⟨L, b, rfl⟩
    · exact ⟨[], '/', by simp, by decide⟩
    · exact ⟨'/' :: L, b, by simp, hlast b (by simp)⟩
  have h4 := sheet_index_tail A ds c hc hne hds hN1 hN2 (by rw [← hA]; exact hlen2)
  rw [← hA] at h4
  simp only [sheet_index_of, substr, Nat.not_lt_zero, gt_iff_lt, if_false, List.drop_zero, h1,
    Outcome.bind, h2, hpos, h3]
  exact h4

/-! ## Workbook part: the loop over the relationships -/

theorem resolved_sheet_eq_some {wb : workbook} {rel : relationship} {i : Nat} {ws : worksheet}
    (h : resolved_sheet wb rel = some (i, ws)) :
    rel.type = relationship_type.worksheet ∧
      sheet_index_of rel.target_uri = Outcome.returned i ∧ wb.worksheets_[i]? = some ws := by
  unfold resolved_sheet at h
  split at h
  · rename_i ht
    split at h
    · rename_i j hj
      cases hg : wb.worksheets_[j]? with
      | none => rw [hg] at h; simp at h
      | some w =>
        rw [hg] at h
        simp only [Option.map_some', Option.some.injEq, Prod.mk.injEq] at h
        obtain ⟨rfl, rfl⟩ := h
        exact ⟨ht, hj, hg⟩
    · simp at h
  · simp at h

theorem resolved_sheet_of {wb : workbook} {rel : relationship} {i : Nat} {ws : worksheet}
    (ht : rel.type = relationship_type.worksheet)
    (hi : sheet_index_of rel.target_uri = Outcome.returned i)
    (hw : wb.worksheets_[i]? = some ws) : resolved_sheet wb rel = some (i, ws) := by
  simp [resolved_sheet, ht, hi, hw]

theorem write_relationship_of_resolved (ops : range_ops) {wb : workbook}
    (nodes : List xml_node × List xml_node) {rel : relationship} {i : Nat} {ws : worksheet}
    (h : resolved_sheet wb rel = some (i, ws)) :
    write_relationship ops wb nodes rel =
      Outcome.returned (nodes.1 ++ [xml_node.mk "sheet".toList [] none []],
        nodes.2 ++ if ws.has_auto_filter then [defined_name_node ops ws] else []) := by
  obtain ⟨ht, hi, hw⟩ := resolved_sheet_eq_some h
  simp only [write_relationship, ht, if_true, hi, Outcome.bind, workbook.get_sheet_by_index, hw]
  split <;> simp

theorem write_relationship_of_not_worksheet (ops : range_ops) (wb : workbook)
    (nodes : List xml_node × List xml_node) {rel : relationship}
    (h : rel.type ≠ relationship_type.worksheet) :
    write_relationship ops wb nodes rel = Outcome.returned nodes := by
  simp [write_relationship, h]

theorem resolved_sheet_none_of_not_worksheet (wb : workbook) {rel : relationship}
    (h : rel.type ≠ relationship_type.worksheet) : resolved_sheet wb rel = none := by
  simp [resolved_sheet, h]

/-- When every worksheet-typed relationship resolves to a worksheet, the loop returns: the
local `sheets_node` has one `sheet` child without attributes per such relationship, and the
local `defined_names_node` one `definedName` child per such relationship whose worksheet
has an auto filter, in the order of the relationships. -/
theorem write_relationships_eq (ops : range_ops) (wb : workbook) :
    ∀ (rels : List relationship) (nodes : List xml_node × List xml_node),
      (∀ rel ∈ rels, rel.type = relationship_type.worksheet →
        (resolved_sheet wb rel).isSome = true) →
      write_relationships ops wb rels nodes =
        Outcome.returned
          (nodes.1 ++ rels.filterMap
              (fun rel => (resolved_sheet wb rel).map
                (fun _ => xml_node.mk "sheet".toList [] none [])),
            nodes.2 ++ rels.filterMap
              (fun rel => (resolved_sheet wb rel).bind
                (fun p => if p.2.has_auto_filter then some (defined_name_node ops p.2)
                  else none))) := by
  intro rels
  induction rels with
  | nil => intro nodes _; simp [write_relationships]
  | cons rel rest ih =>
    intro nodes h
    have hrest : ∀ r ∈ rest, r.type = relationship_type.worksheet →
        (resolved_sheet wb r).isSome = true := fun r hr => h r (List.mem_cons_of_mem _ hr)
    by_cases ht : rel.type = relationship_type.worksheet
    · obtain ⟨⟨i, ws⟩, hr⟩ := Option.isSome_iff_exists.mp (h rel (List.mem_cons_self _ _) ht)
      rw [write_relationships, write_relationship_of_resolved ops nodes hr, Outcome.bind,
        ih _ hrest]
      by_cases haf : ws.has_auto_filter = true
      · simp [List.filterMap_cons, hr, haf]
      · simp [List.filterMap_cons, hr, haf]
    · rw [write_relationships, write_relationship_of_not_worksheet ops wb nodes ht, Outcome.bind,
        ih _ hrest]
      simp [List.filterMap_cons, resolved_sheet_none_of_not_worksheet wb ht]

/-- The `sheets` element of the document has no child, whatever the loop has built. -/
theorem children_of_sheets (wb : workbook) (nodes : List xml_node × List xml_node) :
    (workbook_document wb nodes).children_of "sheets".toList = [] := by
  rfl

/-- The `definedNames` element of the document has no child, whatever the loop has
built. -/
theorem children_of_defined_names (wb : workbook) (nodes : List xml_node × List xml_node) :
    (workbook_document wb nodes).children_of "definedNames".toList = [] := by
  rfl

/-- A document returned by `write_workbook` is the one assembled after the loop. -/
theorem write_workbook_returned (ops : range_ops) (wb : workbook) (doc : xml_document)
    (h : write_workbook ops wb = Outcome.returned doc) :
    ∃ nodes, write_relationships ops wb wb.relationships_ ([], []) = Outcome.returned nodes ∧
      doc = workbook_document wb nodes := by
  unfold write_workbook at h
  split at h
  · cases h
  · cases hloop : write_relationships ops wb wb.relationships_ ([], []) with
    | returned out =>
      rw [hloop] at h
      exact ⟨out, rfl, (Outcome.returned.inj h).symm⟩
    | raised e => rw [hloop] at h; cases h
    | undefined => rw [hloop] at h; cases h

theorem filterMap_auto_filter (rels : List relationship)
    (f : relationship → Option (Nat × worksheet)) (g : worksheet → xml_node) :
    rels.filterMap
        (fun rel => (f rel).bind
          (fun p => if p.2.has_auto_filter then some (g p.2) else none)) =
      ((rels.filterMap f).filter (fun p => p.2.has_auto_filter)).map (fun p => g p.2) := by
  induction rels with
  | nil => rfl
  | cons rel rest ih =>
    cases hf : f rel with
    | none => simp [List.filterMap_cons, hf, ih]
    | some p =>
      by_cases haf : p.2.has_auto_filter = true
      · simp [List.filterMap_cons, hf, haf, ih, List.filter_cons]
      · simp [List.filterMap_cons, hf, haf, ih, List.filter_cons]

/-- With a visible worksheet and every worksheet-typed relationship resolving to a
worksheet, the loop of `write_workbook` ends with the `definedName` elements of the
worksheets with an auto filter in the local `defined_names_node`, and `write_workbook`
returns the document assembled after the loop. -/
theorem write_workbook_eq (ops : range_ops) (wb : workbook)
    (hvis : ∃ ws ∈ wb.worksheets_, ws.page_setup_.sheet_state_ = sheet_state.visible)
    (hres : ∀ rel ∈ wb.relationships_, rel.type = relationship_type.worksheet →
      (resolved_sheet wb rel).isSome = true) :
    ∃ nodes,
      write_relationships ops wb wb.relationships_ ([], []) = Outcome.returned nodes ∧
        nodes.2 =
          ((wb.relationships_.filterMap (resolved_sheet wb)).filter
            (fun p => p.2.has_auto_filter)).map (fun p => defined_name_node ops p.2) ∧
        write_workbook ops wb = Outcome.returned (workbook_document wb nodes) := by
  obtain ⟨ws, hws, hv⟩ := hvis
  have hne : num_visible wb ≠ 0 := fun h0 => (num_visible_eq_zero_iff wb).mp h0 ws hws hv
  refine ⟨_, write_relationships_eq ops wb _ _ hres, ?_, ?_⟩
  · simp only [List.nil_append, filterMap_auto_filter]
  · simp only [write_workbook, hne, if_false, write_relationships_eq ops wb _ _ hres,
      Outcome.bind]

/-! ## Claims on the workbook part -/

/-- The derivation of the sheet index needs a `/` before the first `.` of the target: for
the targets `sheet3.xml` (no directory) and `../worksheets/sheet2.xml` (a `.` in the
directory) the text cut at the first `.` contains no `/`, `substr(npos)` throws
`std::out_of_range`, and `write_workbook` fails on a workbook with such a worksheet
relationship. -/
theorem sheet_index_of_without_slash_fails :
    sheet_index_of "sheet3.xml".toList = Outcome.raised cpp_exception.out_of_range ∧
      sheet_index_of "../worksheets/sheet2.xml".toList =
        Outcome.raised cpp_exception.out_of_range ∧
      (write_workbook example_ops (example_workbook_with
        [⟨relationship_type.worksheet, "rId1".toList, "sheet2.xml".toList⟩])).fails = true ∧
      (write_workbook example_ops (example_workbook_with
        [⟨relationship_type.worksheet, "rId1".toList,
          "../worksheets/sheet2.xml".toList⟩])).fails = true := by
  decide

/-- C8 (code): for a worksheet-typed relationship whose target is `pre/name<digits>`
optionally followed by a suffix starting with `.`, where `pre` and `name` contain no `.`,
`name` contains no `/` and does not end in a digit, and the digits denote `N` with
`1 ≤ N ≤ LLONG_MAX`: the derived zero-based index is `N - 1`, and when the workbook has a
worksheet at that index it is fetched and the local `sheet_node` gets `name` the
worksheet's title, `r:id` the relationship's id and `sheetId` the decimal text of `N`.  But
`sheet_node` is a copy: the loop body leaves a `sheet` child without attributes in the
local `sheets_node`, itself a copy, and the `sheets` element of every document that
`write_workbook` returns has no child at all, so no `sheet` element is emitted. -/
theorem write_workbook_sheet_not_emitted (ops : range_ops) (wb : workbook)
    (nodes : List xml_node × List xml_node) (rel : relationship)
    (pre name ds suffix : List Char) (ws : worksheet)
    (ht : rel.type = relationship_type.worksheet)
    (htarget : rel.target_uri = pre ++ '/' :: (name ++ ds) ++ suffix)
    (hpre : ∀ x ∈ pre, x ≠ '.') (hname : ∀ x ∈ name, x ≠ '.' ∧ x ≠ '/')
    (hlast : ∀ x ∈ name.getLast?, isdigit x = false)
    (hne : ds ≠ []) (hds : ∀ x ∈ ds, isdigit x = true)
    (hsuf : ∀ x ∈ suffix.head?, x = '.')
    (hN1 : 1 ≤ digits_value ds) (hN2 : (digits_value ds : Int) ≤ LLONG_MAX)
    (hlen : rel.target_uri.length < 2 ^ 64)
    (hws : wb.worksheets_[digits_value ds - 1]? = some ws) :
    sheet_index_of rel.target_uri = Outcome.returned (digits_value ds - 1) ∧
      wb.get_sheet_by_index (digits_value ds - 1) = Outcome.returned ws ∧
      sheet_node ws rel (digits_value ds - 1) =
        xml_node.mk "sheet".toList
          [("name".toList, ws.title_), ("r:id".toList, rel.id),
            ("sheetId".toList, to_string_nat (digits_value ds))] none [] ∧
      (∃ names, write_relationship ops wb nodes rel =
        Outcome.returned (nodes.1 ++ [xml_node.mk "sheet".toList [] none []], names)) ∧
      (∀ doc, write_workbook ops wb = Outcome.returned doc →
        doc.children_of "sheets".toList = []) := by
  have hidx : sheet_index_of rel.target_uri = Outcome.returned (digits_value ds - 1) := by
    rw [htarget]
    exact sheet_index_of_trailing_digits pre name ds suffix hpre hname hlast hne hds hsuf hN1 hN2
      (by rw [← htarget]; exact hlen)
  have hres : resolved_sheet wb rel = some (digits_value ds - 1, ws) :=
    resolved_sheet_of ht hidx hws
  have hid : size_add (digits_value ds - 1) 1 = digits_value ds := by
    have hlt : digits_value ds - 1 + 1 < 2 ^ 64 := by
      simp only [LLONG_MAX] at hN2; omega
    rw [size_add_one hlt]; omega
  have hnode : sheet_node ws rel (digits_value ds - 1) =
      xml_node.mk "sheet".toList
        [("name".toList, ws.title_), ("r:id".toList, rel.id),
          ("sheetId".toList, to_string_nat (digits_value ds))] none [] := by
    rw [sheet_node, hid]
    rfl
  refine ⟨hidx, by simp [workbook.get_sheet_by_index, hws], hnode,
    ⟨nodes.2 ++ if ws.has_auto_filter then [defined_name_node ops ws] else [], ?_⟩, ?_⟩
  · rw [write_relationship_of_resolved ops nodes hres]
  · intro doc hdoc
    obtain ⟨out, -, rfl⟩ := write_workbook_returned ops wb doc hdoc
    exact children_of_sheets wb out

/-- Witness of C8: in the two-sheet example workbook the target `worksheets/sheet2.xml`
gives index 1 and fetches the second worksheet, the local `sheet_node` carries its title,
`rId2` and `sheetId` 2, and `write_workbook` returns a document whose `sheets` element has
no child. -/
theorem write_workbook_sheet_not_emitted_witness :
    ("worksheets/sheet2.xml".toList =
          "worksheets".toList ++ '/' :: ("sheet".toList ++ "2".toList) ++ ".xml".toList ∧
        1 ≤ digits_value "2".toList ∧
        example_workbook.worksheets_[digits_value "2".toList - 1]? =
          some ⟨"Second".toList, ⟨sheet_state.visible⟩, ⟨⟨1, 1⟩, ⟨2, 2⟩⟩⟩) ∧
      sheet_index_of "worksheets/sheet2.xml".toList = Outcome.returned 1 ∧
      example_workbook.get_sheet_by_index 1 =
        Outcome.returned ⟨"Second".toList, ⟨sheet_state.visible⟩, ⟨⟨1, 1⟩, ⟨2, 2⟩⟩⟩ ∧
      (sheet_node ⟨"Second".toList, ⟨sheet_state.visible⟩, ⟨⟨1, 1⟩, ⟨2, 2⟩⟩⟩
          ⟨relationship_type.worksheet, "rId2".toList, "worksheets/sheet2.xml".toList⟩
          1).get_attributes =
        [("name".toList, "Second".toList), ("r:id".toList, "rId2".toList),
          ("sheetId".toList, "2".toList)] ∧
      (write_workbook example_ops example_workbook).fails = false ∧
      ∀ doc, write_workbook example_ops example_workbook = Outcome.returned doc →
        doc.children_of "sheets".toList = [] :=
  ⟨by decide,
    (write_workbook_sheet_not_emitted example_ops example_workbook ([], [])
      ⟨relationship_type.worksheet, "rId2".toList, "worksheets/sheet2.xml".toList⟩
      "worksheets".toList "sheet".toList "2".toList ".xml".toList
      ⟨"Second".toList, ⟨sheet_state.visible⟩, ⟨⟨1, 1⟩, ⟨2, 2⟩⟩⟩
      rfl (by decide) (by decide) (by decide) (by decide) (by decide) (by decide) (by decide)
      (by decide) (by decide) (by decide) (by decide)).1,
    by decide, by decide, by decide,
    (write_workbook_sheet_not_emitted example_ops example_workbook ([], [])
      ⟨relationship_type.worksheet, "rId2".toList, "worksheets/sheet2.xml".toList⟩
      "worksheets".toList "sheet".toList "2".toList ".xml".toList
      ⟨"Second".toList, ⟨sheet_state.visible⟩, ⟨⟨1, 1⟩, ⟨2, 2⟩⟩⟩
      rfl (by decide) (by decide) (by decide) (by decide) (by decide) (by decide) (by decide)
      (by decide) (by decide) (by decide) (by decide)).2.2.2.2⟩

/-- C9 (code): when `write_workbook` passes the visibility check and every worksheet-typed
relationship resolves to a worksheet, the loop leaves in the local `defined_names_node`, in
relationship order, exactly one `definedName` child for each worksheet-typed relationship
whose worksheet has an auto filter and none for the others; each has the attribute `name`
equal to `_xlnm._FilterDatabase`, `hidden` equal to `1`, and as text the quoted worksheet
title, `!` and the string form of the absolute auto-filter range of that worksheet.  But
`defined_names_node` is a copy of the `definedNames` child of the root: `write_workbook`
returns, and the `definedNames` element of the returned document has no child, so no
`definedName` element is emitted. -/
theorem write_workbook_defined_names_not_emitted (ops : range_ops) (wb : workbook)
    (hvis : ∃ ws ∈ wb.worksheets_, ws.page_setup_.sheet_state_ = sheet_state.visible)
    (hres : ∀ rel ∈ wb.relationships_, rel.type = relationship_type.worksheet →
      (resolved_sheet wb rel).isSome = true) :
    ∃ nodes doc,
      write_relationships ops wb wb.relationships_ ([], []) = Outcome.returned nodes ∧
        nodes.2.map
            (fun n => (n.get_name, n.get_attribute "name".toList,
              n.get_attribute "hidden".toList, n.get_text)) =
          ((wb.relationships_.filterMap (resolved_sheet wb)).filter
              (fun p => p.2.has_auto_filter)).map
            (fun p => ("definedName".toList, some "_xlnm._FilterDatabase".toList,
              some "1".toList,
              some ("'".toList ++ p.2.title_ ++ "'!".toList ++
                ops.to_string (ops.make_absolute p.2.auto_filter_)))) ∧
        write_workbook ops wb = Outcome.returned doc ∧
        doc.children_of "definedNames".toList = [] := by
  obtain ⟨nodes, hloop, hnames, hdoc⟩ := write_workbook_eq ops wb hvis hres
  refine ⟨nodes, _, hloop, ?_, hdoc, children_of_defined_names wb nodes⟩
  rw [hnames, List.map_map]
  rfl

/-- Witness of C9: in the two-sheet example workbook only the second worksheet has an auto
filter, on `A1:B2` (the first has the range `A1:A1`); the loop builds the single
`definedName` of `Second` with the text of that range, and the returned document has no
`definedName`. -/
theorem write_workbook_defined_names_not_emitted_witness :
    ((∃ ws ∈ example_workbook.worksheets_,
          ws.page_setup_.sheet_state_ = sheet_state.visible) ∧
        (∀ rel ∈ example_workbook.relationships_, rel.type = relationship_type.worksheet →
          (resolved_sheet example_workbook rel).isSome = true) ∧
        example_workbook.worksheets_.map
            (fun ws => (ws.has_auto_filter, example_ops.to_string ws.auto_filter_)) =
          [(false, "$A$1:$A$1".toList), (true, "$A$1:$B$2".toList)]) ∧
      ∃ nodes doc,
        write_relationships example_ops example_workbook example_workbook.relationships_
            ([], []) = Outcome.returned nodes ∧
          nodes.2.map
              (fun n => (n.get_name, n.get_attribute "name".toList,
                n.get_attribute "hidden".toList, n.get_text)) =
            [("definedName".toList, some "_xlnm._FilterDatabase".toList, some "1".toList,
              some "'Second'!$A$1:$B$2".toList)] ∧
          write_workbook example_ops example_workbook = Outcome.returned doc ∧
          doc.children_of "definedNames".toList = [] :=
  ⟨by decide,
    (write_workbook_defined_names_not_emitted example_ops example_workbook (by decide)
      (by decide)).imp
      (fun _ h => h.imp (fun _ h => ⟨h.1, h.2.1.trans (by decide), h.2.2.1, h.2.2.2⟩))⟩

/-- C10 (code): every `definedName` element that the loop of `write_workbook` builds
carries `localSheetId` equal to `0`, whatever the index of its worksheet; and the element
is built in the local copy `defined_names_node`, so the `definedNames` element of the
returned document has no child. -/
theorem write_workbook_local_sheet_id (ops : range_ops) (wb : workbook)
    (hvis : ∃ ws ∈ wb.worksheets_, ws.page_setup_.sheet_state_ = sheet_state.visible)
    (hres : ∀ rel ∈ wb.relationships_, rel.type = relationship_type.worksheet →
      (resolved_sheet wb rel).isSome = true) :
    ∃ nodes doc,
      write_relationships ops wb wb.relationships_ ([], []) = Outcome.returned nodes ∧
        nodes.2.map (fun n => n.get_attribute "localSheetId".toList) =
          ((wb.relationships_.filterMap (resolved_sheet wb)).filter
              (fun p => p.2.has_auto_filter)).map (fun _ => some "0".toList) ∧
        write_workbook ops wb = Outcome.returned doc ∧
        doc.children_of "definedNames".toList = [] := by
  obtain ⟨nodes, hloop, hnames, hdoc⟩ := write_workbook_eq ops wb hvis hres
  refine ⟨nodes, _, hloop, ?_, hdoc, children_of_defined_names wb nodes⟩
  rw [hnames, List.map_map]
  rfl

/-- Witness of C10: in the two-sheet example workbook the worksheet with the auto filter
has zero-based index 1, and the `definedName` built for it carries `localSheetId` equal to
`0`. -/
theorem write_workbook_local_sheet_id_witness :
    ((∃ ws ∈ example_workbook.worksheets_,
          ws.page_setup_.sheet_state_ = sheet_state.visible) ∧
        (∀ rel ∈ example_workbook.relationships_, rel.type = relationship_type.worksheet →
          (resolved_sheet example_workbook rel).isSome = true) ∧
        ((example_workbook.relationships_.filterMap (resolved_sheet example_workbook)).filter
            (fun p => p.2.has_auto_filter)).map (fun p => p.1) = [1]) ∧
      ∃ nodes doc,
        write_relationships example_ops example_workbook example_workbook.relationships_
            ([], []) = Outcome.returned nodes ∧
          nodes.2.map (fun n => n.get_attribute "localSheetId".toList) = [some "0".toList] ∧
          write_workbook example_ops example_workbook = Outcome.returned doc ∧
          doc.children_of "definedNames".toList = [] :=
  ⟨by decide,
    (write_workbook_local_sheet_id example_ops example_workbook (by decide) (by decide)).imp
      (fun _ h => h.imp (fun _ h => ⟨h.1, h.2.1.trans (by decide), h.2.2.1, h.2.2.2⟩))⟩

/-! ## Claims on the document type and the core properties -/

theorem has_override_type_eq (m : manifest) (part : string) :
    m.has_override_type part = (override_of m part).isSome := by
  unfold manifest.has_override_type override_of
  induction m.override_types with
  | nil => rfl
  | cons o os ih =>
    rw [List.any_cons, List.find?_cons, ih]
    cases o.part_name == part <;> simp

theorem get_override_type_eq (m : manifest) (part type : string)
    (h : override_of m part = some type) :
    m.get_override_type part = Outcome.returned type := by
  unfold override_of at h
  unfold manifest.get_override_type
  cases hf : m.override_types.find? (fun o => o.part_name == part) with
  | none => rw [hf] at h; simp at h
  | some o => rw [hf] at h; simp at h; simp [h]

/-- C11: `determine_document_type` always returns, and its result is one of `excel`,
`powerpoint`, `word`, `unsupported`: `excel`, `powerpoint`, `word` exactly when the
override of the main document part is the spreadsheet, presentation or word-processing main
content type, and `unsupported` exactly when there is no override or it has another
value. -/
theorem determine_document_type_total (ArcWorkbook : string) (m : manifest) :
    ∃ kind, determine_document_type ArcWorkbook m = Outcome.returned kind ∧
      kind ∈ ["excel".toList, "powerpoint".toList, "word".toList, "unsupported".toList] ∧
      (kind = "excel".toList ↔ override_of m ArcWorkbook = some sheet_main) ∧
      (kind = "powerpoint".toList ↔ override_of m ArcWorkbook = some presentation_main) ∧
      (kind = "word".toList ↔ override_of m ArcWorkbook = some document_main) ∧
      (kind = "unsupported".toList ↔
        override_of m ArcWorkbook = none ∨
          ∃ type, override_of m ArcWorkbook = some type ∧ type ≠ sheet_main ∧
            type ≠ presentation_main ∧ type ≠ document_main) := by
  have d1 : sheet_main ≠ presentation_main := by decide
  have d2 : sheet_main ≠ document_main := by decide
  have d3 : presentation_main ≠ document_main := by decide
  cases ho : override_of m ArcWorkbook with
  | none =>
    refine ⟨"unsupported".toList, ?_, by decide, ?_, ?_, ?_, ?_⟩
    · simp [determine_document_type, has_override_type_eq, ho]
    · simp
    · simp
    · simp
    · simp
  | some type =>
    have hg := get_override_type_eq m ArcWorkbook type ho
    have hh : m.has_override_type ArcWorkbook = true := by simp [has_override_type_eq, ho]
    by_cases h1 : type = sheet_main
    · subst h1
      refine ⟨"excel".toList, ?_, by decide, by simp, ?_, ?_, ?_⟩
      · simp [determine_document_type, hh, hg, Outcome.bind, sheet_main]
      · simp only [Option.some.injEq]; exact ⟨fun h => absurd h (by decide), fun h => absurd h d1⟩
      · simp only [Option.some.injEq]; exact ⟨fun h => absurd h (by decide), fun h => absurd h d2⟩
      · refine ⟨fun h => absurd h (by decide), ?_⟩
        rintro (h | ⟨t, ht, hn, -⟩)
        · simp at h
        · exact absurd (Option.some.inj ht).symm hn
    · by_cases h2 : type = presentation_main
      · subst h2
        refine ⟨"powerpoint".toList, ?_, by decide, ?_, by simp, ?_, ?_⟩
        · simp [determine_document_type, hh, hg, Outcome.bind, presentation_main]
        · simp only [Option.some.injEq]
          exact ⟨fun h => absurd h (by decide), fun h => absurd h.symm d1⟩
        · simp only [Option.some.injEq]
          exact ⟨fun h => absurd h (by decide), fun h => absurd h d3⟩
        · refine ⟨fun h => absurd h (by decide), ?_⟩
          rintro (h | ⟨t, ht, -, hn, -⟩)
          · simp at h
          · exact absurd (Option.some.inj ht).symm hn
      · by_cases h3 : type = document_main
        · subst h3
          refine ⟨"word".toList, ?_, by decide, ?_, ?_, by simp, ?_⟩
          · simp [determine_document_type, hh, hg, Outcome.bind, document_main]
          · simp only [Option.some.injEq]
            exact ⟨fun h => absurd h (by decide), fun h => absurd h.symm d2⟩
          · simp only [Option.some.injEq]
            exact ⟨fun h => absurd h (by decide), fun h => absurd h.symm d3⟩
          · refine ⟨fun h => absurd h (by decide), ?_⟩
            rintro (h | ⟨t, ht, -, -, hn⟩)
            · simp at h
            · exact absurd (Option.some.inj ht).symm hn
        · refine ⟨"unsupported".toList, ?_, by decide, ?_, ?_, ?_, ?_⟩
          · have e1 : ¬ type = "application/vnd.openxmlformats-officedocument.spreadsheetml.sheet.main+xml".toList := h1
            have e2 : ¬ type = "application/vnd.openxmlformats-officedocument.presentationml.presentation.main+xml".toList := h2
            have e3 : ¬ type = "application/vnd.openxmlformats-officedocument.wordprocessingml.document.main+xml".toList := h3
            simp only [determine_document_type, hh, hg, Outcome.bind, e1, e2, e3]
            simp
          · simp only [Option.some.injEq]
            exact ⟨fun h => absurd h (by decide), fun h => absurd h h1⟩
          · simp only [Option.some.injEq]
            exact ⟨fun h => absurd h (by decide), fun h => absurd h h2⟩
          · simp only [Option.some.injEq]
            exact ⟨fun h => absurd h (by decide), fun h => absurd h h3⟩
          · exact ⟨fun _ => Or.inr ⟨type, rfl, h1, h2, h3⟩, fun _ => rfl⟩

/-- C12: in `read_properties_core`, each of the four elements that is absent leaves its
property as it was; a present `dc:creator` or `cp:lastModifiedBy` gives the property the
text of the element; the call ends normally exactly when every present timestamp element
has a decodable text (so never fails because an element is absent), and then a present
`dcterms:created` or `dcterms:modified` gives the property the decoded timestamp. -/
theorem read_properties_core_optional (xml : xml_document) (props : document_properties) :
    (xml.root.has_child "dc:creator".toList = false →
        (read_properties_core xml props).1.creator = props.creator) ∧
      (xml.root.has_child "cp:lastModifiedBy".toList = false →
        (read_properties_core xml props).1.last_modified_by = props.last_modified_by) ∧
      (xml.root.has_child "dcterms:created".toList = false →
        (read_properties_core xml props).1.created = props.created) ∧
      (xml.root.has_child "dcterms:modified".toList = false →
        (read_properties_core xml props).1.modified = props.modified) ∧
      (xml.root.has_child "dc:creator".toList = true →
        (read_properties_core xml props).1.creator =
          (xml.root.get_child "dc:creator".toList).get_text_string) ∧
      (xml.root.has_child "cp:lastModifiedBy".toList = true →
        (read_properties_core xml props).1.last_modified_by =
          (xml.root.get_child "cp:lastModifiedBy".toList).get_text_string) ∧
      ((read_properties_core xml props).2 = Outcome.returned () ↔
        (xml.root.has_child "dcterms:created".toList = true →
          ∃ dt, w3cdtf_to_datetime (xml.root.get_child "dcterms:created".toList).get_text_string =
            Outcome.returned dt) ∧
        (xml.root.has_child "dcterms:modified".toList = true →
          ∃ dt, w3cdtf_to_datetime (xml.root.get_child "dcterms:modified".toList).get_text_string =
            Outcome.returned dt)) ∧
      ((read_properties_core xml props).2 = Outcome.returned () →
        (xml.root.has_child "dcterms:created".toList = true →
          w3cdtf_to_datetime (xml.root.get_child "dcterms:created".toList).get_text_string =
            Outcome.returned (read_properties_core xml props).1.created) ∧
        (xml.root.has_child "dcterms:modified".toList = true →
          w3cdtf_to_datetime (xml.root.get_child "dcterms:modified".toList).get_text_string =
            Outcome.returned (read_properties_core xml props).1.modified)) := by
  unfold read_properties_core read_timestamp
  simp only []
  generalize xml.root.has_child "dc:creator".toList = b1
  generalize xml.root.has_child "cp:lastModifiedBy".toList = b2
  generalize xml.root.has_child "dcterms:created".toList = b3
  generalize xml.root.has_child "dcterms:modified".toList = b4
  generalize w3cdtf_to_datetime (xml.root.get_child "dcterms:created".toList).get_text_string = o1
  generalize w3cdtf_to_datetime (xml.root.get_child "dcterms:modified".toList).get_text_string = o2
  generalize (xml.root.get_child "dc:creator".toList).get_text_string = t1
  generalize (xml.root.get_child "cp:lastModifiedBy".toList).get_text_string = t2
  cases b1 <;> cases b2 <;> cases b3 <;> cases b4 <;> cases o1 <;> cases o2 <;> simp

/-- Witness of C12: a document with a creator and a creation time only; the other two
properties keep their values. -/
theorem read_properties_core_optional_witness :
    (example_core_xml.root.has_child "cp:lastModifiedBy".toList = false ∧
        example_core_xml.root.has_child "dcterms:modified".toList = false) ∧
      (read_properties_core example_core_xml example_properties).1.last_modified_by =
        "older".toList ∧
      (read_properties_core example_core_xml example_properties).1.modified =
        ⟨2001, 1, 1, 0, 0, 0, 0⟩ :=
  ⟨by decide,
    (read_properties_core_optional example_core_xml example_properties).2.1 (by decide),
    (read_properties_core_optional example_core_xml example_properties).2.2.2.1 (by decide)⟩

/-! ## Auxiliary facts: maps as entry lists -/

theorem map_find_map_set {β : Type} (m : umap β) (key : Nat) (v : β) (k : Nat) :
    map_find (map_set m key v) k = if k = key then some v else map_find m k := by
  induction m with
  | nil =>
    by_cases h : k = key
    · simp [map_set, map_find, h]
    · simp [map_set, map_find, h, Ne.symm h]
  | cons e rest ih =>
    obtain ⟨a, x⟩ := e
    by_cases ha : a = key
    · by_cases h : k = key
      · simp [map_set, map_find, ha, h]
      · simp [map_set, map_find, ha, h, Ne.symm h]
    · by_cases h : k = key
      · subst h
        simp [map_set, map_find, ha, ih]
      · by_cases hk : a = k
        · subst hk
          simp [map_set, map_find, h]
        · simp [map_set, map_find, ha, hk, ih, h]

theorem map_set_of_find {β : Type} (m : umap β) (key : Nat) (v : β)
    (h : map_find m key = some v) : map_set m key v = m := by
  induction m with
  | nil => simp [map_find] at h
  | cons e rest ih =>
    obtain ⟨a, x⟩ := e
    by_cases ha : a = key
    · simp only [map_find, ha, if_true, Option.some.injEq] at h
      simp [map_set, ha, h]
    · simp only [map_find, ha, if_false] at h
      simp [map_set, ha, ih h]

theorem map_set_length {β : Type} (m : umap β) (key : Nat) (v : β) :
    (map_set m key v).length = if (map_find m key).isSome then m.length else m.length + 1 := by
  induction m with
  | nil => simp [map_set, map_find]
  | cons e rest ih =>
    obtain ⟨a, x⟩ := e
    by_cases ha : a = key
    · simp [map_set, map_find, ha]
    · simp only [map_set, map_find, ha, if_false, List.length_cons, ih]
      split <;> rfl

theorem spec_collectible_iff (c : cell_impl) :
    c.garbage_collectible = true ↔ spec_collectible c := by
  simp [cell_impl.garbage_collectible, spec_collectible, and_assoc]

theorem cell_count_map_set_none (m : cell_map) (key : Nat) (v : column_map)
    (h : map_find m key = none) : cell_count (map_set m key v) = cell_count m + v.length := by
  induction m with
  | nil => simp [map_set, cell_count]
  | cons e rest ih =>
    obtain ⟨a, x⟩ := e
    by_cases ha : a = key
    · simp [map_find, ha] at h
    · simp only [map_find, ha, if_false] at h
      have := ih h
      simp only [cell_count, map_set, ha, if_false, List.map_cons, List.sum_cons] at this ⊢
      omega

theorem cell_count_map_set_some (m : cell_map) (key : Nat) (old v : column_map)
    (h : map_find m key = some old) :
    cell_count (map_set m key v) + old.length = cell_count m + v.length := by
  induction m with
  | nil => simp [map_find] at h
  | cons e rest ih =>
    obtain ⟨a, x⟩ := e
    by_cases ha : a = key
    · simp only [map_find, ha, if_true, Option.some.injEq] at h
      subst h
      simp only [cell_count, map_set, ha, if_true, List.map_cons, List.sum_cons]
      omega
    · simp only [map_find, ha, if_false] at h
      have := ih h
      simp only [cell_count, map_set, ha, if_false, List.map_cons, List.sum_cons] at this ⊢
      omega

/-! ## The mutable `get_cell` -/

theorem get_cell_result (ws : worksheet_impl) (ref : cell_reference) :
    (ws.get_cell ref).2 =
      (ws.cell_at ref.row ref.column_index).getD
        (cell_impl.create ref.column_index ref.row) := by
  unfold worksheet_impl.get_cell worksheet_impl.cell_at
  cases hr : map_find ws.cell_map_ ref.row with
  | none => simp [map_find_map_set, map_set, map_find]
  | some rw =>
    cases hc : map_find rw ref.column_index with
    | none => simp [hr, hc, map_find_map_set]
    | some cell => simp [hr, hc]

theorem get_cell_cell_at (ws : worksheet_impl) (ref : cell_reference) (r c : Nat) :
    (ws.get_cell ref).1.cell_at r c =
      if r = ref.row ∧ c = ref.column_index then
        some ((ws.cell_at ref.row ref.column_index).getD
          (cell_impl.create ref.column_index ref.row))
      else ws.cell_at r c := by
  unfold worksheet_impl.get_cell worksheet_impl.cell_at
  cases hr : map_find ws.cell_map_ ref.row with
  | none =>
    by_cases h1 : r = ref.row
    · subst h1
      by_cases h2 : c = ref.column_index
      · simp [map_find_map_set, map_set, map_find, h2]
      · simp [map_find_map_set, map_set, map_find, h2, hr, Ne.symm h2]
    · simp [map_find_map_set, h1]
  | some rw =>
    by_cases h1 : r = ref.row
    · subst h1
      cases hc : map_find rw ref.column_index with
      | none =>
        by_cases h2 : c = ref.column_index
        · simp [hr, hc, map_find_map_set, h2]
        · simp [hr, hc, map_find_map_set, h2]
      | some cell =>
        by_cases h2 : c = ref.column_index
        · simp [hr, hc, map_find_map_set, h2]
        · simp [hr, hc, map_find_map_set, h2]
    · simp [hr, map_find_map_set, h1]

theorem get_cell_existing (ws : worksheet_impl) (ref : cell_reference) (cell : cell_impl)
    (h : ws.cell_at ref.row ref.column_index = some cell) : ws.get_cell ref = (ws, cell) := by
  unfold worksheet_impl.cell_at at h
  cases hr : map_find ws.cell_map_ ref.row with
  | none => simp [hr] at h
  | some rw =>
    rw [hr] at h
    simp only [Option.some_bind] at h
    unfold worksheet_impl.get_cell
    simp [hr, h, map_set_of_find _ _ _ hr]

theorem get_cell_count (ws : worksheet_impl) (ref : cell_reference)
    (h : ws.cell_at ref.row ref.column_index = none) :
    cell_count (ws.get_cell ref).1.cell_map_ = cell_count ws.cell_map_ + 1 := by
  unfold worksheet_impl.cell_at at h
  unfold worksheet_impl.get_cell
  cases hr : map_find ws.cell_map_ ref.row with
  | none =>
    have h1 := cell_count_map_set_none ws.cell_map_ ref.row [] hr
    have h2 := cell_count_map_set_some (map_set ws.cell_map_ ref.row []) ref.row []
      [(ref.column_index, cell_impl.create ref.column_index ref.row)]
      (by simp [map_find_map_set])
    simp only [List.length_nil, List.length_singleton, Nat.add_zero] at h1 h2
    simp [map_find_map_set, map_set, map_find]
    omega
  | some rw =>
    rw [hr] at h
    simp only [Option.some_bind] at h
    have h2 := cell_count_map_set_some ws.cell_map_ ref.row rw
      (map_set rw ref.column_index (cell_impl.create ref.column_index ref.row)) hr
    have h3 := map_set_length rw ref.column_index (cell_impl.create ref.column_index ref.row)
    simp only [h, Option.isSome_none, Bool.false_eq_true, if_false] at h3
    simp [hr, h]
    omega

/-- C16: the mutable `get_cell` creates on access.  With no cell at the reference it stores
exactly one new cell there, empty and unmerged, and returns it; with a cell there it
returns that cell and leaves the worksheet as it was; in both cases the cell at every other
row and column is untouched, and so is the rest of the worksheet. -/
theorem get_cell_create_on_access (ws : worksheet_impl) (ref : cell_reference) :
    (ws.cell_at ref.row ref.column_index = none →
        (ws.get_cell ref).2 = cell_impl.create ref.column_index ref.row ∧
        (ws.get_cell ref).2.value = cell_value.empty ∧
        (ws.get_cell ref).2.is_merged = false ∧
        (ws.get_cell ref).1.cell_at ref.row ref.column_index = some (ws.get_cell ref).2 ∧
        cell_count (ws.get_cell ref).1.cell_map_ = cell_count ws.cell_map_ + 1) ∧
      (∀ cell, ws.cell_at ref.row ref.column_index = some cell →
        ws.get_cell ref = (ws, cell)) ∧
      (∀ r c, ¬ (r = ref.row ∧ c = ref.column_index) →
        (ws.get_cell ref).1.cell_at r c = ws.cell_at r c) ∧
      (ws.get_cell ref).1.toworksheet = ws.toworksheet ∧
      (ws.get_cell ref).1.merged_cells_ = ws.merged_cells_ := by
  refine ⟨fun h => ?_, get_cell_existing ws ref, fun r c hne => ?_, rfl, rfl⟩
  · have hres : (ws.get_cell ref).2 = cell_impl.create ref.column_index ref.row := by
      rw [get_cell_result, h]; rfl
    refine ⟨hres, by rw [hres]; rfl, by rw [hres]; rfl, ?_, get_cell_count ws ref h⟩
    rw [get_cell_cell_at, hres, h]
    simp
  · rw [get_cell_cell_at]
    simp [hne]

/-- Witness of C16: reading `B2` on a new worksheet stores one empty cell there. -/
theorem get_cell_create_on_access_witness :
    (new_worksheet "Sheet".toList).cell_at 2 2 = none ∧
      ((new_worksheet "Sheet".toList).get_cell ⟨2, 2⟩).2 = ⟨2, 2, cell_value.empty, false, none⟩ ∧
      cell_count ((new_worksheet "Sheet".toList).get_cell ⟨2, 2⟩).1.cell_map_ = 1 :=
  ⟨by decide,
    ((get_cell_create_on_access (new_worksheet "Sheet".toList) ⟨2, 2⟩).1 (by decide)).1,
    ((get_cell_create_on_access (new_worksheet "Sheet".toList) ⟨2, 2⟩).1 (by decide)).2.2.2.2⟩

/-! ## Garbage collection -/

theorem gc_row_find (row : column_map) (c : Nat) (cell : cell_impl)
    (h : map_find row c = some cell) (hn : cell.garbage_collectible = false) :
    map_find (gc_row row) c = some cell := by
  induction row with
  | nil => simp [map_find] at h
  | cons e rest ih =>
    obtain ⟨k, x⟩ := e
    by_cases hk : k = c
    · simp only [map_find, hk, if_true, Option.some.injEq] at h
      subst h
      simp [gc_row, hn, map_find, hk]
    · simp only [map_find, hk, if_false] at h
      cases hx : x.garbage_collectible with
      | true => simpa [gc_row, hx] using ih h
      | false => simpa [gc_row, hx, map_find, hk] using ih h

theorem gc_rows_find (m : cell_map) (r : Nat) (row : column_map)
    (h : map_find m r = some row) (hne : gc_row row ≠ []) :
    map_find (gc_rows m) r = some (gc_row row) := by
  induction m with
  | nil => simp [map_find] at h
  | cons e rest ih =>
    obtain ⟨k, x⟩ := e
    by_cases hk : k = r
    · simp only [map_find, hk, if_true, Option.some.injEq] at h
      subst h
      simp [gc_rows, List.isEmpty_iff, hne, map_find, hk]
    · simp only [map_find, hk, if_false] at h
      by_cases hx : (gc_row x).isEmpty = true
      · simpa [gc_rows, hx] using ih h
      · simpa [gc_rows, hx, map_find, hk] using ih h

theorem gc_row_clean (row : column_map) :
    ∀ x ∈ gc_row row, x.2.garbage_collectible = false := by
  induction row with
  | nil => simp [gc_row]
  | cons e rest ih =>
    obtain ⟨k, c⟩ := e
    cases hc : c.garbage_collectible with
    | true => simpa [gc_row, hc] using ih
    | false =>
      intro x hx
      simp only [gc_row, hc, Bool.false_eq_true, if_false, List.mem_cons] at hx
      rcases hx with rfl | hx
      · exact hc
      · exact ih x hx

theorem gc_rows_clean (m : cell_map) :
    ∀ e ∈ gc_rows m, e.2 ≠ [] ∧ ∀ x ∈ e.2, x.2.garbage_collectible = false := by
  induction m with
  | nil => simp [gc_rows]
  | cons e rest ih =>
    obtain ⟨k, row⟩ := e
    by_cases hx : (gc_row row).isEmpty = true
    · simpa [gc_rows, hx] using ih
    · intro y hy
      simp only [gc_rows, hx, Bool.false_eq_true, if_false, List.mem_cons] at hy
      rcases hy with rfl | hy
      · exact ⟨by simpa [List.isEmpty_iff] using hx, gc_row_clean row⟩
      · exact ih y hy

/-- C13: a cell that is merged, has a non-default style or holds a non-empty value before
`garbage_collect` is stored at the same row and column, with the same content, after it. -/
theorem garbage_collect_keeps (ws : worksheet_impl) (r c : Nat) (cell : cell_impl)
    (h : ws.cell_at r c = some cell)
    (hn : cell.is_merged = true ∨ cell.style ≠ none ∨ cell.value ≠ cell_value.empty) :
    ws.garbage_collect.cell_at r c = some cell := by
  have hcoll : cell.garbage_collectible = false := by
    cases hg : cell.garbage_collectible with
    | false => rfl
    | true =>
      obtain ⟨h1, h2, h3⟩ := (spec_collectible_iff cell).mp hg
      rcases hn with hm | hs | hv
      · rw [h2] at hm; cases hm
      · exact absurd h3 hs
      · exact absurd h1 hv
  unfold worksheet_impl.cell_at at h
  cases hr : map_find ws.cell_map_ r with
  | none => simp [hr] at h
  | some row =>
    rw [hr] at h
    simp only [Option.some_bind] at h
    have hf := gc_row_find row c cell h hcoll
    have hne : gc_row row ≠ [] := by
      intro he
      rw [he] at hf
      simp [map_find] at hf
    simp [worksheet_impl.garbage_collect, worksheet_impl.cell_at, gc_rows_find _ _ _ hr hne, hf]

/-- Witness of C13: a string cell at `A1` next to a touched empty cell at `B1`. -/
theorem garbage_collect_keeps_witness :
    ({ new_worksheet "Sheet".toList with
          cell_map_ := [(1, [(1, ⟨1, 1, cell_value.string "x".toList, false, none⟩),
            (2, ⟨2, 1, cell_value.empty, false, none⟩)])] } : worksheet_impl).cell_at 1 1 =
        some ⟨1, 1, cell_value.string "x".toList, false, none⟩ ∧
      ({ new_worksheet "Sheet".toList with
          cell_map_ := [(1, [(1, ⟨1, 1, cell_value.string "x".toList, false, none⟩),
            (2, ⟨2, 1, cell_value.empty, false, none⟩)])] } :
          worksheet_impl).garbage_collect.cell_at 1 1 =
        some ⟨1, 1, cell_value.string "x".toList, false, none⟩ :=
  ⟨by decide, garbage_collect_keeps _ 1 1 _ (by decide) (by decide)⟩

/-- C14: after `garbage_collect`, whatever the store was, no remaining cell is collectible
and no remaining row entry has an empty column map. -/
theorem garbage_collect_clean (ws : worksheet_impl) :
    ∀ e ∈ ws.garbage_collect.cell_map_,
      e.2 ≠ [] ∧
        ∀ x ∈ e.2, x.2.garbage_collectible = false ∧ ¬ spec_collectible x.2 := by
  intro e he
  obtain ⟨h1, h2⟩ := gc_rows_clean ws.cell_map_ e he
  refine ⟨h1, fun x hx => ⟨h2 x hx, fun hs => ?_⟩⟩
  have := (spec_collectible_iff x.2).mpr hs
  rw [h2 x hx] at this
  cases this

/-- Witness of C14: after collection the example store keeps its row, with the string
cell only. -/
theorem garbage_collect_clean_witness :
    (1, [(1, (⟨1, 1, cell_value.string "x".toList, false, none⟩ : cell_impl))]) ∈
        example_store.garbage_collect.cell_map_ ∧
      ([(1, (⟨1, 1, cell_value.string "x".toList, false, none⟩ : cell_impl))] ≠ [] ∧
        ∀ x ∈ [(1, (⟨1, 1, cell_value.string "x".toList, false, none⟩ : cell_impl))],
          x.2.garbage_collectible = false ∧ ¬ spec_collectible x.2) :=
  ⟨by decide,
    garbage_collect_clean example_store
      (1, [(1, (⟨1, 1, cell_value.string "x".toList, false, none⟩ : cell_impl))]) (by decide)⟩

/-! ## Well-formed stores -/

theorem map_find_eq_none_iff {β : Type} (m : umap β) (k : Nat) :
    map_find m k = none ↔ k ∉ m.map Prod.fst := by
  induction m with
  | nil => simp [map_find]
  | cons e rest ih =>
    obtain ⟨a, x⟩ := e
    by_cases ha : a = k
    · simp [map_find, ha]
    · simp [map_find, ha, ih, Ne.symm ha]

theorem map_find_mem {β : Type} (m : umap β) (k : Nat) (v : β) (h : map_find m k = some v) :
    (k, v) ∈ m := by
  induction m with
  | nil => simp [map_find] at h
  | cons e rest ih =>
    obtain ⟨a, x⟩ := e
    by_cases ha : a = k
    · simp only [map_find, ha, if_true, Option.some.injEq] at h
      simp [ha, h]
    · simp only [map_find, ha, if_false] at h
      exact List.mem_cons_of_mem _ (ih h)

theorem map_set_of_none {β : Type} (m : umap β) (k : Nat) (v : β)
    (h : map_find m k = none) : map_set m k v = m ++ [(k, v)] := by
  induction m with
  | nil => rfl
  | cons e rest ih =>
    obtain ⟨a, x⟩ := e
    by_cases ha : a = k
    · simp [map_find, ha] at h
    · simp only [map_find, ha, if_false] at h
      simp [map_set, ha, ih h]

theorem map_set_keys_of_some {β : Type} (m : umap β) (k : Nat) (v : β)
    (h : (map_find m k).isSome = true) :
    (map_set m k v).map Prod.fst = m.map Prod.fst := by
  induction m with
  | nil => simp [map_find] at h
  | cons e rest ih =>
    obtain ⟨a, x⟩ := e
    by_cases ha : a = k
    · simp [map_set, ha]
    · simp only [map_find, ha, if_false] at h
      simp [map_set, ha, ih h]

theorem map_wf_map_set {β : Type} (m : umap β) (k : Nat) (v : β) (h : map_wf m) :
    map_wf (map_set m k v) := by
  unfold map_wf at h ⊢
  cases hf : map_find m k with
  | none =>
    rw [map_set_of_none m k v hf]
    simp only [List.map_append, List.map_cons, List.map_nil]
    exact List.Nodup.append h (List.nodup_singleton _)
      (by simpa using (map_find_eq_none_iff m k).mp hf)
  | some old => rw [map_set_keys_of_some m k v (by simp [hf])]; exact h

theorem mem_map_set {β : Type} (m : umap β) (k : Nat) (v : β) (e : Nat × β)
    (h : e ∈ map_set m k v) : e = (k, v) ∨ e ∈ m := by
  induction m with
  | nil => simpa [map_set] using h
  | cons y rest ih =>
    obtain ⟨a, x⟩ := y
    by_cases ha : a = k
    · simp only [map_set, ha, if_true, List.mem_cons] at h
      rcases h with h | h
      · exact Or.inl h
      · exact Or.inr (List.mem_cons_of_mem _ h)
    · simp only [map_set, ha, if_false, List.mem_cons] at h
      rcases h with h | h
      · exact Or.inr (by simp [h])
      · rcases ih h with h | h
        · exact Or.inl h
        · exact Or.inr (List.mem_cons_of_mem _ h)

theorem cell_map_wf_map_set (m : cell_map) (k : Nat) (row : column_map)
    (h : cell_map_wf m) (hrow : map_wf row) : cell_map_wf (map_set m k row) := by
  refine ⟨map_wf_map_set m k row h.1, fun e he => ?_⟩
  rcases mem_map_set m k row e he with rfl | he
  · exact hrow
  · exact h.2 e he

theorem map_wf_find (m : cell_map) (k : Nat) (h : cell_map_wf m) :
    map_wf ((map_find m k).getD []) := by
  cases hf : map_find m k with
  | none => simp [map_wf]
  | some row => exact h.2 _ (map_find_mem m k row hf)

theorem get_cell_wf_aux (m : cell_map) (r c : Nat) (cell : cell_impl) (h : cell_map_wf m) :
    cell_map_wf (map_set m r
      (if (map_find ((map_find m r).getD []) c).isNone = true then
        map_set ((map_find m r).getD []) c cell
      else (map_find m r).getD [])) := by
  apply cell_map_wf_map_set _ _ _ h
  split
  · exact map_wf_map_set _ _ _ (map_wf_find _ _ h)
  · exact map_wf_find _ _ h

/-- The mutable `get_cell` keeps the store well formed. -/
theorem get_cell_wf (ws : worksheet_impl) (ref : cell_reference)
    (h : cell_map_wf ws.cell_map_) : cell_map_wf (ws.get_cell ref).1.cell_map_ := by
  have h1 : cell_map_wf (if (map_find ws.cell_map_ ref.row).isNone = true then
      map_set ws.cell_map_ ref.row [] else ws.cell_map_) := by
    split
    · exact cell_map_wf_map_set _ _ _ h (by simp [map_wf])
    · exact h
  exact get_cell_wf_aux _ ref.row ref.column_index _ h1

theorem gc_row_keys (row : column_map) :
    ∀ k ∈ (gc_row row).map Prod.fst, k ∈ row.map Prod.fst := by
  induction row with
  | nil => simp [gc_row]
  | cons e rest ih =>
    obtain ⟨a, x⟩ := e
    intro k hk
    cases hx : x.garbage_collectible with
    | true =>
      simp only [gc_row, hx, if_true] at hk
      exact List.mem_cons_of_mem _ (ih k hk)
    | false =>
      simp only [gc_row, hx, Bool.false_eq_true, if_false, List.map_cons, List.mem_cons] at hk
      rcases hk with rfl | hk
      · simp
      · exact List.mem_cons_of_mem _ (ih k hk)

theorem gc_rows_keys (m : cell_map) :
    ∀ k ∈ (gc_rows m).map Prod.fst, k ∈ m.map Prod.fst := by
  induction m with
  | nil => simp [gc_rows]
  | cons e rest ih =>
    obtain ⟨a, x⟩ := e
    intro k hk
    by_cases hx : (gc_row x).isEmpty = true
    · simp only [gc_rows, hx, if_true] at hk
      exact List.mem_cons_of_mem _ (ih k hk)
    · simp only [gc_rows, hx, Bool.false_eq_true, if_false, List.map_cons, List.mem_cons] at hk
      rcases hk with rfl | hk
      · simp
      · exact List.mem_cons_of_mem _ (ih k hk)

/-- In a row with unique column keys, collection removes the collectible cell of a key and
keeps any other. -/
theorem gc_row_find_wf (row : column_map) (h : map_wf row) (c : Nat) :
    map_find (gc_row row) c =
      (map_find row c).filter (fun x => !x.garbage_collectible) := by
  induction row with
  | nil => simp [gc_row, map_find]
  | cons e rest ih =>
    obtain ⟨a, x⟩ := e
    have hn : a ∉ rest.map Prod.fst ∧ map_wf rest := by
      simpa [map_wf] using h
    by_cases ha : a = c
    · subst ha
      cases hx : x.garbage_collectible with
      | true =>
        have : map_find (gc_row rest) a = none :=
          (map_find_eq_none_iff _ _).mpr (fun hk => hn.1 (gc_row_keys rest a hk))
        simp [gc_row, hx, map_find, this, Option.filter]
      | false => simp [gc_row, hx, map_find, Option.filter]
    · cases hx : x.garbage_collectible with
      | true => simp [gc_row, hx, map_find, ha, ih hn.2]
      | false => simp [gc_row, hx, map_find, ha, ih hn.2]

/-- In a store with unique row keys, collection cleans the row of a key and drops it when
nothing is left. -/
theorem gc_rows_find_wf (m : cell_map) (h : map_wf m) (r : Nat) :
    map_find (gc_rows m) r =
      (map_find m r).bind
        (fun row => if (gc_row row).isEmpty then none else some (gc_row row)) := by
  induction m with
  | nil => simp [gc_rows, map_find]
  | cons e rest ih =>
    obtain ⟨a, x⟩ := e
    have hn : a ∉ rest.map Prod.fst ∧ map_wf rest := by
      simpa [map_wf] using h
    by_cases ha : a = r
    · subst ha
      by_cases hx : (gc_row x).isEmpty = true
      · have : map_find (gc_rows rest) a = none :=
          (map_find_eq_none_iff _ _).mpr (fun hk => hn.1 (gc_rows_keys rest a hk))
        simp only [gc_rows, hx, if_true, map_find, this, Option.some_bind]
      · simp only [gc_rows, hx, Bool.false_eq_true, if_false, map_find, if_true,
          Option.some_bind]
    · by_cases hx : (gc_row x).isEmpty = true
      · simp [gc_rows, hx, map_find, ha, ih hn.2]
      · simp [gc_rows, hx, map_find, ha, ih hn.2]

/-- On a well-formed store `garbage_collect` keeps exactly the cells that are not
collectible. -/
theorem garbage_collect_cell_at (ws : worksheet_impl) (h : cell_map_wf ws.cell_map_)
    (r c : Nat) :
    ws.garbage_collect.cell_at r c =
      (ws.cell_at r c).filter (fun x => !x.garbage_collectible) := by
  unfold worksheet_impl.garbage_collect worksheet_impl.cell_at
  simp only [gc_rows_find_wf _ h.1]
  cases hr : map_find ws.cell_map_ r with
  | none => simp [Option.filter]
  | some row =>
    have hrow : map_wf row := h.2 _ (map_find_mem _ _ _ hr)
    by_cases hx : (gc_row row).isEmpty = true
    · have he : gc_row row = [] := by simpa [List.isEmpty_iff] using hx
      have := gc_row_find_wf row hrow c
      rw [he] at this
      simp only [Option.some_bind, hx, if_true, Option.none_bind]
      rw [← this]; rfl
    · simp only [Option.some_bind, hx, Bool.false_eq_true, if_false]
      exact gc_row_find_wf row hrow c

theorem gc_row_append (a b : column_map) : gc_row (a ++ b) = gc_row a ++ gc_row b := by
  induction a with
  | nil => rfl
  | cons e rest ih =>
    obtain ⟨k, x⟩ := e
    cases hx : x.garbage_collectible <;> simp [gc_row, hx, ih]

theorem gc_row_of_clean (row : column_map)
    (h : ∀ x ∈ row, x.2.garbage_collectible = false) : gc_row row = row := by
  induction row with
  | nil => rfl
  | cons e rest ih =>
    obtain ⟨k, x⟩ := e
    have hx : x.garbage_collectible = false := h (k, x) (List.mem_cons_self _ _)
    simp [gc_row, hx, ih (fun y hy => h y (List.mem_cons_of_mem _ hy))]

theorem cell_count_gc_rows (m : cell_map) : cell_count (gc_rows m) = live_count m := by
  induction m with
  | nil => rfl
  | cons e rest ih =>
    obtain ⟨k, row⟩ := e
    by_cases hx : (gc_row row).isEmpty = true
    · have he : gc_row row = [] := by simpa [List.isEmpty_iff] using hx
      simp only [gc_rows, hx, if_true, ih]
      simp [live_count, he]
    · simp only [gc_rows, hx, Bool.false_eq_true, if_false]
      simp only [cell_count, live_count, List.map_cons, List.sum_cons] at ih ⊢
      rw [ih]

theorem live_count_of_clean (m : cell_map)
    (h : ∀ e ∈ m, ∀ x ∈ e.2, x.2.garbage_collectible = false) :
    live_count m = cell_count m := by
  induction m with
  | nil => rfl
  | cons e rest ih =>
    have h1 := gc_row_of_clean e.2 (h e (List.mem_cons_self _ _))
    have h2 := ih (fun y hy => h y (List.mem_cons_of_mem _ hy))
    simp only [cell_count, live_count, List.map_cons, List.sum_cons] at h2 ⊢
    rw [h1, h2]

theorem live_count_map_set_none (m : cell_map) (key : Nat) (v : column_map)
    (h : map_find m key = none) :
    live_count (map_set m key v) = live_count m + (gc_row v).length := by
  rw [map_set_of_none m key v h]
  simp [live_count]

theorem live_count_map_set_some (m : cell_map) (key : Nat) (old v : column_map)
    (h : map_find m key = some old) :
    live_count (map_set m key v) + (gc_row old).length =
      live_count m + (gc_row v).length := by
  induction m with
  | nil => simp [map_find] at h
  | cons e rest ih =>
    obtain ⟨a, x⟩ := e
    by_cases ha : a = key
    · simp only [map_find, ha, if_true, Option.some.injEq] at h
      subst h
      simp only [live_count, map_set, ha, if_true, List.map_cons, List.sum_cons]
      omega
    · simp only [map_find, ha, if_false] at h
      have := ih h
      simp only [live_count, map_set, ha, if_false, List.map_cons, List.sum_cons] at this ⊢
      omega

/-- Reading an absent cell adds a collectible cell: the number of cells that are not
collectible stays the same. -/
theorem get_cell_live_count (ws : worksheet_impl) (ref : cell_reference)
    (h : ws.cell_at ref.row ref.column_index = none) :
    live_count (ws.get_cell ref).1.cell_map_ = live_count ws.cell_map_ := by
  have hnew : gc_row [(ref.column_index, cell_impl.create ref.column_index ref.row)] = [] := by
    rfl
  unfold worksheet_impl.cell_at at h
  unfold worksheet_impl.get_cell
  cases hr : map_find ws.cell_map_ ref.row with
  | none =>
    have h1 := live_count_map_set_none ws.cell_map_ ref.row [] hr
    have h2 := live_count_map_set_some (map_set ws.cell_map_ ref.row []) ref.row []
      [(ref.column_index, cell_impl.create ref.column_index ref.row)]
      (by simp [map_find_map_set])
    rw [hnew] at h2
    simp only [gc_row, List.length_nil, Nat.add_zero] at h1 h2
    simp [map_find_map_set, map_set, map_find]
    omega
  | some rw =>
    rw [hr] at h
    simp only [Option.some_bind] at h
    have h2 := live_count_map_set_some ws.cell_map_ ref.row rw
      (map_set rw ref.column_index (cell_impl.create ref.column_index ref.row)) hr
    rw [map_set_of_none rw _ _ h, gc_row_append, hnew] at h2
    simp only [List.append_nil] at h2
    simp [hr, h, map_set_of_none rw _ _ h]
    omega

/-- C15, as stated, fails.  In the example store, which holds a string cell at `A1` and a
touched empty cell at `B1` (two cells), `get_cell(A1)` followed by `garbage_collect` does
not remove the cell at `A1`; and `get_cell(C3)` followed by `garbage_collect` leaves one
cell, not two, because the collection also erases the empty cell at `B1`. -/
theorem get_cell_then_garbage_collect_not_neutral :
    ((example_store.get_cell ⟨1, 1⟩).1.garbage_collect.cell_at 1 1 =
        some ⟨1, 1, cell_value.string "x".toList, false, none⟩) ∧
      cell_count example_store.cell_map_ = 2 ∧
      cell_count (example_store.get_cell ⟨3, 3⟩).1.garbage_collect.cell_map_ = 1 := by
  decide

/-- C15 (amended): on a well-formed store that holds no collectible cell and no cell at the
reference, the mutable `get_cell` followed by `garbage_collect` leaves no cell at the
reference, and the store then has as many cells as before the `get_cell` call. -/
theorem get_cell_then_garbage_collect (ws : worksheet_impl) (ref : cell_reference)
    (hwf : cell_map_wf ws.cell_map_)
    (habs : ws.cell_at ref.row ref.column_index = none)
    (hclean : ∀ e ∈ ws.cell_map_, ∀ x ∈ e.2, x.2.garbage_collectible = false) :
    (ws.get_cell ref).1.garbage_collect.cell_at ref.row ref.column_index = none ∧
      cell_count (ws.get_cell ref).1.garbage_collect.cell_map_ = cell_count ws.cell_map_ := by
  constructor
  · rw [garbage_collect_cell_at _ (get_cell_wf ws ref hwf), get_cell_cell_at, habs]
    simp [Option.filter, cell_impl.create, cell_impl.garbage_collectible]
  · show cell_count (gc_rows (ws.get_cell ref).1.cell_map_) = _
    rw [cell_count_gc_rows, get_cell_live_count ws ref habs, live_count_of_clean _ hclean]

/-- Witness of C15 (amended): a store holding only a string cell at `A1`, read at `B2`. -/
theorem get_cell_then_garbage_collect_witness :
    (example_store.garbage_collect.cell_at 2 2 = none ∧
        cell_count example_store.garbage_collect.cell_map_ = 1) ∧
      (example_store.garbage_collect.get_cell ⟨2, 2⟩).1.garbage_collect.cell_at 2 2 = none ∧
      cell_count (example_store.garbage_collect.get_cell ⟨2, 2⟩).1.garbage_collect.cell_map_ =
        cell_count example_store.garbage_collect.cell_map_ :=
  ⟨by decide,
    get_cell_then_garbage_collect example_store.garbage_collect ⟨2, 2⟩
      (by unfold cell_map_wf map_wf; decide) (by decide) (by decide)⟩

/-! ## Writes through a cell handle -/

theorem map_find_row_getD (m : cell_map) (r c : Nat) :
    map_find ((map_find m r).getD []) c = (map_find m r).bind fun row => map_find row c := by
  cases map_find m r <;> simp [map_find]

/-- A write through the handle of `get_cell` changes the cell at the reference and no
other. -/
theorem update_cell_cell_at (ws : worksheet_impl) (ref : cell_reference)
    (f : cell_impl → cell_impl) (r c : Nat) :
    (ws.update_cell ref f).cell_at r c =
      if r = ref.row ∧ c = ref.column_index then
        some (f ((ws.cell_at ref.row ref.column_index).getD
          (cell_impl.create ref.column_index ref.row)))
      else ws.cell_at r c := by
  have hg := get_cell_cell_at ws ref
  have hr := get_cell_result ws ref
  unfold worksheet_impl.update_cell
  unfold worksheet_impl.cell_at at hg ⊢
  simp only [map_find_map_set]
  by_cases h1 : r = ref.row
  · subst h1
    simp only [if_true, Option.some_bind, map_find_map_set, true_and]
    by_cases h2 : c = ref.column_index
    · simp [h2, hr, worksheet_impl.cell_at]
    · simp only [h2, if_false]
      rw [map_find_row_getD]
      have := hg ref.row c
      simpa [h2] using this
  · have := hg r c
    simpa [h1] using this

theorem update_cell_frame (ws : worksheet_impl) (ref : cell_reference)
    (f : cell_impl → cell_impl) :
    (ws.update_cell ref f).toworksheet = ws.toworksheet ∧
      (ws.update_cell ref f).merged_cells_ = ws.merged_cells_ :=
  ⟨rfl, rfl⟩

/-! ## Dimensions -/

theorem foldl_min_le (l : List Nat) : ∀ a, l.foldl min a ≤ a ∧ ∀ x ∈ l, l.foldl min a ≤ x := by
  induction l with
  | nil => intro a; simp
  | cons y ys ih =>
    intro a
    obtain ⟨h1, h2⟩ := ih (min a y)
    refine ⟨le_trans h1 (Nat.min_le_left _ _), fun x hx => ?_⟩
    rcases List.mem_cons.mp hx with rfl | hx
    · exact le_trans h1 (Nat.min_le_right _ _)
    · exact h2 x hx

theorem foldl_min_mem (l : List Nat) : ∀ a, l.foldl min a = a ∨ l.foldl min a ∈ l := by
  induction l with
  | nil => intro a; simp
  | cons y ys ih =>
    intro a
    rcases ih (min a y) with h | h
    · rcases Nat.le_total a y with hay | hya
      · left; rw [List.foldl_cons, h]; exact Nat.min_eq_left hay
      · right; rw [List.foldl_cons, h, Nat.min_eq_right hya]; exact List.mem_cons_self _ _
    · right; exact List.mem_cons_of_mem _ h

theorem foldl_max_ge (l : List Nat) : ∀ a, a ≤ l.foldl max a ∧ ∀ x ∈ l, x ≤ l.foldl max a := by
  induction l with
  | nil => intro a; simp
  | cons y ys ih =>
    intro a
    obtain ⟨h1, h2⟩ := ih (max a y)
    refine ⟨le_trans (Nat.le_max_left _ _) h1, fun x hx => ?_⟩
    rcases List.mem_cons.mp hx with rfl | hx
    · exact le_trans (Nat.le_max_right _ _) h1
    · exact h2 x hx

theorem foldl_max_mem (l : List Nat) : ∀ a, l.foldl max a = a ∨ l.foldl max a ∈ l := by
  induction l with
  | nil => intro a; simp
  | cons y ys ih =>
    intro a
    rcases ih (max a y) with h | h
    · rcases Nat.le_total a y with hay | hya
      · right; rw [List.foldl_cons, h, Nat.max_eq_right hay]; exact List.mem_cons_self _ _
      · left; rw [List.foldl_cons, h]; exact Nat.max_eq_left hya
    · right; exact List.mem_cons_of_mem _ h

theorem foldl_rows_eq (op : Nat → Nat → Nat) (m : cell_map) : ∀ a,
    m.foldl (fun acc row => op acc row.1) a = (row_keys m).foldl op a := by
  induction m with
  | nil => intro a; rfl
  | cons e rest ih => intro a; simp [row_keys, List.foldl_cons, ih] at *

theorem foldl_columns_eq (op : Nat → Nat → Nat) (m : cell_map) : ∀ a,
    m.foldl (fun acc row => row.2.foldl (fun acc c => op acc c.1) acc) a =
      (column_keys m).foldl op a := by
  induction m with
  | nil => intro a; rfl
  | cons e rest ih =>
    intro a
    simp only [List.foldl_cons, column_keys, List.flatMap_cons, List.foldl_append, List.foldl_map]
    exact ih _

theorem mem_row_keys (m : cell_map) (k : Nat) : k ∈ row_keys m ↔ ∃ e ∈ m, e.1 = k := by
  simp [row_keys]

theorem mem_column_keys (m : cell_map) (k : Nat) :
    k ∈ column_keys m ↔ ∃ e ∈ m, ∃ x ∈ e.2, x.1 = k := by
  simp [column_keys, List.mem_flatMap]

/-- C17: `calculate_dimension` of a store with no row entry is the single cell
`(1, 1)`-`(1, 1)`.  For a store with at least one row entry, in which no row entry is
empty (the cell-store invariant) and all rows and columns are at least 1 (and within the
range of their types), every stored cell lies inside the returned range and each of the
four bounds is the row or column of a stored cell. -/
theorem calculate_dimension_tight (column_max row_max : Nat) (ws : worksheet_impl) :
    (ws.cell_map_ = [] →
        ws.calculate_dimension column_max row_max = ⟨⟨1, 1⟩, ⟨1, 1⟩⟩) ∧
      (ws.cell_map_ ≠ [] → no_empty_row ws.cell_map_ →
        (∀ e ∈ ws.cell_map_, 1 ≤ e.1 ∧ e.1 ≤ row_max ∧
          ∀ x ∈ e.2, 1 ≤ x.1 ∧ x.1 ≤ column_max) →
        (∀ e ∈ ws.cell_map_, ∀ x ∈ e.2,
          (ws.calculate_dimension column_max row_max).top_left.column_index ≤ x.1 ∧
          x.1 ≤ (ws.calculate_dimension column_max row_max).bottom_right.column_index ∧
          (ws.calculate_dimension column_max row_max).top_left.row ≤ e.1 ∧
          e.1 ≤ (ws.calculate_dimension column_max row_max).bottom_right.row) ∧
        (∃ e ∈ ws.cell_map_, ∃ x ∈ e.2,
          x.1 = (ws.calculate_dimension column_max row_max).top_left.column_index) ∧
        (∃ e ∈ ws.cell_map_, ∃ x ∈ e.2,
          x.1 = (ws.calculate_dimension column_max row_max).bottom_right.column_index) ∧
        (∃ e ∈ ws.cell_map_, e.2 ≠ [] ∧
          e.1 = (ws.calculate_dimension column_max row_max).top_left.row) ∧
        (∃ e ∈ ws.cell_map_, e.2 ≠ [] ∧
          e.1 = (ws.calculate_dimension column_max row_max).bottom_right.row)) := by
  constructor
  · intro h
    simp [worksheet_impl.calculate_dimension, worksheet_impl.get_lowest_column,
      worksheet_impl.get_lowest_row, worksheet_impl.get_highest_column,
      worksheet_impl.get_highest_row, h]
  · intro hne hinv hb
    have hemp : ws.cell_map_.isEmpty = false := by
      cases hm : ws.cell_map_ with
      | nil => exact absurd hm hne
      | cons _ _ => rfl
    have e1 : (ws.calculate_dimension column_max row_max).top_left.column_index =
        (column_keys ws.cell_map_).foldl min column_max := by
      simp only [worksheet_impl.calculate_dimension, worksheet_impl.get_lowest_column, hemp,
        Bool.false_eq_true, if_false]
      exact foldl_columns_eq min _ _
    have e2 : (ws.calculate_dimension column_max row_max).top_left.row =
        (row_keys ws.cell_map_).foldl min row_max := by
      simp only [worksheet_impl.calculate_dimension, worksheet_impl.get_lowest_row, hemp,
        Bool.false_eq_true, if_false]
      exact foldl_rows_eq min _ _
    have e3 : (ws.calculate_dimension column_max row_max).bottom_right.column_index =
        (column_keys ws.cell_map_).foldl max 1 := foldl_columns_eq max _ _
    have e4 : (ws.calculate_dimension column_max row_max).bottom_right.row =
        (row_keys ws.cell_map_).foldl max 1 := foldl_rows_eq max _ _
    rw [e1, e2, e3, e4]
    -- some stored cell
    obtain ⟨e0, he0⟩ := List.exists_mem_of_ne_nil _ hne
    obtain ⟨x0, hx0⟩ := List.exists_mem_of_ne_nil _ (hinv e0 he0)
    have hc0 : x0.1 ∈ column_keys ws.cell_map_ :=
      (mem_column_keys _ _).mpr ⟨e0, he0, x0, hx0, rfl⟩
    have hr0 : e0.1 ∈ row_keys ws.cell_map_ := (mem_row_keys _ _).mpr ⟨e0, he0, rfl⟩
    have hrow : ∀ k ∈ row_keys ws.cell_map_, ∃ e ∈ ws.cell_map_, e.2 ≠ [] ∧ e.1 = k := by
      intro k hk
      obtain ⟨e, he, hek⟩ := (mem_row_keys _ _).mp hk
      exact ⟨e, he, hinv e he, hek⟩
    refine ⟨fun e he x hx => ?_, ?_, ?_, ?_, ?_⟩
    · have hc : x.1 ∈ column_keys ws.cell_map_ := (mem_column_keys _ _).mpr ⟨e, he, x, hx, rfl⟩
      have hr : e.1 ∈ row_keys ws.cell_map_ := (mem_row_keys _ _).mpr ⟨e, he, rfl⟩
      exact ⟨(foldl_min_le _ _).2 _ hc, (foldl_max_ge _ _).2 _ hc, (foldl_min_le _ _).2 _ hr,
        (foldl_max_ge _ _).2 _ hr⟩
    · rcases foldl_min_mem (column_keys ws.cell_map_) column_max with h | h
      · have h1 := (foldl_min_le (column_keys ws.cell_map_) column_max).2 _ hc0
        have h2 := ((hb e0 he0).2.2 x0 hx0).2
        exact ⟨e0, he0, x0, hx0, by omega⟩
      · obtain ⟨e, he, x, hx, hk⟩ := (mem_column_keys _ _).mp h
        exact ⟨e, he, x, hx, hk⟩
    · rcases foldl_max_mem (column_keys ws.cell_map_) 1 with h | h
      · have h1 := (foldl_max_ge (column_keys ws.cell_map_) 1).2 _ hc0
        have h2 := ((hb e0 he0).2.2 x0 hx0).1
        exact ⟨e0, he0, x0, hx0, by omega⟩
      · obtain ⟨e, he, x, hx, hk⟩ := (mem_column_keys _ _).mp h
        exact ⟨e, he, x, hx, hk⟩
    · rcases foldl_min_mem (row_keys ws.cell_map_) row_max with h | h
      · have h1 := (foldl_min_le (row_keys ws.cell_map_) row_max).2 _ hr0
        have h2 := (hb e0 he0).2.1
        exact ⟨e0, he0, hinv e0 he0, by omega⟩
      · exact hrow _ h
    · rcases foldl_max_mem (row_keys ws.cell_map_) 1 with h | h
      · have h1 := (foldl_max_ge (row_keys ws.cell_map_) 1).2 _ hr0
        have h2 := (hb e0 he0).1
        exact ⟨e0, he0, hinv e0 he0, by omega⟩
      · exact hrow _ h

/-- Witness of C17: the example store has its two cells in row 1, columns 1 and 2. -/
theorem calculate_dimension_tight_witness :
    (example_store.cell_map_ ≠ [] ∧ no_empty_row example_store.cell_map_) ∧
      (∃ e ∈ example_store.cell_map_, ∃ x ∈ e.2,
        x.1 = (example_store.calculate_dimension 16384 1048576).bottom_right.column_index) ∧
      example_store.calculate_dimension 16384 1048576 = ⟨⟨1, 1⟩, ⟨2, 1⟩⟩ :=
  ⟨⟨by decide, by unfold no_empty_row; decide⟩,
    ((calculate_dimension_tight 16384 1048576 example_store).2 (by decide)
      (by unfold no_empty_row; decide) (by decide)).2.2.1,
    by decide⟩

/-! ## Appending a row -/

theorem to_string_nat_injective {j k : Nat} (h : to_string_nat j = to_string_nat k) : j = k := by
  have := congrArg digits_value h
  simpa [to_string_nat, digits_value_toDigits] using this

theorem candidate_injective (value : string) {j k : Nat}
    (h : candidate value j = candidate value k) : j = k := by
  unfold candidate at h
  by_cases hj : j = 0
  · by_cases hk : k = 0
    · rw [hj, hk]
    · simp only [hj, hk, if_true, if_false] at h
      have : to_string_nat k = [] := by simpa using h
      exact absurd this (toDigits_ne_nil k)
  · by_cases hk : k = 0
    · simp only [hj, hk, if_true, if_false] at h
      have : to_string_nat j = [] := by simpa using h
      exact absurd this (toDigits_ne_nil j)
    · simp only [hj, hk, if_false] at h
      exact to_string_nat_injective (List.append_cancel_left h)

/-- Among the first `names.length + 1` candidates one is not in `names`. -/
theorem exists_free_candidate (names : List string) (value : string) :
    ∃ k, k ≤ names.length ∧ candidate value k ∉ names := by
  by_contra hcon
  have hall : ∀ k, k ≤ names.length → candidate value k ∈ names := by
    intro k hk
    by_contra hn
    exact hcon ⟨k, hk, hn⟩
  have hnodup : ((List.range (names.length + 1)).map (candidate value)).Nodup :=
    List.Nodup.map (fun _ _ h => candidate_injective value h) (List.nodup_range _)
  have hsub : (List.range (names.length + 1)).map (candidate value) ⊆ names := by
    intro x hx
    obtain ⟨k, hk, rfl⟩ := List.mem_map.mp hx
    exact hall k (by have := List.mem_range.mp hk; omega)
  have := (List.subperm_of_subset hnodup hsub).length_le
  simp at this

/-- The loop started at counter `a` ends at the first free candidate from `a` on, given
enough fuel. -/
theorem unique_sheet_name_loop_eq (names : List string) (value : string) :
    ∀ (d a fuel : Nat), d < fuel →
      (∀ j, a ≤ j → j < a + d → candidate value j ∈ names) →
      candidate value (a + d) ∉ names →
      unique_sheet_name_loop names value fuel a (decide (candidate value a ∈ names)) =
        some (a + d) := by
  intro d
  induction d with
  | zero =>
    intro a fuel hf _ hfree
    obtain ⟨f, rfl⟩ : ∃ f, fuel = f + 1 := ⟨fuel - 1, by omega⟩
    simp only [Nat.add_zero] at hfree
    simp [unique_sheet_name_loop, hfree]
  | succ d ih =>
    intro a fuel hf hall hfree
    obtain ⟨f, rfl⟩ : ∃ f, fuel = f + 1 := ⟨fuel - 1, by omega⟩
    have ha : candidate value a ∈ names := hall a (le_refl _) (by omega)
    have hnext : candidate value (a + 1) = value ++ to_string_nat (a + 1) := by
      simp [candidate]
    have := ih (a + 1) f (by omega) (fun j h1 h2 => hall j (by omega) (by omega))
      (by rw [show a + 1 + d = a + (d + 1) by omega]; exact hfree)
    rw [hnext] at this
    simp only [unique_sheet_name_loop, ha, decide_True, if_true, this]
    congr 1
    omega

/-- C19: `unique_sheet_name` returns (given fuel for `names.length + 1` tests of the loop
condition) a name that is not among the names: the value itself when it is not among them,
otherwise the value followed by the decimal text of the smallest `k ≥ 1` for which that
name is not among them. -/
theorem unique_sheet_name_spec (fuel : Nat) (names : List string) (value : string)
    (hfuel : names.length + 1 ≤ fuel) :
    ∃ result, unique_sheet_name fuel names value = some result ∧ result ∉ names ∧
      (value ∉ names → result = value) ∧
      (value ∈ names →
        ∃ k, 1 ≤ k ∧ result = value ++ to_string_nat k ∧
          value ++ to_string_nat k ∉ names ∧
          ∀ j, 1 ≤ j → j < k → value ++ to_string_nat j ∈ names) := by
  classical
  have hex : ∃ k, candidate value k ∉ names := by
    obtain ⟨k, -, hk⟩ := exists_free_candidate names value
    exact ⟨k, hk⟩
  have hfree : candidate value (Nat.find hex) ∉ names := Nat.find_spec hex
  have hmin : ∀ j, j < Nat.find hex → candidate value j ∈ names := by
    intro j hj
    by_contra hn
    exact Nat.find_min hex hj hn
  have hle : Nat.find hex ≤ names.length := by
    obtain ⟨k, hk, hkf⟩ := exists_free_candidate names value
    exact le_trans (Nat.find_min' hex hkf) hk
  have hloop := unique_sheet_name_loop_eq names value (Nat.find hex) 0 fuel (by omega)
    (fun j _ h2 => hmin j (by omega)) (by simpa using hfree)
  have h0 : candidate value 0 = value := by simp [candidate]
  rw [h0, Nat.zero_add] at hloop
  refine ⟨candidate value (Nat.find hex), ?_, hfree, ?_, ?_⟩
  · simp [unique_sheet_name, hloop, candidate]
  · intro hv
    have : Nat.find hex = 0 := by
      by_contra hne
      have := hmin 0 (Nat.pos_of_ne_zero hne)
      rw [h0] at this
      exact hv this
    rw [this, h0]
  · intro hv
    have hpos : Nat.find hex ≠ 0 := by
      intro h
      rw [h, h0] at hfree
      exact hfree hv
    have hc : candidate value (Nat.find hex) = value ++ to_string_nat (Nat.find hex) := by
      simp [candidate, hpos]
    refine ⟨Nat.find hex, Nat.pos_of_ne_zero hpos, hc, by rw [← hc]; exact hfree, ?_⟩
    intro j hj1 hj2
    have := hmin j hj2
    have hj0 : j ≠ 0 := by omega
    simpa [candidate, hj0] using this

/-- Witness of C19: with the names `Sheet` and `Sheet1`, the value `Sheet` gives `Sheet2`. -/
theorem unique_sheet_name_spec_witness :
    (["Sheet".toList, "Sheet1".toList].length + 1 ≤ 3) ∧
      unique_sheet_name 3 ["Sheet".toList, "Sheet1".toList] "Sheet".toList =
        some "Sheet2".toList ∧
      ∃ result, unique_sheet_name 3 ["Sheet".toList, "Sheet1".toList] "Sheet".toList =
          some result ∧ result ∉ ["Sheet".toList, "Sheet1".toList] :=
  ⟨by decide, by decide,
    (unique_sheet_name_spec 3 ["Sheet".toList, "Sheet1".toList] "Sheet".toList
      (by decide)).imp (fun _ h => ⟨h.1, h.2.1⟩)⟩

/-! ## Merged cells -/

theorem mem_cells (reference : range_reference) (r c : Nat) :
    (⟨c, r⟩ : cell_reference) ∈ reference.cells ↔
      reference.top_left.row ≤ r ∧ r ≤ reference.bottom_right.row ∧
        reference.top_left.column_index ≤ c ∧ c ≤ reference.bottom_right.column_index := by
  simp only [range_reference.cells, List.mem_flatMap, List.mem_map, List.mem_range'_1,
    cell_reference.mk.injEq]
  constructor
  · rintro ⟨row, ⟨h1, h2⟩, col, ⟨h3, h4⟩, rfl, rfl⟩
    omega
  · rintro ⟨h1, h2, h3, h4⟩
    exact ⟨r, ⟨h1, by omega⟩, c, ⟨h3, by omega⟩, rfl, rfl⟩

theorem cells_nodup (reference : range_reference) : reference.cells.Nodup := by
  unfold range_reference.cells
  rw [List.nodup_flatMap]
  constructor
  · intro row _
    exact List.Nodup.map (fun a b h => by simpa using h) (List.nodup_range' _ _)
  · have hn : (List.range' reference.top_left.row
        (reference.bottom_right.row + 1 - reference.top_left.row)).Nodup :=
      List.nodup_range' _ _
    refine List.Pairwise.imp ?_ hn
    intro a b hab
    simp only [Function.onFun, List.disjoint_left, List.mem_map]
    rintro x ⟨_, _, rfl⟩ ⟨_, _, h⟩
    simp only [cell_reference.mk.injEq] at h
    exact hab h.2.symm

theorem cells_head (reference : range_reference)
    (hr : reference.top_left.row ≤ reference.bottom_right.row)
    (hc : reference.top_left.column_index ≤ reference.bottom_right.column_index) :
    reference.cells.head? = some ⟨reference.top_left.column_index, reference.top_left.row⟩ := by
  obtain ⟨n, hn⟩ : ∃ n, reference.bottom_right.row + 1 - reference.top_left.row = n + 1 :=
    ⟨reference.bottom_right.row - reference.top_left.row, by omega⟩
  obtain ⟨m, hm⟩ : ∃ m, reference.bottom_right.column_index + 1 -
      reference.top_left.column_index = m + 1 :=
    ⟨reference.bottom_right.column_index - reference.top_left.column_index, by omega⟩
  simp [range_reference.cells, hn, hm, List.range'_succ]

theorem merge_cells_loop_frame (refs : List cell_reference) :
    ∀ (ws : worksheet_impl) (first : Bool),
      (merge_cells_loop refs ws first).toworksheet = ws.toworksheet ∧
        (merge_cells_loop refs ws first).merged_cells_ = ws.merged_cells_ := by
  induction refs with
  | nil => intro ws first; exact ⟨rfl, rfl⟩
  | cons ref rest ih =>
    intro ws first
    exact ih (ws.update_cell ref (merge_cell first)) false

/-- The cells after the loop of `merge_cells` over distinct references: each visited cell
is the old one (or a new one) after the loop body, the first with `first`; the others are
untouched. -/
theorem merge_cells_loop_cell_at (refs : List cell_reference) :
    ∀ (ws : worksheet_impl) (first : Bool), refs.Nodup →
      ∀ r c : Nat, (merge_cells_loop refs ws first).cell_at r c =
        if (⟨c, r⟩ : cell_reference) ∈ refs then
          some (merge_cell (first && decide (refs.head? = some ⟨c, r⟩))
            ((ws.cell_at r c).getD (cell_impl.create c r)))
        else ws.cell_at r c := by
  induction refs with
  | nil => intro ws first _ r c; simp [merge_cells_loop]
  | cons ref rest ih =>
    intro ws first hnd r c
    obtain ⟨hnot, hrest⟩ := List.nodup_cons.mp hnd
    have hstep : merge_cells_loop (ref :: rest) ws first =
        merge_cells_loop rest (ws.update_cell ref (merge_cell first)) false := rfl
    rw [hstep, ih _ false hrest r c, update_cell_cell_at]
    by_cases heq : (⟨c, r⟩ : cell_reference) = ref
    · subst heq
      simp [hnot]
    · have hne : ¬ (r = ref.row ∧ c = ref.column_index) := by
        rintro ⟨rfl, rfl⟩; exact heq rfl
      have hne' : ¬ (ref = (⟨c, r⟩ : cell_reference)) := fun h => heq h.symm
      by_cases hin : (⟨c, r⟩ : cell_reference) ∈ rest
      · simp [hin, hne, hne']
      · simp [hin, hne, heq]

/-- C20: `merge_cells` appends the range to the merged ranges; every cell of the range is
then stored with its merge flag set; the first cell (top left) keeps its value, every other
cell of the range that held a string holds the empty string and any other is fully empty;
the cell at every reference outside the range is as before, and so is the rest of the
worksheet.  The cells of the range are those between its corners, both included. -/
theorem merge_cells_spec (ws : worksheet_impl) (reference : range_reference) :
    (ws.merge_cells reference).merged_cells_ = ws.merged_cells_ ++ [reference] ∧
      (ws.merge_cells reference).toworksheet = ws.toworksheet ∧
      (∀ r c : Nat,
        (reference.top_left.row ≤ r ∧ r ≤ reference.bottom_right.row ∧
          reference.top_left.column_index ≤ c ∧ c ≤ reference.bottom_right.column_index) →
        ∃ cell, (ws.merge_cells reference).cell_at r c = some cell ∧
          cell.is_merged = true ∧
          cell.value =
            if r = reference.top_left.row ∧ c = reference.top_left.column_index then
              ((ws.cell_at r c).getD (cell_impl.create c r)).value
            else if ((ws.cell_at r c).getD (cell_impl.create c r)).is_string then
              cell_value.string []
            else cell_value.empty) ∧
      (∀ r c : Nat,
        ¬ (reference.top_left.row ≤ r ∧ r ≤ reference.bottom_right.row ∧
          reference.top_left.column_index ≤ c ∧ c ≤ reference.bottom_right.column_index) →
        (ws.merge_cells reference).cell_at r c = ws.cell_at r c) := by
  have hframe := merge_cells_loop_frame reference.cells
    { ws with merged_cells_ := ws.merged_cells_ ++ [reference] } true
  have hat := merge_cells_loop_cell_at reference.cells
    { ws with merged_cells_ := ws.merged_cells_ ++ [reference] } true (cells_nodup reference)
  refine ⟨hframe.2, hframe.1, fun r c hin => ?_, fun r c hout => ?_⟩
  · have hmem := (mem_cells reference r c).mpr hin
    have hhead := cells_head reference (by omega) (by omega)
    refine ⟨_, (hat r c).trans (if_pos hmem), ?_, ?_⟩
    · unfold merge_cell
      simp only []
      split
      · split <;> rfl
      · rfl
    · rw [hhead]
      by_cases hfirst : r = reference.top_left.row ∧ c = reference.top_left.column_index
      · obtain ⟨rfl, rfl⟩ := hfirst
        simp [merge_cell, cell_impl.set_merged]; rfl
      · have hne : ¬ ((⟨reference.top_left.column_index, reference.top_left.row⟩ :
            cell_reference) = ⟨c, r⟩) := by
          intro h
          simp only [cell_reference.mk.injEq] at h
          exact hfirst ⟨h.2.symm, h.1.symm⟩
        simp only [Option.some.injEq, hne, decide_False, Bool.and_false, hfirst, if_false]
        unfold merge_cell
        simp only [Bool.not_false, if_true]
        cases hs : ((worksheet_impl.cell_at
            { ws with merged_cells_ := ws.merged_cells_ ++ [reference] } r c).getD
            (cell_impl.create c r)).value <;>
          simp [cell_impl.is_string, cell_impl.set_merged, cell_impl.set_value,
            cell_impl.clear_value, hs, worksheet_impl.cell_at] <;>
          simp [worksheet_impl.cell_at] at hs <;> simp [hs]
  · have hmem : ¬ (⟨c, r⟩ : cell_reference) ∈ reference.cells :=
      fun h => hout ((mem_cells reference r c).mp h)
    exact (hat r c).trans (if_neg hmem)

/-- Witness of C20: merging `B2:C3` on a worksheet holding `x` at `B2` and `y` at `C3`:
`B2` keeps `x`, `C3` holds the empty string, `B3` and `C2` are created empty, all four are
merged, and `A1` is still absent. -/
theorem merge_cells_spec_witness :
    (example_range.top_left.row ≤ 3 ∧ 3 ≤ example_range.bottom_right.row ∧
        example_range.top_left.column_index ≤ 3 ∧
        3 ≤ example_range.bottom_right.column_index) ∧
      (∃ cell, (example_merge_sheet.merge_cells example_range).cell_at 3 3 = some cell ∧
        cell.is_merged = true ∧
        cell.value =
          if 3 = example_range.top_left.row ∧ 3 = example_range.top_left.column_index then
            ((example_merge_sheet.cell_at 3 3).getD (cell_impl.create 3 3)).value
          else if ((example_merge_sheet.cell_at 3 3).getD (cell_impl.create 3 3)).is_string then
            cell_value.string []
          else cell_value.empty) ∧
      (example_merge_sheet.merge_cells example_range).cell_at 2 2 =
        some ⟨2, 2, cell_value.string "x".toList, true, none⟩ ∧
      (example_merge_sheet.merge_cells example_range).cell_at 3 3 =
        some ⟨3, 3, cell_value.string [], true, none⟩ ∧
      (example_merge_sheet.merge_cells example_range).cell_at 2 3 =
        some ⟨3, 2, cell_value.empty, true, none⟩ ∧
      (example_merge_sheet.merge_cells example_range).cell_at 3 2 =
        some ⟨2, 3, cell_value.empty, true, none⟩ ∧
      (example_merge_sheet.merge_cells example_range).cell_at 1 1 = none ∧
      (example_merge_sheet.merge_cells example_range).merged_cells_ = [example_range] :=
  ⟨by decide, (merge_cells_spec example_merge_sheet example_range).2.2.1 3 3 (by decide),
    by decide, by decide, by decide, by decide, by decide, by decide⟩

/-! ## Core properties: what a read leaves unchanged -/

/-- C27: whatever the document and however the call ends, `read_properties_core` leaves
the title as it was and sets the date base to the 1900 calendar (the other four properties
are the only ones it may change).  The document written by `write_properties_core` has a
`dc:title` element, yet reading it back does not recover the title: reading the written
example properties (title `Title`, 1904 date base) into blank properties with the 1904
date base ends normally with an empty title and the 1900 date base. -/
theorem read_properties_core_frame (xml : xml_document) (props written : document_properties) :
    (read_properties_core xml props).1.title = props.title ∧
      (read_properties_core xml props).1.excel_base_date = calendar.windows_1900 ∧
      (write_properties_core written).root.has_child "dc:title".toList = true ∧
      ((write_properties_core written).root.get_child "dc:title".toList).get_text_string =
        written.title ∧
      (read_properties_core (write_properties_core written) props).1.title = props.title ∧
      (read_properties_core (write_properties_core example_properties) blank_properties).2 =
        Outcome.returned () ∧
      (read_properties_core (write_properties_core example_properties) blank_properties).1 =
        { example_properties with title := [], excel_base_date := calendar.windows_1900 } := by
  have frame : ∀ (x : xml_document) (p : document_properties),
      (read_properties_core x p).1.title = p.title ∧
        (read_properties_core x p).1.excel_base_date = calendar.windows_1900 := by
    intro x p
    unfold read_properties_core read_timestamp
    simp only []
    generalize x.root.has_child "dc:creator".toList = b1
    generalize x.root.has_child "cp:lastModifiedBy".toList = b2
    generalize x.root.has_child "dcterms:created".toList = b3
    generalize x.root.has_child "dcterms:modified".toList = b4
    generalize w3cdtf_to_datetime (x.root.get_child "dcterms:created".toList).get_text_string = o1
    generalize w3cdtf_to_datetime (x.root.get_child "dcterms:modified".toList).get_text_string = o2
    cases b1 <;> cases b2 <;> cases b3 <;> cases b4 <;> cases o1 <;> cases o2 <;> simp
  exact ⟨(frame xml props).1, (frame xml props).2, rfl, rfl, (frame _ props).1, by decide,
    by decide⟩

/-! ## Unique sheet names: termination -/

/-- While every candidate from `a` up to `a + d` (excluded) is taken, `d` tests of the
condition do not end the loop. -/
theorem unique_sheet_name_loop_none (names : List string) (value : string) :
    ∀ (fuel d a : Nat), fuel ≤ d →
      (∀ j, a ≤ j → j < a + d → candidate value j ∈ names) →
      unique_sheet_name_loop names value fuel a (decide (candidate value a ∈ names)) = none := by
  intro fuel
  induction fuel with
  | zero => intro d a _ _; rfl
  | succ f ih =>
    intro d a hd hall
    have ha : candidate value a ∈ names := hall a (le_refl _) (by omega)
    have hnext : candidate value (a + 1) = value ++ to_string_nat (a + 1) := by
      simp [candidate]
    have := ih (d - 1) (a + 1) (by omega) (fun j h1 h2 => hall j (by omega) (by omega))
    rw [hnext] at this
    simp only [unique_sheet_name_loop, ha, decide_True, if_true, this]

/-- C28: `unique_sheet_name` terminates.  The candidates `v`, `v1`, `v2`, ... are pairwise
distinct, so for some `k ≤ names.length` the loop ends with counter `k`: more than `k`
tests of its condition always return `k` (the loop body has then run `k` times), `k` tests
or fewer do not end it, and the function returns the candidate of `k`. -/
theorem unique_sheet_name_terminates (names : List string) (value : string) :
    (∀ i j, candidate value i = candidate value j → i = j) ∧
      ∃ k, k ≤ names.length ∧
        (∀ fuel, k < fuel →
          unique_sheet_name_loop names value fuel 0 (decide (value ∈ names)) = some k) ∧
        (∀ fuel, fuel ≤ k →
          unique_sheet_name_loop names value fuel 0 (decide (value ∈ names)) = none) ∧
        unique_sheet_name (names.length + 1) names value = some (candidate value k) := by
  classical
  refine ⟨fun i j h => candidate_injective value h, ?_⟩
  have hex : ∃ k, candidate value k ∉ names := by
    obtain ⟨k, -, hk⟩ := exists_free_candidate names value
    exact ⟨k, hk⟩
  have hfree : candidate value (Nat.find hex) ∉ names := Nat.find_spec hex
  have hmin : ∀ j, j < Nat.find hex → candidate value j ∈ names := by
    intro j hj
    by_contra hn
    exact Nat.find_min hex hj hn
  have hle : Nat.find hex ≤ names.length := by
    obtain ⟨k, hk, hkf⟩ := exists_free_candidate names value
    exact le_trans (Nat.find_min' hex hkf) hk
  have h0 : candidate value 0 = value := by simp [candidate]
  have hsome : ∀ fuel, Nat.find hex < fuel →
      unique_sheet_name_loop names value fuel 0 (decide (value ∈ names)) =
        some (Nat.find hex) := by
    intro fuel hf
    have := unique_sheet_name_loop_eq names value (Nat.find hex) 0 fuel hf
      (fun j _ h2 => hmin j (by omega)) (by simpa using hfree)
    rwa [h0, Nat.zero_add] at this
  refine ⟨Nat.find hex, hle, hsome, ?_, ?_⟩
  · intro fuel hf
    have := unique_sheet_name_loop_none names value fuel (Nat.find hex) 0 hf
      (fun j _ h2 => hmin j (by omega))
    rwa [h0] at this
  · simp [unique_sheet_name, hsome (names.length + 1) (by omega), candidate]

/-- Witness of C28: with the names `Sheet` and `Sheet1` the loop ends with counter 2, the
number of names, after three tests of its condition and not after two. -/
theorem unique_sheet_name_terminates_witness :
    unique_sheet_name_loop ["Sheet".toList, "Sheet1".toList] "Sheet".toList 3 0
        (decide ("Sheet".toList ∈ ["Sheet".toList, "Sheet1".toList])) = some 2 ∧
      unique_sheet_name_loop ["Sheet".toList, "Sheet1".toList] "Sheet".toList 2 0
        (decide ("Sheet".toList ∈ ["Sheet".toList, "Sheet1".toList])) = none ∧
      ∃ k, k ≤ ["Sheet".toList, "Sheet1".toList].length ∧
        unique_sheet_name (["Sheet".toList, "Sheet1".toList].length + 1)
          ["Sheet".toList, "Sheet1".toList] "Sheet".toList = some (candidate "Sheet".toList k) :=
  ⟨by decide, by decide,
    (unique_sheet_name_terminates ["Sheet".toList, "Sheet1".toList] "Sheet".toList).2.imp
      (fun _ h => ⟨h.1, h.2.2.2⟩)⟩

/-! ## Named ranges -/

/-- Lookup after assignment in the map of named ranges. -/
theorem named_find_named_set {β : Type} (m : List (string × β)) (key : string) (v : β)
    (k : string) :
    named_find (named_set m key v) k = if k = key then some v else named_find m k := by
  induction m with
  | nil =>
    by_cases h : k = key
    · simp [named_set, named_find, h]
    · have h2 : ¬ key = k := fun e => h e.symm
      simp [named_set, named_find, h, h2]
  | cons e rest ih =>
    obtain ⟨a, x⟩ := e
    by_cases ha : a = key
    · by_cases h : k = key
      · simp [named_set, named_find, ha, h]
      · have h2 : ¬ key = k := fun e => h e.symm
        simp [named_set, named_find, ha, h, h2]
    · by_cases hk : a = k
      · have h : ¬ k = key := fun e => ha (hk.trans e)
        simp [named_set, named_find, ha, hk, h]
      · simp [named_set, named_find, ha, hk, ih]

/-- C23: `create_named_range(name, r)` overwrites.  Afterwards the entry of `name` is the
named range with the single target (this worksheet, `r`), whatever the entry was before, and
`get_named_range(name)` returns `r` without changing the worksheet; the entry of every other
name is as before, and so are the cells and the merged ranges; and `get_named_range` on a
name without entry throws `named_range_exception` and creates nothing. -/
theorem create_named_range_overwrites (self : Nat) (ws : worksheet_impl) (name : string)
    (r : range_reference) :
    named_find (ws.create_named_range self name r).named_ranges_ name =
        some ⟨name, [(self, r)]⟩ ∧
      (ws.create_named_range self name r).get_named_range name =
        (ws.create_named_range self name r, Outcome.returned r) ∧
      (∀ other, other ≠ name →
        named_find (ws.create_named_range self name r).named_ranges_ other =
          named_find ws.named_ranges_ other) ∧
      (ws.create_named_range self name r).cell_map_ = ws.cell_map_ ∧
      (ws.create_named_range self name r).merged_cells_ = ws.merged_cells_ ∧
      (∀ missing, named_find ws.named_ranges_ missing = none →
        ws.get_named_range missing =
          (ws, Outcome.raised cpp_exception.named_range_exception)) := by
  have hfind : named_find (ws.create_named_range self name r).named_ranges_ name =
      some ⟨name, [(self, r)]⟩ := by
    simp [worksheet_impl.create_named_range, named_find_named_set]
  refine ⟨hfind, ?_, ?_, rfl, rfl, ?_⟩
  · simp [worksheet_impl.get_named_range, worksheet_impl.has_named_range, hfind]
  · intro other h
    simp [worksheet_impl.create_named_range, named_find_named_set, h]
  · intro missing h
    simp [worksheet_impl.get_named_range, worksheet_impl.has_named_range, h]

/-- Witness of C23: a name bound to two targets of another worksheet is rebound to the
single target (worksheet 7, `B2:C3`); the other name keeps its entry and a third name still
fails. -/
theorem create_named_range_overwrites_witness :
    (example_named_sheet.get_named_range "data".toList).2 =
        Outcome.returned ⟨⟨1, 1⟩, ⟨1, 1⟩⟩ ∧
      ((example_named_sheet.create_named_range 7 "data".toList example_range).get_named_range
        "data".toList).2 = Outcome.returned example_range ∧
      named_find (example_named_sheet.create_named_range 7 "data".toList
        example_range).named_ranges_ "data".toList =
        some ⟨"data".toList, [(7, example_range)]⟩ ∧
      ((example_named_sheet.create_named_range 7 "data".toList example_range).get_named_range
        "total".toList).2 = Outcome.returned ⟨⟨5, 5⟩, ⟨5, 5⟩⟩ ∧
      ((example_named_sheet.create_named_range 7 "data".toList example_range).get_named_range
        "none".toList) =
        (example_named_sheet.create_named_range 7 "data".toList example_range,
          Outcome.raised cpp_exception.named_range_exception) :=
  ⟨by decide, by decide,
    (create_named_range_overwrites 7 example_named_sheet "data".toList example_range).1,
    by decide, by decide⟩

/-! ## Unmerging cells -/

theorem unmerge_cells_loop_frame (refs : List cell_reference) :
    ∀ (ws : worksheet_impl),
      (unmerge_cells_loop refs ws).toworksheet = ws.toworksheet ∧
        (unmerge_cells_loop refs ws).merged_cells_ = ws.merged_cells_ ∧
        (unmerge_cells_loop refs ws).named_ranges_ = ws.named_ranges_ := by
  induction refs with
  | nil => intro ws; exact ⟨rfl, rfl, rfl⟩
  | cons ref rest ih =>
    intro ws
    exact ih (ws.update_cell ref (fun cell => cell.set_merged false))

/-- The cells after the loop of `unmerge_cells`: each visited cell is the old one (or a new
one) with the merge flag cleared; the others are untouched. -/
theorem unmerge_cells_loop_cell_at (refs : List cell_reference) :
    ∀ (ws : worksheet_impl) (r c : Nat), (unmerge_cells_loop refs ws).cell_at r c =
      if (⟨c, r⟩ : cell_reference) ∈ refs then
        some (((ws.cell_at r c).getD (cell_impl.create c r)).set_merged false)
      else ws.cell_at r c := by
  induction refs with
  | nil => intro ws r c; simp [unmerge_cells_loop]
  | cons ref rest ih =>
    intro ws r c
    have hstep : unmerge_cells_loop (ref :: rest) ws =
        unmerge_cells_loop rest (ws.update_cell ref (fun cell => cell.set_merged false)) := rfl
    rw [hstep, ih _ r c, update_cell_cell_at]
    by_cases heq : (⟨c, r⟩ : cell_reference) = ref
    · subst heq
      by_cases hin : (⟨c, r⟩ : cell_reference) ∈ rest
      · simp [hin, cell_impl.set_merged]
      · simp [hin]
    · have hne : ¬ (r = ref.row ∧ c = ref.column_index) := by
        rintro ⟨rfl, rfl⟩; exact heq rfl
      by_cases hin : (⟨c, r⟩ : cell_reference) ∈ rest
      · simp [hin, hne]
      · simp [hin, hne, heq]

/-- C21: `unmerge_cells(range)` throws (`std::runtime_error`, the NotMerged error) exactly
when the range equals no entry of the merged ranges, it returns exactly when the range is
an entry, and a call that throws leaves the whole worksheet (merged ranges, cell store,
every flag and value) as it was. -/
theorem unmerge_cells_fails_iff (ws : worksheet_impl) (reference : range_reference) :
    ((ws.unmerge_cells reference).2 = Outcome.raised cpp_exception.runtime_error ↔
        reference ∉ ws.merged_cells_) ∧
      ((ws.unmerge_cells reference).2 = Outcome.returned () ↔
        reference ∈ ws.merged_cells_) ∧
      ((ws.unmerge_cells reference).2 ≠ Outcome.returned () →
        (ws.unmerge_cells reference).1 = ws) := by
  unfold worksheet_impl.unmerge_cells
  by_cases h : reference ∈ ws.merged_cells_ <;> simp [h]

/-- Witness of C21: with `B2:C3` merged, unmerging the contained range `B2:B2` or the
overlapping range `A1:B2` throws and changes nothing, and unmerging `B2:C3` returns. -/
theorem unmerge_cells_fails_iff_witness :
    ((new_worksheet "Sheet".toList).merge_cells example_range).merged_cells_ =
        [example_range] ∧
      (((new_worksheet "Sheet".toList).merge_cells example_range).unmerge_cells
        ⟨⟨2, 2⟩, ⟨2, 2⟩⟩).2 = Outcome.raised cpp_exception.runtime_error ∧
      (((new_worksheet "Sheet".toList).merge_cells example_range).unmerge_cells
        ⟨⟨2, 2⟩, ⟨2, 2⟩⟩).1 = (new_worksheet "Sheet".toList).merge_cells example_range ∧
      (((new_worksheet "Sheet".toList).merge_cells example_range).unmerge_cells
        ⟨⟨1, 1⟩, ⟨2, 2⟩⟩).2 = Outcome.raised cpp_exception.runtime_error ∧
      (((new_worksheet "Sheet".toList).merge_cells example_range).unmerge_cells
        ⟨⟨1, 1⟩, ⟨2, 2⟩⟩).1 = (new_worksheet "Sheet".toList).merge_cells example_range ∧
      (((new_worksheet "Sheet".toList).merge_cells example_range).unmerge_cells
        example_range).2 = Outcome.returned () :=
  ⟨by decide, by decide,
    (unmerge_cells_fails_iff ((new_worksheet "Sheet".toList).merge_cells example_range)
      ⟨⟨2, 2⟩, ⟨2, 2⟩⟩).2.2 (by decide),
    by decide,
    by decide, by decide⟩

/-- C22: a successful `unmerge_cells(range)` removes the first occurrence of the range from
the merged ranges and keeps the other entries in their order; every cell of the range is
then stored with its merge flag cleared and with the value and style it had (a cell that
was not stored is created empty); the cell at every reference outside the range is as
before, and so is the rest of the worksheet. -/
theorem unmerge_cells_spec (ws : worksheet_impl) (reference : range_reference)
    (h : reference ∈ ws.merged_cells_) :
    (ws.unmerge_cells reference).2 = Outcome.returned () ∧
      (ws.unmerge_cells reference).1.merged_cells_ = ws.merged_cells_.erase reference ∧
      (∃ before after, reference ∉ before ∧
        ws.merged_cells_ = before ++ reference :: after ∧
        (ws.unmerge_cells reference).1.merged_cells_ = before ++ after) ∧
      (ws.unmerge_cells reference).1.toworksheet = ws.toworksheet ∧
      (ws.unmerge_cells reference).1.named_ranges_ = ws.named_ranges_ ∧
      (∀ r c : Nat,
        (reference.top_left.row ≤ r ∧ r ≤ reference.bottom_right.row ∧
          reference.top_left.column_index ≤ c ∧ c ≤ reference.bottom_right.column_index) →
        ∃ cell, (ws.unmerge_cells reference).1.cell_at r c = some cell ∧
          cell.is_merged = false ∧
          cell.value = ((ws.cell_at r c).getD (cell_impl.create c r)).value ∧
          cell.style = ((ws.cell_at r c).getD (cell_impl.create c r)).style) ∧
      (∀ r c : Nat,
        ¬ (reference.top_left.row ≤ r ∧ r ≤ reference.bottom_right.row ∧
          reference.top_left.column_index ≤ c ∧ c ≤ reference.bottom_right.column_index) →
        (ws.unmerge_cells reference).1.cell_at r c = ws.cell_at r c) := by
  have hframe := unmerge_cells_loop_frame reference.cells
    { ws with merged_cells_ := ws.merged_cells_.erase reference }
  have hat := unmerge_cells_loop_cell_at reference.cells
    { ws with merged_cells_ := ws.merged_cells_.erase reference }
  have hrun : ws.unmerge_cells reference =
      (unmerge_cells_loop reference.cells
        { ws with merged_cells_ := ws.merged_cells_.erase reference }, Outcome.returned ()) := by
    unfold worksheet_impl.unmerge_cells
    rw [if_pos h]
  rw [hrun]
  refine ⟨rfl, hframe.2.1, ?_, hframe.1, hframe.2.2, fun r c hin => ?_, fun r c hout => ?_⟩
  · obtain ⟨before, after, h1, h2, h3⟩ := List.exists_erase_eq h
    exact ⟨before, after, h1, h2, hframe.2.1.trans h3⟩
  · have hmem := (mem_cells reference r c).mpr hin
    exact ⟨_, (hat r c).trans (if_pos hmem), rfl, rfl, rfl⟩
  · have hmem : ¬ (⟨c, r⟩ : cell_reference) ∈ reference.cells :=
      fun h => hout ((mem_cells reference r c).mp h)
    exact (hat r c).trans (if_neg hmem)

/-- Witness of C22: after `merge_cells(B2:C3)`, writing `v` to `B2` and
`unmerge_cells(B2:C3)`, the four cells are unmerged, `B2` still holds `v`, the other three
are empty, and no merged range is left. -/
theorem unmerge_cells_spec_witness :
    example_range ∈ example_unmerge_sheet.merged_cells_ ∧
      (example_unmerge_sheet.unmerge_cells example_range).1.merged_cells_ =
        example_unmerge_sheet.merged_cells_.erase example_range ∧
      example_unmerge_sheet.cell_at 2 2 =
        some ⟨2, 2, cell_value.string "v".toList, true, none⟩ ∧
      example_unmerge_sheet.cell_at 3 3 = some ⟨3, 3, cell_value.empty, true, none⟩ ∧
      (example_unmerge_sheet.unmerge_cells example_range).1.cell_at 2 2 =
        some ⟨2, 2, cell_value.string "v".toList, false, none⟩ ∧
      (example_unmerge_sheet.unmerge_cells example_range).1.cell_at 2 3 =
        some ⟨3, 2, cell_value.empty, false, none⟩ ∧
      (example_unmerge_sheet.unmerge_cells example_range).1.cell_at 3 2 =
        some ⟨2, 3, cell_value.empty, false, none⟩ ∧
      (example_unmerge_sheet.unmerge_cells example_range).1.cell_at 3 3 =
        some ⟨3, 3, cell_value.empty, false, none⟩ ∧
      (example_unmerge_sheet.unmerge_cells example_range).1.merged_cells_ = [] :=
  ⟨by decide, (unmerge_cells_spec example_unmerge_sheet example_range (by decide)).2.1,
    by decide, by decide, by decide, by decide, by decide, by decide, by decide⟩

/-! ## Workbook part: safety of the backward digit scan -/

/-- A text containing `ch` splits at the last occurrence of `ch`. -/
theorem last_occurrence_split (s : List Char) (ch : Char) (h : ch ∈ s) :
    ∃ pre post, s = pre ++ ch :: post ∧ ∀ x ∈ post, x ≠ ch := by
  obtain ⟨a, b, hab, hna⟩ := List.eq_append_cons_of_mem (List.mem_reverse.mpr h)
  refine ⟨b.reverse, a.reverse, ?_, ?_⟩
  · have := congrArg List.reverse hab
    simpa using this
  · intro x hx hxc
    exact hna (hxc ▸ List.mem_reverse.mp hx)

/-- A text is a run of digits, or ends in a non-digit followed by a run of digits. -/
theorem trailing_digits_split (l : List Char) :
    (∀ x ∈ l, isdigit x = true) ∨
      ∃ B c ds, l = B ++ c :: ds ∧ isdigit c = false ∧ ∀ x ∈ ds, isdigit x = true := by
  induction l with
  | nil => left; simp
  | cons x rest ih =>
    rcases ih with hall | ⟨B, c, ds, hl, hc, hds⟩
    · cases hx : isdigit x with
      | true =>
        left
        intro y hy
        rcases List.mem_cons.mp hy with rfl | hy
        · exact hx
        · exact hall y hy
      | false => exact Or.inr ⟨[], x, rest, rfl, hx, hall⟩
    · exact Or.inr ⟨x :: B, c, ds, by simp [hl], hc, hds⟩

/-- C24: the backward digit scan of the ordinal derivation of `write_workbook` is safe.  For
a target (shorter than `2 ^ 64`) whose text before its first `.` contains a `/`, the two
`substr` calls return; the text `s2` that is scanned starts with `/`, so it is not empty;
the scan stops at an index `first_digit` inside `s2`, on a character that is not a digit,
without stepping before the first character; and the last `substr` returns the text after
that index, which consists of decimal digits only and is a suffix of the scanned text and of
the stem `s1`. -/
theorem sheet_index_scan_safe (target : string) (hlen : target.length < 2 ^ 64)
    (hslash : '/' ∈ target.take (find target '.' 0)) :
    ∃ s1 s2 first_digit s3,
      substr target 0 (find target '.' 0) = Outcome.returned s1 ∧
        substr s1 (find_last_of s1 '/') npos = Outcome.returned s2 ∧
        s2.head? = some '/' ∧
        scan_digits_back s2 s2.length = Outcome.returned first_digit ∧
        first_digit < s2.length ∧
        (∃ c, s2[first_digit]? = some c ∧ isdigit c = false) ∧
        substr s2 (first_digit + 1) npos = Outcome.returned s3 ∧
        (∀ c ∈ s3, isdigit c = true) ∧
        s3 = s2.drop (first_digit + 1) ∧ s3 <:+ s2 ∧ s3 <:+ s1 := by
  obtain ⟨pre, post, hs1, hpost⟩ := last_occurrence_split _ '/' hslash
  have hlen1 : (target.take (find target '.' 0)).length < 2 ^ 64 :=
    lt_of_le_of_lt (by simp) hlen
  have hlen2 : ('/' :: post).length < 2 ^ 64 := by
    rw [hs1] at hlen1
    simp only [List.length_append, List.length_cons] at hlen1 ⊢
    omega
  have hnd : ¬ ∀ x ∈ '/' :: post, isdigit x = true := by
    intro h
    have := h '/' (by simp)
    exact absurd this (by decide)
  obtain ⟨B, c, ds, hl, hc, hds⟩ := (trailing_digits_split ('/' :: post)).resolve_left hnd
  have hdl : ds.length < 2 ^ 64 := by
    rw [hl] at hlen2
    simp only [List.length_append, List.length_cons] at hlen2
    omega
  have hdrop : List.drop (B.length + 1) (B ++ c :: ds) = ds := by
    have e : B ++ c :: ds = (B ++ [c]) ++ ds := by simp
    rw [e]; exact List.drop_left' (by simp)
  have hsub1 : substr target 0 (find target '.' 0) =
      Outcome.returned (target.take (find target '.' 0)) := by
    simp [substr]
  have hsub2 : substr (target.take (find target '.' 0))
      (find_last_of (target.take (find target '.' 0)) '/') npos =
      Outcome.returned ('/' :: post) := by
    rw [find_last_of_eq hs1 hpost]
    have hpos : ¬ (pre.length > (target.take (find target '.' 0)).length) := by
      rw [hs1]; simp
    have hd : List.drop pre.length (target.take (find target '.' 0)) = '/' :: post := by
      rw [hs1]; exact List.drop_left' rfl
    simp only [substr, hpos, if_false, hd, take_npos hlen2]
  have hsub3 : substr ('/' :: post) (B.length + 1) npos = Outcome.returned ds := by
    have hpos : ¬ (B.length + 1 > ('/' :: post).length) := by
      rw [hl]; simp
    simp only [substr, hpos, if_false]
    rw [hl, hdrop, take_npos hdl]
  refine ⟨_, '/' :: post, B.length, ds, hsub1, hsub2, rfl, ?_, ?_, ⟨c, ?_, hc⟩, hsub3, hds,
    ?_, ?_, ?_⟩
  · rw [hl]; exact scan_digits_back_stop B ds c hc hds
  · rw [hl]; simp
  · rw [hl, List.getElem?_append_right (le_refl _)]; simp
  · rw [hl, hdrop]
  · rw [hl]; exact ⟨B ++ [c], by simp⟩
  · rw [hs1, hl]; exact ⟨pre ++ (B ++ [c]), by simp⟩

/-- Witness of C24: for the target `worksheets/sheet1.xml` the scanned text is `/sheet1`,
the scan stops at index 5 and the digit suffix is `1`. -/
theorem sheet_index_scan_safe_witness :
    substr "worksheets/sheet1.xml".toList 0 (find "worksheets/sheet1.xml".toList '.' 0) =
        Outcome.returned "worksheets/sheet1".toList ∧
      substr "worksheets/sheet1".toList (find_last_of "worksheets/sheet1".toList '/') npos =
        Outcome.returned "/sheet1".toList ∧
      scan_digits_back "/sheet1".toList "/sheet1".toList.length = Outcome.returned 5 ∧
      substr "/sheet1".toList (5 + 1) npos = Outcome.returned "1".toList ∧
      ∃ s1 s2 first_digit s3,
        substr "worksheets/sheet1.xml".toList 0 (find "worksheets/sheet1.xml".toList '.' 0) =
            Outcome.returned s1 ∧
          substr s1 (find_last_of s1 '/') npos = Outcome.returned s2 ∧
          s2.head? = some '/' ∧
          scan_digits_back s2 s2.length = Outcome.returned first_digit ∧
          first_digit < s2.length ∧
          (∃ c, s2[first_digit]? = some c ∧ isdigit c = false) ∧
          substr s2 (first_digit + 1) npos = Outcome.returned s3 ∧
          (∀ c ∈ s3, isdigit c = true) ∧
          s3 = s2.drop (first_digit + 1) ∧ s3 <:+ s2 ∧ s3 <:+ s1 :=
  ⟨by decide, by decide, by decide, by decide,
    sheet_index_scan_safe "worksheets/sheet1.xml".toList (by decide) (by decide)⟩

/-! ## The cell-store invariant -/

theorem map_set_ne_nil {β : Type} (m : umap β) (k : Nat) (v : β) : map_set m k v ≠ [] := by
  cases m with
  | nil => simp [map_set]
  | cons e rest =>
    obtain ⟨a, x⟩ := e
    by_cases ha : a = k <;> simp [map_set, ha]

theorem map_set_map_set {β : Type} (m : umap β) (k : Nat) (x v : β) :
    map_set (map_set m k x) k v = map_set m k v := by
  induction m with
  | nil => simp [map_set]
  | cons e rest ih =>
    obtain ⟨a, y⟩ := e
    by_cases ha : a = k
    · simp [map_set, ha]
    · simp [map_set, ha, ih]

theorem no_empty_row_map_set (m : cell_map) (k : Nat) (row : column_map)
    (h : no_empty_row m) (hrow : row ≠ []) : no_empty_row (map_set m k row) := by
  intro e he
  rcases mem_map_set m k row e he with rfl | he
  · exact hrow
  · exact h e he

/-- The store after the mutable `get_cell`: the row of the reference is assigned a column
map that is not empty. -/
theorem get_cell_cell_map (ws : worksheet_impl) (ref : cell_reference) :
    ∃ row, row ≠ [] ∧ (ws.get_cell ref).1.cell_map_ = map_set ws.cell_map_ ref.row row := by
  unfold worksheet_impl.get_cell
  cases hr : map_find ws.cell_map_ ref.row with
  | none =>
    refine ⟨[(ref.column_index, cell_impl.create ref.column_index ref.row)], by simp, ?_⟩
    simp [map_find_map_set, map_set_map_set, map_find, map_set]
  | some rw =>
    cases hc : map_find rw ref.column_index with
    | none =>
      exact ⟨map_set rw ref.column_index (cell_impl.create ref.column_index ref.row),
        map_set_ne_nil _ _ _, by simp [hr, hc]⟩
    | some cell =>
      refine ⟨rw, ?_, by simp [hr, hc]⟩
      intro h
      rw [h] at hc
      simp [map_find] at hc

theorem no_empty_row_get_cell (ws : worksheet_impl) (ref : cell_reference)
    (h : no_empty_row ws.cell_map_) : no_empty_row (ws.get_cell ref).1.cell_map_ := by
  obtain ⟨row, hrow, he⟩ := get_cell_cell_map ws ref
  rw [he]
  exact no_empty_row_map_set _ _ _ h hrow

theorem no_empty_row_update_cell (ws : worksheet_impl) (ref : cell_reference)
    (f : cell_impl → cell_impl) (h : no_empty_row ws.cell_map_) :
    no_empty_row (ws.update_cell ref f).cell_map_ :=
  no_empty_row_map_set _ _ _ (no_empty_row_get_cell ws ref h) (map_set_ne_nil _ _ _)

theorem update_cell_wf (ws : worksheet_impl) (ref : cell_reference)
    (f : cell_impl → cell_impl) (h : cell_map_wf ws.cell_map_) :
    cell_map_wf (ws.update_cell ref f).cell_map_ :=
  cell_map_wf_map_set _ _ _ (get_cell_wf ws ref h)
    (map_wf_map_set _ _ _ (map_wf_find _ _ (get_cell_wf ws ref h)))

/-- A property of the store kept by every write through a cell handle is kept by the loops
of `merge_cells`, `unmerge_cells` and `append`. -/
theorem loops_keep (P : cell_map → Prop)
    (hP : ∀ (ws : worksheet_impl) (ref : cell_reference) (f : cell_impl → cell_impl),
      P ws.cell_map_ → P (ws.update_cell ref f).cell_map_) :
    (∀ (refs : List cell_reference) (ws : worksheet_impl) (first : Bool),
        P ws.cell_map_ → P (merge_cells_loop refs ws first).cell_map_) ∧
      (∀ (refs : List cell_reference) (ws : worksheet_impl),
        P ws.cell_map_ → P (unmerge_cells_loop refs ws).cell_map_) ∧
      (∀ (column_max : Nat) (values : List string) (ws : worksheet_impl)
        (next : cell_reference),
        P ws.cell_map_ → P (append_loop column_max values ws next).cell_map_) := by
  refine ⟨?_, ?_, ?_⟩
  · intro refs
    induction refs with
    | nil => intro ws _ h; exact h
    | cons ref rest ih => intro ws first h; exact ih _ false (hP ws ref _ h)
  · intro refs
    induction refs with
    | nil => intro ws h; exact h
    | cons ref rest ih => intro ws h; exact ih _ (hP ws ref _ h)
  · intro column_max values
    induction values with
    | nil => intro ws _ h; exact h
    | cons v rest ih => intro ws next h; exact ih _ _ (hP ws next _ h)

/-- A property of the store kept by every write through a cell handle is kept by
`merge_cells`, `unmerge_cells` and `append`. -/
theorem operations_keep (P : cell_map → Prop)
    (hP : ∀ (ws : worksheet_impl) (ref : cell_reference) (f : cell_impl → cell_impl),
      P ws.cell_map_ → P (ws.update_cell ref f).cell_map_) (ws : worksheet_impl)
    (h : P ws.cell_map_) :
    (∀ reference, P (ws.merge_cells reference).cell_map_) ∧
      (∀ reference, P (ws.unmerge_cells reference).1.cell_map_) ∧
      (∀ column_max row_max values, P (ws.append column_max row_max values).cell_map_) := by
  obtain ⟨h1, h2, h3⟩ := loops_keep P hP
  refine ⟨fun reference => h1 _ _ _ h, fun reference => ?_,
    fun column_max row_max values => h3 _ _ _ _ h⟩
  unfold worksheet_impl.unmerge_cells
  split
  · exact h2 _ _ h
  · exact h

theorem gc_row_sublist (row : column_map) : List.Sublist (gc_row row) row := by
  induction row with
  | nil => exact List.Sublist.slnil
  | cons e rest ih =>
    obtain ⟨a, x⟩ := e
    cases hx : x.garbage_collectible with
    | true => simpa [gc_row, hx] using List.Sublist.cons _ ih
    | false => simpa [gc_row, hx] using ih

theorem gc_rows_keys_sublist (m : cell_map) :
    List.Sublist ((gc_rows m).map Prod.fst) (m.map Prod.fst) := by
  induction m with
  | nil => exact List.Sublist.slnil
  | cons e rest ih =>
    obtain ⟨a, x⟩ := e
    by_cases hx : (gc_row x).isEmpty = true
    · simpa [gc_rows, hx] using List.Sublist.cons _ ih
    · simpa [gc_rows, hx] using ih

theorem mem_gc_rows (m : cell_map) (e : Nat × column_map) (h : e ∈ gc_rows m) :
    ∃ row, (e.1, row) ∈ m ∧ e.2 = gc_row row := by
  induction m with
  | nil => simp [gc_rows] at h
  | cons y rest ih =>
    obtain ⟨a, x⟩ := y
    by_cases hx : (gc_row x).isEmpty = true
    · simp only [gc_rows, hx, if_true] at h
      obtain ⟨row, h1, h2⟩ := ih h
      exact ⟨row, List.mem_cons_of_mem _ h1, h2⟩
    · simp only [gc_rows, hx, Bool.false_eq_true, if_false, List.mem_cons] at h
      rcases h with rfl | h
      · exact ⟨x, by simp, rfl⟩
      · obtain ⟨row, h1, h2⟩ := ih h
        exact ⟨row, List.mem_cons_of_mem _ h1, h2⟩

/-- The function `garbage_collect` keeps the store well formed. -/
theorem garbage_collect_wf (ws : worksheet_impl) (h : cell_map_wf ws.cell_map_) :
    cell_map_wf ws.garbage_collect.cell_map_ := by
  refine ⟨List.Nodup.sublist (gc_rows_keys_sublist _) h.1, fun e he => ?_⟩
  obtain ⟨row, h1, h2⟩ := mem_gc_rows _ e he
  have hrow : map_wf row := h.2 _ h1
  unfold map_wf at hrow ⊢
  rw [h2]
  exact List.Nodup.sublist ((gc_row_sublist row).map _) hrow

theorem map_find_of_mem {β : Type} (m : umap β) (k : Nat) (v : β) (h : map_wf m)
    (hm : (k, v) ∈ m) : map_find m k = some v := by
  induction m with
  | nil => simp at hm
  | cons e rest ih =>
    obtain ⟨a, x⟩ := e
    have hn : a ∉ rest.map Prod.fst ∧ map_wf rest := by
      simpa [map_wf] using h
    rcases List.mem_cons.mp hm with heq | hm
    · simp only [Prod.mk.injEq] at heq
      simp [map_find, heq.1, heq.2]
    · have hne : a ≠ k := by
        rintro rfl
        exact hn.1 (List.mem_map.mpr ⟨_, hm, rfl⟩)
      simp [map_find, hne, ih hn.2 hm]

/-- Every reachable store is well formed and has no empty row entry. -/
theorem store_reachable_invariant (column_max row_max : Nat) (ws : worksheet_impl)
    (h : store_reachable column_max row_max ws) :
    no_empty_row ws.cell_map_ ∧ cell_map_wf ws.cell_map_ := by
  have hP : ∀ (ws : worksheet_impl) (ref : cell_reference) (f : cell_impl → cell_impl),
      (no_empty_row ws.cell_map_ ∧ cell_map_wf ws.cell_map_) →
      (no_empty_row (ws.update_cell ref f).cell_map_ ∧
        cell_map_wf (ws.update_cell ref f).cell_map_) :=
    fun ws ref f h => ⟨no_empty_row_update_cell ws ref f h.1, update_cell_wf ws ref f h.2⟩
  induction h with
  | create title =>
    refine ⟨fun e he => ?_, ?_⟩
    · simp [new_worksheet] at he
    · simp [new_worksheet, cell_map_wf, map_wf]
  | get_cell ws ref _ ih => exact ⟨no_empty_row_get_cell ws ref ih.1, get_cell_wf ws ref ih.2⟩
  | write ws ref f _ ih => exact hP ws ref f ih
  | garbage_collect ws _ ih =>
    exact ⟨fun e he => (gc_rows_clean _ e he).1, garbage_collect_wf ws ih.2⟩
  | merge_cells ws reference _ ih =>
    exact (operations_keep (fun m => no_empty_row m ∧ cell_map_wf m) hP ws ih).1 reference
  | unmerge_cells ws reference _ ih =>
    exact (operations_keep (fun m => no_empty_row m ∧ cell_map_wf m) hP ws ih).2.1 reference
  | append ws values _ ih =>
    exact (operations_keep (fun m => no_empty_row m ∧ cell_map_wf m) hP ws ih).2.2 _ _ values

/-- C25: the cell-store invariant.  No row entry of a new worksheet has an empty column
map, and the property is kept by the mutable `get_cell`, by `garbage_collect` (which
establishes it on any store), by `merge_cells`, by `unmerge_cells` (returning or throwing)
and by `append`; so it holds on every reachable store.  On a reachable store with at least
one row entry, whose columns are within the column type, `get_lowest_column` is the column
of a stored cell and a lower bound of the columns of the stored cells; when the columns are
below the maximum of the column type, it is not that maximum.  On a store with an empty row
entry `get_lowest_column` is the maximum of the column type. -/
theorem no_empty_row_invariant (column_max row_max : Nat) :
    (∀ title, no_empty_row (new_worksheet title).cell_map_) ∧
      (∀ (ws : worksheet_impl) (reference : cell_reference),
        no_empty_row ws.cell_map_ → no_empty_row (ws.get_cell reference).1.cell_map_) ∧
      (∀ ws : worksheet_impl, no_empty_row ws.garbage_collect.cell_map_) ∧
      (∀ (ws : worksheet_impl) (reference : range_reference),
        no_empty_row ws.cell_map_ → no_empty_row (ws.merge_cells reference).cell_map_) ∧
      (∀ (ws : worksheet_impl) (reference : range_reference),
        no_empty_row ws.cell_map_ →
          no_empty_row (ws.unmerge_cells reference).1.cell_map_) ∧
      (∀ (ws : worksheet_impl) (values : List string),
        no_empty_row ws.cell_map_ →
          no_empty_row (ws.append column_max row_max values).cell_map_) ∧
      (∀ ws, store_reachable column_max row_max ws → no_empty_row ws.cell_map_) ∧
      (∀ ws, store_reachable column_max row_max ws → ws.cell_map_ ≠ [] →
        (∀ c ∈ column_keys ws.cell_map_, c ≤ column_max) →
        (∃ r cell, ws.cell_at r (ws.get_lowest_column column_max) = some cell) ∧
          (∀ (r c : Nat) (cell : cell_impl), ws.cell_at r c = some cell →
            ws.get_lowest_column column_max ≤ c) ∧
          ((∀ c ∈ column_keys ws.cell_map_, c < column_max) →
            ws.get_lowest_column column_max < column_max)) ∧
      example_hollow_store.get_lowest_column column_max = column_max := by
  have hP : ∀ (ws : worksheet_impl) (ref : cell_reference) (f : cell_impl → cell_impl),
      no_empty_row ws.cell_map_ → no_empty_row (ws.update_cell ref f).cell_map_ :=
    no_empty_row_update_cell
  refine ⟨fun title e he => ?_, no_empty_row_get_cell,
    fun ws e he => (gc_rows_clean _ e he).1,
    fun ws reference h => (operations_keep no_empty_row hP ws h).1 reference,
    fun ws reference h => (operations_keep no_empty_row hP ws h).2.1 reference,
    fun ws values h => (operations_keep no_empty_row hP ws h).2.2 _ _ values,
    fun ws h => (store_reachable_invariant column_max row_max ws h).1,
    fun ws h hne hb => ?_, ?_⟩
  · simp [new_worksheet] at he
  · obtain ⟨hinv, hwf⟩ := store_reachable_invariant column_max row_max ws h
    have hemp : ws.cell_map_.isEmpty = false := by
      cases hm : ws.cell_map_ with
      | nil => exact absurd hm hne
      | cons _ _ => rfl
    have e1 : ws.get_lowest_column column_max =
        (column_keys ws.cell_map_).foldl min column_max := by
      simp only [worksheet_impl.get_lowest_column, hemp, Bool.false_eq_true, if_false]
      exact foldl_columns_eq min _ _
    obtain ⟨e0, he0⟩ := List.exists_mem_of_ne_nil _ hne
    obtain ⟨x0, hx0⟩ := List.exists_mem_of_ne_nil _ (hinv e0 he0)
    have hc0 : x0.1 ∈ column_keys ws.cell_map_ :=
      (mem_column_keys _ _).mpr ⟨e0, he0, x0, hx0, rfl⟩
    have hle := (foldl_min_le (column_keys ws.cell_map_) column_max).2
    have hmem : ws.get_lowest_column column_max ∈ column_keys ws.cell_map_ := by
      rw [e1]
      rcases foldl_min_mem (column_keys ws.cell_map_) column_max with h | h
      · have h1 := hle _ hc0
        have h2 := hb _ hc0
        have h3 : x0.1 = List.foldl min column_max (column_keys ws.cell_map_) := by omega
        rw [← h3]; exact hc0
      · exact h
    refine ⟨?_, fun r c cell hcell => ?_, fun hlt => lt_of_le_of_lt ?_ (hlt _ hc0)⟩
    · obtain ⟨e, he, x, hx, hk⟩ := (mem_column_keys _ _).mp hmem
      refine ⟨e.1, x.2, ?_⟩
      unfold worksheet_impl.cell_at
      rw [map_find_of_mem _ e.1 e.2 hwf.1 he, Option.some_bind, ← hk]
      exact map_find_of_mem _ x.1 x.2 (hwf.2 e he) hx
    · rw [e1]
      apply hle
      unfold worksheet_impl.cell_at at hcell
      cases hr : map_find ws.cell_map_ r with
      | none => simp [hr] at hcell
      | some row =>
        rw [hr, Option.some_bind] at hcell
        exact (mem_column_keys _ _).mpr
          ⟨(r, row), map_find_mem _ _ _ hr, (c, cell), map_find_mem _ _ _ hcell, rfl⟩
    · rw [e1]; exact hle _ hc0
  · simp [example_hollow_store, worksheet_impl.get_lowest_column, new_worksheet]

/-- Witness of C25: a worksheet built by `append`, `get_cell`, `merge_cells` and
`garbage_collect` has no empty row entry, and its lowest column, 1, is the column of a
stored cell and not the maximum of the column type. -/
theorem no_empty_row_invariant_witness :
    example_reached_store.cell_map_ ≠ [] ∧
      (∃ r cell, example_reached_store.cell_at r
        (example_reached_store.get_lowest_column 16384) = some cell) ∧
      example_reached_store.get_lowest_column 16384 = 1 ∧
      example_reached_store.cell_at 1 1 =
        some ⟨1, 1, cell_value.string "a".toList, false, none⟩ ∧
      example_reached_store.cell_at 5 3 = none ∧
      example_hollow_store.get_lowest_column 16384 = 16384 :=
  ⟨by decide,
    ((no_empty_row_invariant 16384 1048576).2.2.2.2.2.2.2.1 example_reached_store
      (store_reachable.garbage_collect _ (store_reachable.merge_cells _ _
        (store_reachable.get_cell _ _ (store_reachable.append _ _
          (store_reachable.create _)))))
      (by decide) (by decide)).1,
    by decide, by decide, by decide, by decide⟩

/-! ## The merge-flag invariant -/

theorem contains_iff (R : range_reference) (r c : Nat) :
    R.contains r c = true ↔ (⟨c, r⟩ : cell_reference) ∈ R.cells := by
  rw [mem_cells]
  simp [range_reference.contains, and_assoc]

theorem overlaps_false (R Q : range_reference) (h : R.overlaps Q = false) (r c : Nat) :
    ¬ (R.contains r c = true ∧ Q.contains r c = true) := by
  rintro ⟨h1, h2⟩
  have hm := (contains_iff R r c).mp h1
  have : R.overlaps Q = true := by
    unfold range_reference.overlaps
    exact List.any_eq_true.mpr ⟨⟨c, r⟩, hm, h2⟩
  rw [h] at this
  exact absurd this (by decide)

theorem merge_cell_is_merged (first : Bool) (cell : cell_impl) :
    (merge_cell first cell).is_merged = true := by
  unfold merge_cell
  simp only []
  split
  · split <;> rfl
  · rfl

/-- The function `merge_cells` of a range overlapping no recorded range keeps the
merge-flag invariant. -/
theorem merge_cells_consistent (ws : worksheet_impl) (reference : range_reference)
    (h : merge_flags_consistent ws)
    (hno : ∀ Q ∈ ws.merged_cells_, reference.overlaps Q = false) :
    merge_flags_consistent (ws.merge_cells reference) := by
  obtain ⟨hwf, hpw, hflag⟩ := h
  have hframe := merge_cells_loop_frame reference.cells
    { ws with merged_cells_ := ws.merged_cells_ ++ [reference] } true
  have hat := merge_cells_loop_cell_at reference.cells
    { ws with merged_cells_ := ws.merged_cells_ ++ [reference] } true (cells_nodup reference)
  have hm : (ws.merge_cells reference).merged_cells_ = ws.merged_cells_ ++ [reference] :=
    hframe.2
  refine ⟨(operations_keep cell_map_wf update_cell_wf ws hwf).1 reference, ?_, ?_⟩
  · rw [hm, List.pairwise_append]
    refine ⟨hpw, List.pairwise_singleton _ _, fun A hA B hB r c hboth => ?_⟩
    rw [List.mem_singleton] at hB
    subst hB
    exact overlaps_false B A (hno A hA) r c ⟨hboth.2, hboth.1⟩
  · intro r c cell hcell
    have hat' : (ws.merge_cells reference).cell_at r c = _ := hat r c
    rw [hm]
    by_cases hin : (⟨c, r⟩ : cell_reference) ∈ reference.cells
    · rw [hat', if_pos hin] at hcell
      have hc : cell.is_merged = true := by
        rw [← Option.some.inj hcell]; exact merge_cell_is_merged _ _
      exact ⟨fun _ => ⟨reference, by simp, (contains_iff _ _ _).mpr hin⟩, fun _ => hc⟩
    · rw [hat', if_neg hin] at hcell
      have hold := hflag r c cell hcell
      rw [hold]
      constructor
      · rintro ⟨R, hR, hc⟩
        exact ⟨R, List.mem_append_left _ hR, hc⟩
      · rintro ⟨R, hR, hc⟩
        rcases List.mem_append.mp hR with hR | hR
        · exact ⟨R, hR, hc⟩
        · rw [List.mem_singleton] at hR
          subst hR
          exact absurd ((contains_iff _ _ _).mp hc) hin

/-- A successful `unmerge_cells` keeps the merge-flag invariant. -/
theorem unmerge_cells_consistent (ws : worksheet_impl) (reference : range_reference)
    (h : merge_flags_consistent ws) (hin : reference ∈ ws.merged_cells_) :
    merge_flags_consistent (ws.unmerge_cells reference).1 := by
  obtain ⟨hwf, hpw, hflag⟩ := h
  have hframe := unmerge_cells_loop_frame reference.cells
    { ws with merged_cells_ := ws.merged_cells_.erase reference }
  have hat := unmerge_cells_loop_cell_at reference.cells
    { ws with merged_cells_ := ws.merged_cells_.erase reference }
  have hrun : ws.unmerge_cells reference =
      (unmerge_cells_loop reference.cells
        { ws with merged_cells_ := ws.merged_cells_.erase reference }, Outcome.returned ()) := by
    unfold worksheet_impl.unmerge_cells
    rw [if_pos hin]
  have hwf' := (operations_keep cell_map_wf update_cell_wf ws hwf).2.1 reference
  rw [hrun] at hwf' ⊢
  have hm : (unmerge_cells_loop reference.cells
      { ws with merged_cells_ := ws.merged_cells_.erase reference }).merged_cells_ =
      ws.merged_cells_.erase reference := hframe.2.1
  obtain ⟨before, after, hnb, hl, herase⟩ := List.exists_erase_eq hin
  have hdisj : ∀ Q ∈ ws.merged_cells_.erase reference, ∀ r c : Nat,
      ¬ (reference.contains r c = true ∧ Q.contains r c = true) := by
    intro Q hQ r c hboth
    rw [hl, List.pairwise_append, List.pairwise_cons] at hpw
    rw [herase] at hQ
    rcases List.mem_append.mp hQ with hQ | hQ
    · exact hpw.2.2 Q hQ reference (by simp) r c ⟨hboth.2, hboth.1⟩
    · exact hpw.2.1.1 Q hQ r c hboth
  refine ⟨hwf', ?_, ?_⟩
  · rw [hm]
    exact List.Pairwise.sublist (List.erase_sublist _ _) hpw
  · intro r c cell hcell
    rw [hm]
    by_cases hinr : (⟨c, r⟩ : cell_reference) ∈ reference.cells
    · rw [hat r c, if_pos hinr] at hcell
      have hc : cell.is_merged = false := by
        rw [← Option.some.inj hcell]; rfl
      constructor
      · intro h; rw [hc] at h; exact absurd h (by decide)
      · rintro ⟨Q, hQ, hcq⟩
        exact absurd ⟨(contains_iff _ _ _).mpr hinr, hcq⟩ (hdisj Q hQ r c)
    · rw [hat r c, if_neg hinr] at hcell
      have hold := hflag r c cell hcell
      rw [hold]
      constructor
      · rintro ⟨Q, hQ, hcq⟩
        have hne : Q ≠ reference := by
          rintro rfl
          exact hinr ((contains_iff _ _ _).mp hcq)
        exact ⟨Q, (List.mem_erase_of_ne hne).mpr hQ, hcq⟩
      · rintro ⟨Q, hQ, hcq⟩
        exact ⟨Q, List.mem_of_mem_erase hQ, hcq⟩

/-- The function `garbage_collect` keeps the merge-flag invariant. -/
theorem garbage_collect_consistent (ws : worksheet_impl) (h : merge_flags_consistent ws) :
    merge_flags_consistent ws.garbage_collect := by
  obtain ⟨hwf, hpw, hflag⟩ := h
  refine ⟨garbage_collect_wf ws hwf, hpw, fun r c cell hcell => ?_⟩
  rw [garbage_collect_cell_at ws hwf] at hcell
  have hold : ws.cell_at r c = some cell := by
    cases hc : ws.cell_at r c with
    | none => simp [hc, Option.filter] at hcell
    | some x =>
      rw [hc] at hcell
      simp only [Option.filter] at hcell
      split at hcell
      · exact hcell
      · exact absurd hcell (by simp)
  exact hflag r c cell hold

/-- C26: the merge-flag invariant.  On every worksheet reached from one with no merges by
`merge_cells` of ranges overlapping no recorded range, successful `unmerge_cells` and
`garbage_collect`, a stored cell has its merge flag set if and only if some recorded merged
range contains its reference.  With the overlapping merges `A1:B2` and `B2:C3`, unmerging
`A1:B2` returns and leaves `B2:C3` recorded, yet the stored cell `B2`, inside `B2:C3`, is
then unmerged. -/
theorem merge_flag_invariant :
    (∀ ws, merge_reachable ws →
        ∀ (r c : Nat) (cell : cell_impl), ws.cell_at r c = some cell →
          (cell.is_merged = true ↔ ∃ R ∈ ws.merged_cells_, R.contains r c = true)) ∧
      (example_range.overlaps ⟨⟨1, 1⟩, ⟨2, 2⟩⟩ = true ∧
        (example_overlap_sheet.unmerge_cells ⟨⟨1, 1⟩, ⟨2, 2⟩⟩).2 = Outcome.returned () ∧
        (example_overlap_sheet.unmerge_cells ⟨⟨1, 1⟩, ⟨2, 2⟩⟩).1.merged_cells_ =
          [example_range] ∧
        example_range.contains 2 2 = true ∧
        (example_overlap_sheet.unmerge_cells ⟨⟨1, 1⟩, ⟨2, 2⟩⟩).1.cell_at 2 2 =
          some ⟨2, 2, cell_value.empty, false, none⟩) := by
  refine ⟨fun ws h => ?_, by decide, by decide, by decide, by decide, by decide⟩
  have hinv : merge_flags_consistent ws := by
    induction h with
    | start ws hwf hm hflag =>
      refine ⟨hwf, by rw [hm]; exact List.Pairwise.nil, fun r c cell hcell => ?_⟩
      rw [hflag r c cell hcell, hm]
      simp
    | merge_cells ws reference _ hno ih => exact merge_cells_consistent ws reference ih hno
    | unmerge_cells ws reference _ hret ih =>
      have hin : reference ∈ ws.merged_cells_ := by
        by_contra hn
        unfold worksheet_impl.unmerge_cells at hret
        rw [if_neg hn] at hret
        exact absurd hret (by simp)
      exact unmerge_cells_consistent ws reference ih hin
    | garbage_collect ws _ ih => exact garbage_collect_consistent ws ih
  exact hinv.2.2

/-- Witness of C26: after merging `B2:C3` and `D5:E6`, unmerging `B2:C3` and collecting,
the stored cell `D5` is flagged and inside the recorded range `D5:E6`, and the unmerged
cells of `B2:C3` are gone. -/
theorem merge_flag_invariant_witness :
    example_disjoint_sheet.cell_at 5 4 = some ⟨4, 5, cell_value.empty, true, none⟩ ∧
      example_disjoint_sheet.merged_cells_ = [⟨⟨4, 5⟩, ⟨5, 6⟩⟩] ∧
      example_disjoint_sheet.cell_at 2 2 = none ∧
      ((⟨4, 5, cell_value.empty, true, none⟩ : cell_impl).is_merged = true ↔
        ∃ R ∈ example_disjoint_sheet.merged_cells_, R.contains 5 4 = true) :=
  ⟨by decide, by decide, by decide,
    merge_flag_invariant.1 example_disjoint_sheet
      (merge_reachable.garbage_collect _
        (merge_reachable.unmerge_cells _ example_range
          (merge_reachable.merge_cells _ ⟨⟨4, 5⟩, ⟨5, 6⟩⟩
            (merge_reachable.merge_cells _ example_range
              (merge_reachable.start (new_worksheet "Sheet".toList)
                (by unfold cell_map_wf map_wf; decide) (by decide)
                (fun r c cell h => by
                  simp [worksheet_impl.cell_at, new_worksheet, map_find] at h))
              (by decide))
            (by decide))
          (by decide)))
      5 4 ⟨4, 5, cell_value.empty, true, none⟩ (by decide)⟩

end xlnt
